import Mathlib

/-!
NetworkDB cluster maintenance (daemon/libnetwork/networkdb/cluster.go), with
the mount cleanup of daemon/daemon_linux.go and the child images of
daemon/internal/image/image.go.

A shallow embedding of the key ring operations, the peer sampling, the ticker
stagger, the three reapers, gossip, the bulk sync exchange (`bulkSyncNode`,
`bulkSync`, `bulkSyncTables`, `reconnectNode`) and the bootstrap rejoin of
`cluster.go`, of `cleanupMountsFromReaderByID` and `getCleanPatterns`, and of
`NewChildImage`, followed by the properties established for them.

Conventions of the embedding:

* a Go `string` is a `List Char` (`Str`); splitting on `"/"` and prefix tests
  act on it the way the Go functions act on the bytes of valid UTF-8 text;
* a Go `map` is an association list in iteration order; the functions do not
  require the keys to be distinct, the theorems that need it assume it;
* `time.Duration` is an `Int` count of nanoseconds and its arithmetic wraps
  at 64 bits (`wrap64`); a `float64` is the rational number it stands for,
  and `Duration.Seconds` rounds to the nearest `float64`, ties to even;
* a run-time panic (index out of range) is the result `none`;
* what comes from outside the embedded files (the random generator, the
  encoders, the reliable send, `net/netip`, `memberlist.Join`, package
  `regexp`, the `RootFS` operations, the error of `memberlist.NewKeyring`,
  the ack table found when the wait for a bulk sync ack ends) is a parameter.
-/

namespace Networkdb

/-! ## Basic types -/

/-- Go strings, as lists of characters. -/
abbrev Str := List Char

/-- An encryption key: a byte slice. -/
abbrev Key := List UInt8

/-- Nanosecond count of a `time.Duration` (an `int64`). -/
abbrev Duration := Int

/-- Two's-complement wrap-around of a 64-bit signed integer. -/
def wrap64 (x : Int) : Int := (x + 2 ^ 63) % 2 ^ 64 - 2 ^ 63

/-- Addition of two durations, `a + b` on `int64`. -/
def Duration.add (a b : Duration) : Duration := wrap64 (a + b)

/-- Subtraction of two durations, `a - b` on `int64`. -/
def Duration.sub (a b : Duration) : Duration := wrap64 (a - b)

/-- Constant `time.Second`. -/
def Second : Duration := 1000000000

/-- Constant `time.Hour`. -/
def Hour : Duration := 3600 * Second

/-- Constant `reapPeriod = 5 * time.Second`. -/
def reapPeriod : Duration := 5 * Second

/-- Constant `nodeReapInterval = 24 * time.Hour`. -/
def nodeReapInterval : Duration := 24 * Hour

/-- Constant `nodeReapPeriod = 2 * time.Hour`. -/
def nodeReapPeriod : Duration := 2 * Hour

/-- Largest value of a `time.Duration`. -/
def maxDuration : Duration := 2 ^ 63 - 1

/-! ## Key ring -/

/-- Modelled from the spec: the key ring of the membership substrate
(`memberlist.Keyring`, not part of the sources at hand). Section 4.8 describes
it as a list of symmetric keys with a distinguished primary; the primary is
kept at the head of `keys`. -/
structure Keyring where
  keys : List Key
deriving DecidableEq, Repr

namespace Keyring

/-- Modelled from the spec: the distinguished primary key, the head of the
ring (the key ring itself is not part of the sources at hand). -/
def GetPrimaryKey (k : Keyring) : Option Key := k.keys.head?

/-- Modelled from the spec: reorder `keys` so that `primary` comes first
(helper of the key ring, which is not part of the sources at hand). -/
def installKeys (keys : List Key) (primary : Key) : Keyring :=
  ⟨primary :: keys.filter (fun x => !(x == primary))⟩

/-- Modelled from the spec: `NewKeyring(keys, primary)` of the key ring (not
part of the sources at hand): a ring holding `keys` whose primary is
`primary`. -/
def NewKeyring (keys : List Key) (primary : Key) : Keyring :=
  installKeys keys primary

/-- Modelled from the spec: `AddKey` of the key ring (not part of the sources
at hand): "adds if absent"; the primary is unchanged. -/
def AddKey (k : Keyring) (key : Key) : Keyring :=
  if k.keys.any (fun x => x == key) then k
  else installKeys (k.keys ++ [key]) ((k.GetPrimaryKey).getD key)

/-- Modelled from the spec: `UseKey` of the key ring (not part of the sources
at hand): makes `key` the primary; the key "must already be present",
otherwise nothing changes. -/
def UseKey (k : Keyring) (key : Key) : Keyring :=
  if k.keys.any (fun x => x == key) then installKeys k.keys key else k

/-- Modelled from the spec: `RemoveKey` of the key ring (not part of the
sources at hand): "forbidden for the primary", otherwise the key is dropped. -/
def RemoveKey (k : Keyring) (key : Key) : Keyring :=
  if k.GetPrimaryKey = some key then k
  else ⟨k.keys.filter (fun x => !(x == key))⟩

end Keyring

/-- The part of the database handle used by `SetKey`, `SetPrimaryKey` and
`RemoveKey`: `nDB.config.Keys` and `nDB.keyring` (`none` is the nil pointer
before `clusterInit`). -/
structure KeyState where
  Keys : List Key
  keyring : Option Keyring
deriving DecidableEq, Repr

/-- Index of the first element of `keys` that is byte-equal to `key`
(the `for i, dbKey := range ... if bytes.Equal(key, dbKey)` search). -/
def findKey (key : Key) : List Key → Option Nat
  | [] => none
  | dbKey :: rest => if key = dbKey then some 0 else (findKey key rest).map (· + 1)

/-- Embedding of `NetworkDB.SetKey`. -/
def SetKey (s : KeyState) (key : Key) : KeyState :=
  match findKey key s.Keys with
  | some _ => s
  | none =>
    { Keys := s.Keys ++ [key]
      keyring := s.keyring.map (fun r => r.AddKey key) }

/-- Embedding of `NetworkDB.SetPrimaryKey`. -/
def SetPrimaryKey (s : KeyState) (key : Key) : KeyState :=
  match findKey key s.Keys with
  | some _ => { s with keyring := s.keyring.map (fun r => r.UseKey key) }
  | none => s

/-- Embedding of `NetworkDB.RemoveKey`:
`append(Keys[:i], Keys[i+1:]...)` at the first matching index `i`. -/
def RemoveKey (s : KeyState) (key : Key) : KeyState :=
  match findKey key s.Keys with
  | some i =>
    { Keys := s.Keys.take i ++ s.Keys.drop (i + 1)
      keyring := s.keyring.map (fun r => r.RemoveKey key) }
  | none => s

/-- The key ring part of `clusterInit` (lines 126-136) and whether
`clusterInit` goes on after it. `newKeyringFails keys primary` says whether
`memberlist.NewKeyring(keys, primary)` returns an error (the key ring library
is not part of the sources at hand). With an empty key list the ring stays
nil. With a non-empty list the ring is `NewKeyring(Keys, Keys[0])`; when that
call fails, `keyring` is nil and `clusterInit` returns the error, which is the
result `false`. -/
def clusterInitKeys (newKeyringFails : List Key → Key → Bool) (s : KeyState) :
    KeyState × Bool :=
  match s.Keys with
  | [] => (s, true)
  | k0 :: _ =>
    if newKeyringFails s.Keys k0 then ({ s with keyring := none }, false)
    else ({ s with keyring := some (Keyring.NewKeyring s.Keys k0) }, true)

/-- The current primary key, if a key ring exists. -/
def primaryKey (s : KeyState) : Option Key :=
  s.keyring.bind Keyring.GetPrimaryKey

/-! ## Random peer selection -/

/-- Outcome of the calls made on `nDB.rng`: `Perm n` is the slice returned by
`rng.Perm(n)`, `Shuffle n` the sequence of `swap(i, j)` calls made by
`rng.Shuffle(n, swap)`. -/
structure Rng where
  Perm : Nat → List Nat
  Shuffle : Nat → List (Nat × Nat)

/-- The contract of the generator for size `n`: `Perm n` is a permutation of
`0 .. n-1` and `Shuffle n` only swaps positions below `n`. -/
def Rng.Valid (r : Rng) (n : Nat) : Prop :=
  (r.Perm n).Perm (List.range n) ∧ ∀ p ∈ r.Shuffle n, p.1 < n ∧ p.2 < n

/-- The assignment `l[i], l[j] = l[j], l[i]`; `none` when an index is out of
range. -/
def swap {α : Type} (l : List α) (i j : Nat) : Option (List α) :=
  match l[i]?, l[j]? with
  | some a, some b => some ((l.set i b).set j a)
  | _, _ => none

/-- Run a sequence of swaps on a slice. -/
def applySwaps {α : Type} : List (Nat × Nat) → List α → Option (List α)
  | [], l => some l
  | (i, j) :: rest, l => (swap l i j).bind (applySwaps rest)

/-- The loop `for _, idx := range perm[:m] { sample = append(sample, mNodes[idx]) }`. -/
def sampleAt {α : Type} (mNodes : List α) : List Nat → Option (List α)
  | [] => some []
  | idx :: rest =>
    match mNodes[idx]?, sampleAt mNodes rest with
    | some x, some s => some (x :: s)
    | _, _ => none

/-- Embedding of `mRandomNodes(m, nodes)` for the local node id `self` and the
generator outcome `rng`. -/
def mRandomNodes (self : Str) (rng : Rng) (m : Nat) (nodes : List Str) : Option (List Str) :=
  let mNodes := nodes.filter (fun node => !(node == self))
  if mNodes.length < m then
    applySwaps (rng.Shuffle mNodes.length) mNodes
  else
    let perm := rng.Perm mNodes.length
    if m ≤ perm.length then sampleAt mNodes (perm.take m) else none


/-! ## Store, indexes and membership tables -/

/-- The `entry` record held by both indexes (fields read by `cluster.go`). -/
structure entry where
  ltime : Nat
  node : Str
  value : List UInt8
  deleting : Bool
  reapTime : Duration
deriving DecidableEq, Repr, Inhabited

/-- The `node` record of the membership tables: the embedded
`memberlist.Node` name, address and port, and the reap counter. -/
structure node where
  Name : Str
  Addr : List UInt8
  Port : Nat
  reapTime : Duration
deriving DecidableEq, Repr, Inhabited

/-- The membership record of a network (fields read by the reapers). -/
structure network where
  leaving : Bool
  reapTime : Duration
deriving DecidableEq, Repr, Inhabited

/-- A radix tree from paths to `*entry` pointers, as the list of its leaves in
walk order. -/
abbrev Index := List (Str × Nat)

/-- The database handle. `heap` gives the `entry` behind each pointer: the
two indexes share the pointers, so a write through one is seen through the
other. `bulkSyncAckTbl` maps a peer to its ack channel, `bootStrapIP` and
`BindPort` are `nDB.bootStrapIP` and `nDB.config.BindPort`. -/
structure NetworkDB where
  NodeID : Str
  tableClock : Nat
  heap : Nat → entry
  byTable : Index
  byNetwork : Index
  thisNodeNetworks : List (Str × network)
  networks : List (Str × List (Str × network))
  networkNodes : List (Str × List Str)
  nodes : List (Str × node)
  failedNodes : List (Str × node)
  leftNodes : List (Str × node)
  bulkSyncAckTbl : List (Str × Nat) := []
  bootStrapIP : List Str := []
  BindPort : Int := 0

/-- The call `strings.Split(s, "/")`. -/
def split : Str → List Str
  | [] => [[]]
  | c :: cs =>
    if c = '/' then [] :: split cs
    else
      match split cs with
      | [] => [[c]]
      | w :: ws => (c :: w) :: ws

/-- The path `"/" + a + "/" + b + "/" + c` of an index leaf. -/
def mkPath (a b c : Str) : Str := '/' :: (a ++ '/' :: (b ++ '/' :: c))

/-- The walk `Root().WalkPrefix(prefix, fn)`: the leaves whose path starts
with `prefix`, in order (every callback of `cluster.go` returns `false`, so
the walk never stops early). -/
def WalkPrefix (t : Index) (pfx : Str) : Index :=
  t.filter (fun leaf => pfx.isPrefixOf leaf.1)

/-- The call `tree.Delete(path)`: the tree without the leaf at `path`, and
whether there was one. -/
def Index.Delete (t : Index) (path : Str) : Index × Bool :=
  (t.filter (fun leaf => !(leaf.1 == path)), t.any (fun leaf => leaf.1 == path))

/-- Modelled from the spec: `deleteEntry(nid, tname, key)`, defined outside
the sources at hand. It removes the leaf `"/tname/nid/key"` from the by-table
index and the leaf `"/nid/tname/key"` from the by-network index, and reports
for each index whether the leaf was there. -/
def deleteEntry (db : NetworkDB) (nid tname key : Str) : NetworkDB × Bool × Bool :=
  let rt := Index.Delete db.byTable (mkPath tname nid key)
  let rn := Index.Delete db.byNetwork (mkPath nid tname key)
  ({ db with byTable := rt.1, byNetwork := rn.1 }, rt.2, rn.2)

/-! ## Reapers -/

/-- One pass of the loop of `reapDeadNode` over one node table. -/
def reapNodeMap (m : List (Str × node)) : List (Str × node) :=
  m.filterMap (fun kv =>
    if kv.2.reapTime > nodeReapPeriod then
      some (kv.1, { kv.2 with reapTime := Duration.sub kv.2.reapTime nodeReapPeriod })
    else none)

/-- Embedding of `reapDeadNode`. -/
def reapDeadNode (db : NetworkDB) : NetworkDB :=
  { db with failedNodes := reapNodeMap db.failedNodes, leftNodes := reapNodeMap db.leftNodes }

/-- One pass of the loop of `reapNetworks` over one network table. -/
def reapNetworkMap (m : List (Str × network)) : List (Str × network) :=
  m.filterMap (fun kv =>
    if kv.2.leaving then
      if kv.2.reapTime ≤ 0 then none
      else some (kv.1, { kv.2 with reapTime := Duration.sub kv.2.reapTime reapPeriod })
    else some kv)

/-- Embedding of `reapNetworks`. -/
def reapNetworks (db : NetworkDB) : NetworkDB :=
  { db with
    thisNodeNetworks := reapNetworkMap db.thisNodeNetworks
    networks := db.networks.map (fun nn => (nn.1, reapNetworkMap nn.2)) }

/-- The callback of the walk of `reapTableEntries` at the leaf `(path, v)`,
with `c` the value of `time.Since(cycleStart)` at that moment. -/
def reapVisit (c : Duration) (db : NetworkDB) (path : Str) (v : Nat) : Option NetworkDB :=
  let e := db.heap v
  if !e.deleting then some db
  else if e.reapTime > Duration.add (Duration.add reapPeriod c) Second then
    some { db with
      heap := Function.update db.heap v
        { e with reapTime := Duration.sub e.reapTime (Duration.add reapPeriod c) } }
  else
    match path with
    | [] => none
    | _ :: rest =>
      let params := split rest
      match params[0]?, params[1]?, params[2]? with
      | some nwID, some tName, some key => some (deleteEntry db nwID tName key).1
      | _, _, _ => none

/-- The walk of `reapTableEntries` over the leaves of one snapshot; `clock i`
is the time compensation read at the `i`-th visit of the cycle. -/
def reapWalk (clock : Nat → Duration) : Index → Nat × NetworkDB → Option (Nat × NetworkDB)
  | [], s => some s
  | leaf :: rest, s =>
    (reapVisit (clock s.1) s.2 leaf.1 leaf.2).bind (fun db => reapWalk clock rest (s.1 + 1, db))

/-- The loop of `reapTableEntries` over the collected network ids. -/
def reapLoop (clock : Nat → Duration) : List Str → Nat × NetworkDB → Option (Nat × NetworkDB)
  | [], s => some s
  | nid :: rest, s =>
    (reapWalk clock (WalkPrefix s.2.byNetwork ('/' :: nid)) s).bind (reapLoop clock rest)

/-- Embedding of `reapTableEntries`. -/
def reapTableEntries (clock : Nat → Duration) (db : NetworkDB) : Option NetworkDB :=
  (reapLoop clock (db.thisNodeNetworks.map Prod.fst) (0, db)).map Prod.snd

/-- Run `reapTableEntries` `k` times with time compensation `0`. -/
def reapPasses : Nat → NetworkDB → Option NetworkDB
  | 0, db => some db
  | k + 1, db => (reapTableEntries (fun _ => 0) db).bind (reapPasses k)

/-- Run `reapDeadNode` `k` times. -/
def reapDeadNodeRuns : Nat → NetworkDB → NetworkDB
  | 0, db => db
  | k + 1, db => reapDeadNodeRuns k (reapDeadNode db)

/-! ## Bulk sync snapshot -/

/-- An encoded message (`[]byte`). -/
abbrev Msg := List UInt8

/-- The `TableEvent_Type` values used by `cluster.go`. -/
inductive TableEventType where
  | TableEventTypeCreate
  | TableEventTypeUpdate
  | TableEventTypeDelete
deriving DecidableEq, Repr

/-- The wire record `TableEvent`; `EvType` is its field `Type`. -/
structure TableEvent where
  EvType : TableEventType
  LTime : Nat
  NodeName : Str
  NetworkID : Str
  TableName : Str
  Key : Str
  Value : List UInt8
  ResidualReapTime : Int
deriving DecidableEq, Repr

/-- The wire record `BulkSyncMessage`; `Payload` holds the messages handed to
`makeCompoundMessage`. -/
structure BulkSyncMessage where
  LTime : Nat
  Unsolicited : Bool
  NodeName : Str
  Networks : List Str
  Payload : List Msg
deriving DecidableEq, Repr

/-- Rounding of a rational to the nearest integer, a tie going to the even
one. -/
def roundEven (x : ℚ) : Int :=
  if x - ⌊x⌋ < 1 / 2 then ⌊x⌋
  else if 1 / 2 < x - ⌊x⌋ then ⌊x⌋ + 1
  else if ⌊x⌋ % 2 = 0 then ⌊x⌋ else ⌊x⌋ + 1

/-- The distance between neighbouring `float64` values at `q > 0`: with
`2^e <= q < 2^(e+1)` it is `2^(e-52)` (53 significant bits). -/
def ulp (q : ℚ) : ℚ := 2 ^ (Int.log 2 q - 52)

/-- The `float64` nearest to `q >= 0`, a tie going to the even significand. -/
def roundPos (q : ℚ) : ℚ := roundEven (q / ulp q) * ulp q

/-- The rounding of `float64` arithmetic: the result of an operation whose
exact value is `q` (round to nearest, ties to even). The exponent range is not
bounded here; the values that `Seconds` meets have a magnitude between `2^-30`
and `2^34`, far from the limits of the format. -/
def roundFloat64 (q : ℚ) : ℚ := if q < 0 then -roundPos (-q) else roundPos q

/-- Embedding of `Duration.Seconds` of package `time`:
`float64(sec) + float64(nsec)/1e9` with `sec := d / Second` and
`nsec := d % Second`. The two integers convert to `float64` exactly; the
division and the sum are rounded. The value is the `float64` as a rational. -/
def Duration.Seconds (d : Duration) : ℚ :=
  roundFloat64 (((Int.tdiv d Second : Int) : ℚ)
    + roundFloat64 (((Int.tmod d Second : Int) : ℚ) / 1000000000))

/-- The integer part of a `float64`, rounded toward zero, as taken by a
conversion to an integer type. -/
def truncFloat (x : ℚ) : Int := if 0 ≤ x then ⌊x⌋ else ⌈x⌉

/-- The conversion to `int32` of an integer part `x`. Values outside the
`int32` range wrap here; Go leaves that case to the implementation (amd64
gives `-2^31`, which is also the wrapped value of `2^31`). -/
def toInt32 (x : Int) : Int := (x + 2 ^ 31) % 2 ^ 32 - 2 ^ 31

/-- The `TableEvent` built by the callback of the walk of `bulkSyncNode` for
the network `nid` at the leaf `(path, v)`. -/
def bulkSyncVisit (db : NetworkDB) (nid path : Str) (v : Nat) : Option TableEvent :=
  let e := db.heap v
  let eType :=
    if e.deleting then TableEventType.TableEventTypeDelete
    else TableEventType.TableEventTypeCreate
  match path with
  | [] => none
  | _ :: rest =>
    let params := split rest
    match params[1]?, params[2]? with
    | some tName, some key =>
      some
        { EvType := eType
          LTime := e.ltime
          NodeName := e.node
          NetworkID := nid
          TableName := tName
          Key := key
          Value := e.value
          ResidualReapTime := toInt32 (truncFloat (Duration.Seconds e.reapTime)) }
    | _, _ => none

/-- The walk of `bulkSyncNode` over the leaves of one network: every event
that `encodeMessage` accepts is appended to `msgs`. -/
def bulkSyncWalk (db : NetworkDB) (encodeMessage : TableEvent → Option Msg) (nid : Str) :
    Index → List Msg → Option (List Msg)
  | [], msgs => some msgs
  | leaf :: rest, msgs =>
    match bulkSyncVisit db nid leaf.1 leaf.2 with
    | none => none
    | some tEvent =>
      match encodeMessage tEvent with
      | none => bulkSyncWalk db encodeMessage nid rest msgs
      | some msg => bulkSyncWalk db encodeMessage nid rest (msgs ++ [msg])

/-- The loop of `bulkSyncNode` over `networks`. -/
def bulkSyncLoop (db : NetworkDB) (encodeMessage : TableEvent → Option Msg) :
    List Str → List Msg → Option (List Msg)
  | [], msgs => some msgs
  | nid :: rest, msgs =>
    (bulkSyncWalk db encodeMessage nid (WalkPrefix db.byNetwork ('/' :: nid)) msgs).bind
      (bulkSyncLoop db encodeMessage rest)

/-- The message assembled by `bulkSyncNode(networks, node, unsolicited)`:
`some none` when the peer is unknown (the function returns `nil` at once),
`some (some bsm)` for the `BulkSyncMessage` that is then encoded and sent. -/
def bulkSyncNode (db : NetworkDB) (encodeMessage : TableEvent → Option Msg)
    (networks : List Str) (node : Str) (unsolicited : Bool) : Option (Option BulkSyncMessage) :=
  match db.nodes.lookup node with
  | none => some none
  | some _ =>
    (bulkSyncLoop db encodeMessage networks []).map (fun msgs =>
      some
        { LTime := db.tableClock
          Unsolicited := unsolicited
          NodeName := db.NodeID
          Networks := networks
          Payload := msgs })

/-! ## Gossip -/

/-- A call `SendBestEffort(&mnode.Node, compound)` of `gossip`: the picked
peer id, the node record found for it and the messages of the compound. -/
structure GossipSend where
  peer : Str
  mnode : node
  compound : List Msg
deriving DecidableEq, Repr

/-- The loop of `gossip` over the picked peers; it stops at the first peer
that is missing from `nDB.nodes`. -/
def gossipSends (db : NetworkDB) (compound : List Msg) : List Str → List GossipSend
  | [] => []
  | peer :: rest =>
    match db.nodes.lookup peer with
    | none => []
    | some mnode => ⟨peer, mnode, compound⟩ :: gossipSends db compound rest

/-- The loop of `gossip` over the collected `networkNodes`; `rng i` is the
outcome of the generator at the `i`-th iteration and `getBroadcasts nid` the
messages drained from the queues of network `nid`. -/
def gossipLoop (db : NetworkDB) (rng : Nat → Rng) (getBroadcasts : Str → List Msg) :
    List (Str × List Str) → Nat → Option (List GossipSend)
  | [], _ => some []
  | nn :: rest, i =>
    match mRandomNodes db.NodeID (rng i) 3 nn.2 with
    | none => none
    | some mNodes =>
      match gossipLoop db rng getBroadcasts rest (i + 1) with
      | none => none
      | some later =>
        match db.thisNodeNetworks.lookup nn.1 with
        | none => some later
        | some _ =>
          let msgs := getBroadcasts nn.1
          if msgs.length = 0 then some later
          else some (gossipSends db msgs mNodes ++ later)

/-- Embedding of `gossip`: the sends it makes, in order. -/
def gossip (db : NetworkDB) (rng : Nat → Rng) (getBroadcasts : Str → List Msg) :
    Option (List GossipSend) :=
  gossipLoop db rng getBroadcasts
    (db.thisNodeNetworks.map (fun kv => (kv.1, (db.networkNodes.lookup kv.1).getD []))) 0

/-! ## Bulk sync exchange -/

/-- The errors returned by `bulkSyncNode` and `bulkSync`: the bulk sync
message could not be encoded, the reliable send failed, or (as wrapped by
`bulkSync`) the bulk sync to a node failed for one of these causes. -/
inductive SyncErr where
  | encode
  | send
  | peer (node : Str) (cause : SyncErr)
deriving DecidableEq, Repr

/-- A call `SendReliable(&mnode.Node, buf)`: the peer id, its node record,
the message and its encoding, and whether the send succeeded. -/
structure ReliableSend where
  peer : Str
  mnode : node
  bsm : BulkSyncMessage
  buf : Msg
  ok : Bool
deriving DecidableEq, Repr

/-- A call `bulkSyncNode(networks, node, unsolicited)` and the error it
returned (`none` is `nil`). -/
structure SyncCall where
  networks : List Str
  node : Str
  unsolicited : Bool
  err : Option SyncErr
deriving DecidableEq, Repr

/-- What the bulk sync code gets from outside `cluster.go`: the two encoders,
the outcome of the reliable send (`SendReliable k mnode buf` is `true` when
the send made after `k` earlier sends returns no error),
`findCommonNetworks`, and the outcome of the wait of an unsolicited sync:
`awaitAck k peer tbl` is the ack table found when the wait that follows the
send made after `k` earlier sends is over, `tbl` being the table when the
wait began. The wait ends when the ack handler, which is not part of the
sources at hand, has closed the channel of `peer`, or with the 30 s timer. -/
structure Env where
  encodeMessage : TableEvent → Option Msg
  encodeBulkSync : BulkSyncMessage → Option Msg
  SendReliable : Nat → node → Msg → Bool
  findCommonNetworks : Str → List Str
  awaitAck : Nat → Str → List (Str × Nat) → List (Str × Nat)

/-- The database together with the reliable sends and the `bulkSyncNode`
calls made so far. -/
structure SyncState where
  db : NetworkDB
  sends : List ReliableSend
  calls : List SyncCall

/-- The channel made by `make(chan struct{})`: one that is not in the table. -/
def freshChan (tbl : List (Str × Nat)) : Nat := (tbl.map Prod.snd).foldr max 0 + 1

/-- The assignment `bulkSyncAckTbl[node] = ch`. -/
def ackInsert (tbl : List (Str × Nat)) (peer : Str) (ch : Nat) : List (Str × Nat) :=
  (peer, ch) :: tbl.filter (fun kv => !(kv.1 == peer))

/-- The call `delete(bulkSyncAckTbl, node)`. -/
def ackDelete (tbl : List (Str × Nat)) (peer : Str) : List (Str × Nat) :=
  tbl.filter (fun kv => !(kv.1 == peer))

/-- Embedding of a whole call `bulkSyncNode(networks, node, unsolicited)`: the
message is assembled as in `bulkSyncNode` above, encoded, the ack channel is
registered, the message is sent and on a failed send the channel is removed
again. After a successful send an unsolicited sync waits for the ack or the
timer (lines 688-698) and returns `nil` either way, with the ack table as
`awaitAck` gives it; a sync that is not unsolicited returns at once. The
result is the new state and the returned error. -/
def bulkSyncNodeCall (env : Env) (st : SyncState) (networks : List Str) (peer : Str)
    (unsolicited : Bool) : Option (SyncState × Option SyncErr) :=
  match st.db.nodes.lookup peer with
  | none =>
    some ({ st with calls := st.calls ++ [⟨networks, peer, unsolicited, none⟩] }, none)
  | some mnode =>
    match bulkSyncNode st.db env.encodeMessage networks peer unsolicited with
    | some (some bsm) =>
      match env.encodeBulkSync bsm with
      | none =>
        some ({ st with calls := st.calls ++ [⟨networks, peer, unsolicited, some SyncErr.encode⟩] },
          some SyncErr.encode)
      | some buf =>
        let ch := freshChan st.db.bulkSyncAckTbl
        let tbl := ackInsert st.db.bulkSyncAckTbl peer ch
        if env.SendReliable st.sends.length mnode buf then
          some
            ({ db :=
                 { st.db with
                   bulkSyncAckTbl :=
                     if unsolicited then env.awaitAck st.sends.length peer tbl else tbl }
               sends := st.sends ++ [⟨peer, mnode, bsm, buf, true⟩]
               calls := st.calls ++ [⟨networks, peer, unsolicited, none⟩] }, none)
        else
          some
            ({ db := { st.db with bulkSyncAckTbl := ackDelete tbl peer }
               sends := st.sends ++ [⟨peer, mnode, bsm, buf, false⟩]
               calls := st.calls ++ [⟨networks, peer, unsolicited, some SyncErr.send⟩] },
              some SyncErr.send)
    | _ => none

/-- The variables `err`, `networks` and `success` of `bulkSync`. -/
structure SyncVars where
  err : Option SyncErr
  networks : List Str
  success : Bool
deriving DecidableEq, Repr

/-- The loop of `bulkSync` over the nodes. -/
def bulkSyncNodes (env : Env) (all : Bool) :
    List Str → SyncState → SyncVars → Option (SyncState × SyncVars)
  | [], st, vars => some (st, vars)
  | peer :: rest, st, vars =>
    if peer == st.db.NodeID then bulkSyncNodes env all rest st vars
    else
      let networks := env.findCommonNetworks peer
      match bulkSyncNodeCall env st networks peer true with
      | none => none
      | some (st1, some e) =>
        bulkSyncNodes env all rest st1
          { err := some (SyncErr.peer peer e), networks := networks, success := vars.success }
      | some (st1, none) =>
        if !all then some (st1, { err := none, networks := networks, success := true })
        else bulkSyncNodes env all rest st1 { err := none, networks := networks, success := true }

/-- Embedding of `bulkSync(nodes, all)`: the new state, the returned network
list (`[]` is `nil`) and the returned error. -/
def bulkSync (env : Env) (rng : Rng) (st : SyncState) (nodes : List Str) (all : Bool) :
    Option (SyncState × List Str × Option SyncErr) :=
  match (if !all then mRandomNodes st.db.NodeID rng 2 nodes else some nodes) with
  | none => none
  | some picked =>
    if picked.length = 0 then some (st, [], none)
    else
      match bulkSyncNodes env all picked st { err := none, networks := [], success := false } with
      | none => none
      | some (st1, vars) =>
        if vars.success then some (st1, vars.networks, none)
        else some (st1, [], vars.err)

/-- One iteration of the loop of `bulkSyncTables`: the network taken from the
work list and what `bulkSync` returned for it (`none` when the network has no
peer and `bulkSync` is not called). -/
structure TickStep where
  nid : Str
  result : Option (List Str × Option SyncErr)
deriving DecidableEq, Repr

/-- The loop `for len(networks) != 0` of `bulkSyncTables`, for at most `fuel`
iterations (`none` when they do not suffice); `rng i` is the outcome of the
generator at iteration `i`. -/
def bulkSyncTablesLoop (env : Env) (rng : Nat → Rng) :
    Nat → Nat → List Str → SyncState → Option (SyncState × List TickStep)
  | _, _, [], st => some (st, [])
  | 0, _, _ :: _, _ => none
  | fuel + 1, i, nid :: networks, st =>
    let nodes := (st.db.networkNodes.lookup nid).getD []
    if nodes.length = 0 then
      (bulkSyncTablesLoop env rng fuel (i + 1) networks st).map
        (fun r => (r.1, ⟨nid, none⟩ :: r.2))
    else
      match bulkSync env (rng i) st nodes false with
      | none => none
      | some (st1, completed, some e) =>
        (bulkSyncTablesLoop env rng fuel (i + 1) networks st1).map
          (fun r => (r.1, ⟨nid, some (completed, some e)⟩ :: r.2))
      | some (st1, completed, none) =>
        (bulkSyncTablesLoop env rng fuel (i + 1)
          (networks.filter (fun n => !(completed.contains n))) st1).map
          (fun r => (r.1, ⟨nid, some (completed, none)⟩ :: r.2))

/-- Embedding of `bulkSyncTables`: the work list holds the joined networks
that are not leaving, and one iteration per network of that list is allowed. -/
def bulkSyncTables (env : Env) (rng : Nat → Rng) (st : SyncState) :
    Option (SyncState × List TickStep) :=
  let networks := (st.db.thisNodeNetworks.filter (fun kv => !kv.2.leaving)).map Prod.fst
  bulkSyncTablesLoop env rng networks.length 0 networks st

/-- Embedding of `reconnectNode`. `offset` is the outcome of
`rng.IntN(len(nodes))`; `memberlistJoin db n` is the database after a
successful `memberlist.Join` of the address of `n` (`none` when it fails) and
`sendNodeEvent db` the database after a successful
`sendNodeEvent(NodeEventTypeJoin)` (`none` when it fails). -/
def reconnectNode (env : Env) (memberlistJoin : NetworkDB → node → Option NetworkDB)
    (sendNodeEvent : NetworkDB → Option NetworkDB) (offset : Nat) (rng : Rng)
    (st : SyncState) : Option SyncState :=
  if st.db.failedNodes.length = 0 then some st
  else
    match (st.db.failedNodes.map Prod.snd)[offset]? with
    | none => none
    | some n =>
      match memberlistJoin st.db n with
      | none => some st
      | some db1 =>
        match sendNodeEvent db1 with
        | none => some { st with db := db1 }
        | some db2 => (bulkSync env rng { st with db := db2 } [n.Name] true).map (fun r => r.1)

/-! ## Bootstrap rejoin -/

/-- A valid `netip.Addr`, as the bytes that identify it. -/
abbrev Addr := List UInt8

/-- A `netip.AddrPort`: the address (`none` is the zero `Addr`, which is not
valid) and the port. -/
abbrev AddrPort := Option Addr × Nat

/-- The functions of `net/netip` used by `rejoinClusterBootStrap`; each
returns `none` where the Go function fails. -/
structure Netip where
  ParseAddrPort : Str → Option (Addr × Nat)
  ParseAddr : Str → Option Addr
  AddrFromSlice : List UInt8 → Option Addr

/-- The value of `bootstrapIP` after the two parsing attempts on `bootIP`. -/
def parseBootstrap (nip : Netip) (db : NetworkDB) (bootIP : Str) : AddrPort :=
  match nip.ParseAddrPort bootIP with
  | some ap => (some ap.1, ap.2)
  | none =>
    match nip.ParseAddr bootIP with
    | some addr => (some addr, (db.BindPort % 65536).toNat)
    | none => (none, 0)

/-- The loop over `nDB.nodes` for one bootstrap address: whether a node other
than `myself` (the entry of the local node id) has that address and port. -/
def bootstrapInCluster (nip : Netip) (db : NetworkDB) (bootstrapIP : AddrPort) : Bool :=
  db.nodes.any (fun kv =>
    !(kv.1 == db.NodeID) && (bootstrapIP == (nip.AddrFromSlice kv.2.Addr, kv.2.Port)))

/-- The loop of `rejoinClusterBootStrap` over the bootstrap addresses; `none`
when it returns from the function because a bootstrap node is in the cluster,
otherwise the collected `bootStrapIPs`. -/
def rejoinLoop (nip : Netip) (db : NetworkDB) : List Str → List Str → Option (List Str)
  | [], bootStrapIPs => some bootStrapIPs
  | bootIP :: rest, bootStrapIPs =>
    let bootstrapIP := parseBootstrap nip db bootIP
    if bootstrapIP.1.isSome then
      if bootstrapInCluster nip db bootstrapIP then none
      else rejoinLoop nip db rest (bootStrapIPs ++ [bootIP])
    else rejoinLoop nip db rest bootStrapIPs

/-- Embedding of `rejoinClusterBootStrap`: the argument of the call of
`retryJoin`, or `none` when the function returns without calling it. -/
def rejoinClusterBootStrap (nip : Netip) (db : NetworkDB) : Option (List Str) :=
  if db.bootStrapIP.length = 0 then none
  else
    match db.nodes.lookup db.NodeID with
    | none => none
    | some _ =>
      match rejoinLoop nip db db.bootStrapIP [] with
      | none => none
      | some bootStrapIPs => if bootStrapIPs.length = 0 then none else some bootStrapIPs

/-! ## Ticker stagger -/

/-- The conversion `uint64(x)` of a 64-bit signed integer. -/
def toUint64 (x : Int) : Nat := (x % 2 ^ 64).toNat

/-- The initial delay of `triggerFunc`:
`time.Duration(uint64(rnd.Int63()) % uint64(stagger))`, where `r` is the
value returned by `rnd.Int63()`; `none` is the division by zero. -/
def randStagger (r : Int) (stagger : Duration) : Option Duration :=
  if toUint64 stagger = 0 then none
  else some (wrap64 ((toUint64 r % toUint64 stagger : Nat) : Int))

/-! ## Mount cleanup (`daemon/daemon_linux.go`) -/

/-- The predicate `unicode.IsSpace`. -/
def isSpace (c : Char) : Bool :=
  let n := c.toNat
  (9 ≤ n && n ≤ 13) || n == 32 || n == 0x85 || n == 0xA0 || n == 0x1680 ||
    (0x2000 ≤ n && n ≤ 0x200a) || n == 0x2028 || n == 0x2029 || n == 0x202f ||
    n == 0x205f || n == 0x3000

/-- The scan of `strings.Fields`: `cur` holds the characters of the field
being read, last one first. -/
def fieldsGo : Str → Str → List Str
  | [], cur => if cur.isEmpty then [] else [cur.reverse]
  | c :: rest, cur =>
    if isSpace c then
      if cur.isEmpty then fieldsGo rest [] else cur.reverse :: fieldsGo rest []
    else fieldsGo rest (c :: cur)

/-- Embedding of `strings.Fields`: the maximal runs of non-space characters. -/
def Fields (s : Str) : List Str := fieldsGo s []

/-- What the mount cleanup gets from package `regexp`: whether
`regexp.Compile(p)` succeeds, and whether the expression compiled from `p`
matches a string (`MatchString`). -/
structure Regexp where
  compiles : Str → Bool
  MatchString : Str → Str → Bool

/-- Embedding of `getCleanPatterns(id)`: the patterns that compile, in
order. -/
def getCleanPatterns (re : Regexp) (id : Str) : List Str :=
  let id1 := if id.isEmpty then "[0-9a-f]{64}".toList else id
  let patterns0 :=
    if id.isEmpty then
      ["containers/".toList ++ id1 ++ "/mounts/shm".toList,
       "containers/".toList ++ id1 ++ "/shm".toList]
    else []
  let patterns :=
    patterns0 ++ ["overlay2/".toList ++ id1 ++ "/merged$".toList,
      "zfs/graph/".toList ++ id1 ++ "$".toList]
  patterns.filter re.compiles

/-- The error returned by `cleanupMountsFromReaderByID`: the error of the
scanner, or the collected messages of the failed unmounts. -/
inductive CleanupErr where
  | scan (msg : Str)
  | unmounts (errs : List Str)
deriving DecidableEq, Repr

/-- The targets on which `unmount` has been called so far, in order, and the
collected error messages (`errs`). -/
structure Cleanup where
  calls : List Str
  errs : List Str
deriving DecidableEq, Repr

/-- The loop `for _, p := range regexps` for the mount point `mnt`;
`unmount k target` is the error message of the call of `unmount(target)` made
after `k` earlier calls (`none` when it returns nil). -/
def unmountMatches (re : Regexp) (unmount : Nat → Str → Option Str) (mnt : Str) :
    List Str → Cleanup → Cleanup
  | [], st => st
  | p :: ps, st =>
    if re.MatchString p mnt then
      match unmount st.calls.length mnt with
      | some e =>
        unmountMatches re unmount mnt ps { calls := st.calls ++ [mnt], errs := st.errs ++ [e] }
      | none => unmountMatches re unmount mnt ps { calls := st.calls ++ [mnt], errs := st.errs }
    else unmountMatches re unmount mnt ps st

/-- The loop `for sc.Scan()` over the lines of the reader. -/
def cleanupScan (re : Regexp) (root : Str) (regexps : List Str)
    (unmount : Nat → Str → Option Str) : List Str → Cleanup → Cleanup
  | [], st => st
  | line :: rest, st =>
    let fields := Fields line
    if 4 < fields.length then
      let mnt := fields.getD 4 []
      if root.isPrefixOf mnt then
        cleanupScan re root regexps unmount rest (unmountMatches re unmount mnt regexps st)
      else cleanupScan re root regexps unmount rest st
    else cleanupScan re root regexps unmount rest st

/-- Embedding of `Daemon.cleanupMountsFromReaderByID(reader, id, unmount)` for
the daemon root `root`: `lines` are the lines that the scanner yields from the
reader and `scanErr` is the final `sc.Err()`. The result is the list of
targets on which `unmount` was called, in order, and the returned error. -/
def cleanupMountsFromReaderByID (re : Regexp) (root : Str) (lines : List Str)
    (scanErr : Option Str) (id : Str) (unmount : Nat → Str → Option Str) :
    List Str × Option CleanupErr :=
  if root.isEmpty then ([], none)
  else
    let st := cleanupScan re root (getCleanPatterns re id) unmount lines { calls := [], errs := [] }
    match scanErr with
    | some e => (st.calls, some (CleanupErr.scan e))
    | none =>
      if 0 < st.errs.length then (st.calls, some (CleanupErr.unmounts st.errs))
      else (st.calls, none)

/-! ## Child images (`daemon/internal/image/image.go`) -/

/-- A `layer.DiffID`: the digest of a layer. -/
abbrev DiffID := Str

/-- A `time.Time`, as a count of time units. -/
abbrev Time := Nat

/-- The fields of `container.Config` read by `image.go`. -/
structure Config where
  Cmd : List Str
deriving DecidableEq, Repr

/-- The record `History` (`ocispec.History`). -/
structure History where
  Created : Option Time
  CreatedBy : Str
  Author : Str
  Comment : Str
  EmptyLayer : Bool
deriving DecidableEq, Repr

/-- The record `V1Image`; the defaults are the zero values. -/
structure V1Image where
  ID : Str := []
  Parent : Str := []
  Comment : Str := []
  Created : Option Time := none
  Container : Str := []
  ContainerConfig : Config := { Cmd := [] }
  DockerVersion : Str := []
  Author : Str := []
  Config : Option Config := none
  Architecture : Str := []
  Variant : Str := []
  OS : Str := []
  Size : Int := 0

/-- The record `Image` with its embedded `V1Image`, for a type `R` of `RootFS`
records; the cached JSON, the computed id, the shadowing `Parent` and
`Details`, which `NewChildImage` leaves at their zero values, are left out. -/
structure Image (R : Type) extends V1Image where
  RootFS : Option R := none
  History : List History := []
  OSVersion : Str := []
  OSFeatures : List Str := []

/-- The record `ChildConfig`; the two configurations are pointers. -/
structure ChildConfig where
  ContainerID : Str
  Author : Str
  Comment : Str
  DiffID : DiffID
  ContainerConfig : Option Config
  Config : Option Config

/-- What `NewChildImage` gets from outside `image.go`: the operations
`Clone`, `NewRootFS` and `Append` of the type `RootFS` and its field
`DiffIDs`, the test `layer.IsEmpty`, the constants `dockerversion.Version`
and `runtime.GOARCH`, and the value of `time.Now().UTC()`. -/
structure ImageEnv (R : Type) where
  Clone : R → R
  NewRootFS : R
  Append : R → DiffID → R
  DiffIDs : R → List DiffID
  IsEmpty : DiffID → Bool
  Version : Str
  GOARCH : Str
  now : Time

/-- The contract of the `RootFS` operations: a clone has the layers of the
original, a new `RootFS` has none, and `Append` adds the layer at the end. -/
def ImageEnv.RootFSContract {R : Type} (env : ImageEnv R) : Prop :=
  (∀ r, env.DiffIDs (env.Clone r) = env.DiffIDs r) ∧
  env.DiffIDs env.NewRootFS = [] ∧
  ∀ r d, env.DiffIDs (env.Append r d) = env.DiffIDs r ++ [d]

/-- Embedding of `strings.Join(elems, sep)`. -/
def stringsJoin (sep : Str) : List Str → Str
  | [] => []
  | [w] => w
  | w :: ws => w ++ sep ++ stringsJoin sep ws

/-- Embedding of `Image.BaseImgArch`. -/
def BaseImgArch {R : Type} (env : ImageEnv R) (img : Image R) : Str :=
  if img.Architecture.isEmpty then env.GOARCH else img.Architecture

/-- Embedding of `Image.BaseImgVariant`. -/
def BaseImgVariant {R : Type} (img : Image R) : Str := img.Variant

/-- Embedding of `NewHistory`. -/
def NewHistory {R : Type} (env : ImageEnv R) (author comment createdBy : Str)
    (isEmptyLayer : Bool) : History :=
  { Author := author
    Created := some env.now
    CreatedBy := createdBy
    Comment := comment
    EmptyLayer := isEmptyLayer }

/-- Embedding of `NewChildImage(img, child, os)` for a non-nil `img`; `none`
is the nil dereference of `child.ContainerConfig`. -/
def NewChildImage {R : Type} (env : ImageEnv R) (img : Image R) (child : ChildConfig)
    (os : Str) : Option (Image R) :=
  let isEmptyLayer := env.IsEmpty child.DiffID
  let rootFS0 :=
    match img.RootFS with
    | some r => env.Clone r
    | none => env.NewRootFS
  let rootFS := if !isEmptyLayer then env.Append rootFS0 child.DiffID else rootFS0
  match child.ContainerConfig with
  | none => none
  | some cc =>
    let imgHistory :=
      NewHistory env child.Author child.Comment (stringsJoin " ".toList cc.Cmd) isEmptyLayer
    some
      { DockerVersion := env.Version
        Config := child.Config
        Architecture := BaseImgArch env img
        Variant := BaseImgVariant img
        OS := os
        Container := child.ContainerID
        ContainerConfig := cc
        Author := child.Author
        Created := imgHistory.Created
        RootFS := some rootFS
        History := img.History ++ [imgHistory]
        OSFeatures := img.OSFeatures
        OSVersion := img.OSVersion }

/-! ## Notions used to state the properties -/

/-- The number `ceil(r / nodeReapPeriod)` of the run of `reapDeadNode` that
deletes a node whose reap counter is `r`. -/
def runsToReap (r : Duration) : Nat := ((r + nodeReapPeriod - 1) / nodeReapPeriod).toNat

/-- Inverse of `split`: the pieces joined with `"/"`. -/
def joinSlash : List Str → Str
  | [] => []
  | [w] => w
  | w :: ws => w ++ '/' :: joinSlash ws

/-- A path of the form `"/a/b/c"` whose three components are free of `"/"`:
the leaf path of an entry whose network id, table name and key contain no
`"/"`. -/
def isEntryPath : Str → Bool
  | [] => false
  | c :: rest => c == '/' && (split rest).length == 3

/-- The state kept by the entry reaper for one tombstone: the store is well
formed (every leaf path is an entry path, no path and no entry occurs
twice), the tombstone behind pointer `v` sits at `pathN` in the by-network
index and at `pathT` in the by-table index, and its reap counter is `r`. -/
structure KeepInv (nid tname key : Str) (v : Nat) (nets : List (Str × network))
    (r : Duration) (db : NetworkDB) : Prop where
  wf : ∀ leaf ∈ db.byNetwork, isEntryPath leaf.1 = true
  ndPath : (db.byNetwork.map Prod.fst).Nodup
  ndPtr : (db.byNetwork.map Prod.snd).Nodup
  memN : (mkPath nid tname key, v) ∈ db.byNetwork
  memT : (mkPath tname nid key, v) ∈ db.byTable
  del : (db.heap v).deleting = true
  rt : (db.heap v).reapTime = r
  joined : db.thisNodeNetworks = nets

/-- The `TableEvent` that describes the entry stored under network `s.1`,
table `s.2.1` and key `s.2.2.1` behind pointer `s.2.2.2`. -/
def eventOf (db : NetworkDB) (s : Str × Str × Str × Nat) : TableEvent :=
  { EvType :=
      if (db.heap s.2.2.2).deleting then TableEventType.TableEventTypeDelete
      else TableEventType.TableEventTypeCreate
    LTime := (db.heap s.2.2.2).ltime
    NodeName := (db.heap s.2.2.2).node
    NetworkID := s.1
    TableName := s.2.1
    Key := s.2.2.1
    Value := (db.heap s.2.2.2).value
    ResidualReapTime := toInt32 (truncFloat (Duration.Seconds (db.heap s.2.2.2).reapTime)) }

/-- The by-network leaf of the entry stored under network `s.1`, table
`s.2.1` and key `s.2.2.1` behind pointer `s.2.2.2`. -/
def leafOf (s : Str × Str × Str × Nat) : Str × Nat :=
  (mkPath s.1 s.2.1 s.2.2.1, s.2.2.2)

/-- The events that describe the entries of `store` under the listed
networks, network by network. -/
def eventsOf (db : NetworkDB) (store : List (Str × Str × Str × Nat)) (networks : List Str) :
    List TableEvent :=
  networks.flatMap (fun nid => (store.filter (fun s => s.1 == nid)).map (eventOf db))

/-- The database `db'` is `db` with another ack table: nothing but
`bulkSyncAckTbl` differs. -/
def SameButAck (db db' : NetworkDB) : Prop :=
  db' = { db with bulkSyncAckTbl := db'.bulkSyncAckTbl }

/-- Every leaf path of the by-network index is the path of an entry. -/
def LeavesAreEntries (db : NetworkDB) : Prop :=
  ∀ leaf ∈ db.byNetwork, ∃ a b c, leaf.1 = mkPath a b c

/-- The path `p` is the directory `root` itself or a path below it. -/
def insideRoot (root p : Str) : Bool :=
  p == root || (if root.getLast? = some '/' then root else root ++ ['/']).isPrefixOf p

/-- The layer list of the `RootFS` pointer of an image; a nil pointer has no
layers. -/
def layersOf {R : Type} (env : ImageEnv R) (r : Option R) : List DiffID :=
  match r with
  | some x => env.DiffIDs x
  | none => []

/-! ## Example states -/

/-- A key of 16 bytes, all equal to `b`. -/
def key16 (b : UInt8) : Key := List.replicate 16 b

/-- An outcome of `NewKeyring` that refuses a key list or a primary key with
a key whose size is not 16, 24 or 32 bytes. -/
def keySizeRule (keys : List Key) (primary : Key) : Bool :=
  !((primary :: keys).all (fun k => k.length == 16 || k.length == 24 || k.length == 32))

/-- A key list `[k1, k2]` of two 16-byte keys after `clusterInit`: the primary
key is `k1`. -/
def rotationState : KeyState :=
  (clusterInitKeys keySizeRule { Keys := [key16 1, key16 2], keyring := none }).1

/-- A generator outcome: `Perm n` lists `n-1, ..., 0` and `Shuffle n` swaps the
last position with the first. -/
def exampleRng : Rng :=
  { Perm := fun n => (List.range n).reverse
    Shuffle := fun n => if 2 ≤ n then [(n - 1, 0)] else [] }

/-- Network id `net1`. -/
def net1 : Str := "net1".toList

/-- Table name `t`. -/
def tbl : Str := "t".toList

/-- Key `k0`. -/
def key0 : Str := "k0".toList

/-- A tombstone written by node `n2` with 16 seconds left. -/
def tombstone16 : entry :=
  { ltime := 3, node := "n2".toList, value := [1], deleting := true, reapTime := 16 * Second }

/-- A live entry written by node `n1`. -/
def liveEntry : entry :=
  { ltime := 4, node := "n1".toList, value := [2], deleting := false, reapTime := 0 }

/-- A peer record with the given name and reap counter. -/
def peerNode (name : Str) (reapTime : Duration) : node :=
  { Name := name, Addr := [10, 0, 0, 1], Port := 7946, reapTime := reapTime }

/-- A database of node `n1`: it has joined `net1` and is leaving `net2`, holds
a tombstone and a live entry of table `t` under `net1`, knows the peers `n2`
and `n3`, and keeps the failed node `n4` with the full `nodeReapInterval`. -/
def exampleDB : NetworkDB :=
  { NodeID := "n1".toList
    tableClock := 7
    heap := fun p => if p = 0 then tombstone16 else liveEntry
    byTable := [("/t/net1/k0".toList, 0), ("/t/net1/k1".toList, 1)]
    byNetwork := [("/net1/t/k0".toList, 0), ("/net1/t/k1".toList, 1)]
    thisNodeNetworks :=
      [(net1, { leaving := false, reapTime := 0 }),
       ("net2".toList, { leaving := true, reapTime := 10 * Second })]
    networks := []
    networkNodes := [(net1, ["n1".toList, "n2".toList, "n3".toList])]
    nodes :=
      [("n1".toList, peerNode "n1".toList 0), ("n2".toList, peerNode "n2".toList 0),
       ("n3".toList, peerNode "n3".toList 0)]
    failedNodes := [("n4".toList, peerNode "n4".toList nodeReapInterval)]
    leftNodes := [] }

/-- The entries of `exampleDB` as (network, table, key, pointer). -/
def exampleStore : List (Str × Str × Str × Nat) :=
  [(net1, tbl, key0, 0), (net1, tbl, "k1".toList, 1)]

/-- An encoder that never fails: the message is the low byte of the event's
Lamport time. -/
def exampleEncode (ev : TableEvent) : Option Msg := some [UInt8.ofNat ev.LTime]

/-- Queues that hold one message for every network. -/
def exampleBroadcasts (_ : Str) : List Msg := [[0]]

/-- A database whose only entry is a tombstone with one second left, stored
under network `net1`, table `t` and the key `a/b`. -/
def slashKeyDB : NetworkDB :=
  { exampleDB with
    heap := fun _ => { tombstone16 with reapTime := Second }
    byTable := [("/t/net1/a/b".toList, 0)]
    byNetwork := [("/net1/t/a/b".toList, 0)] }

/-- A database whose only entry is a tombstone with six seconds left. -/
def marginDB : NetworkDB :=
  { exampleDB with
    heap := fun _ => { tombstone16 with reapTime := 6 * Second }
    byTable := [("/t/net1/k0".toList, 0)]
    byNetwork := [("/net1/t/k0".toList, 0)] }

/-- An environment in which every encoding and every send succeeds, every
peer shares the network `net1`, and every wait ends with the ack: the entry of
the peer is gone from the ack table when the wait is over. -/
def exampleEnv : Env :=
  { encodeMessage := exampleEncode
    encodeBulkSync := fun bsm => some [UInt8.ofNat bsm.Payload.length]
    SendReliable := fun _ _ _ => true
    findCommonNetworks := fun _ => [net1]
    awaitAck := fun _ peer tbl => ackDelete tbl peer }

/-- The state of `exampleDB` before any send or call. -/
def exampleState : SyncState := { db := exampleDB, sends := [], calls := [] }

/-- The successful join of `exampleDB` with a failed node: the node moves
from `failedNodes` to `nodes`. -/
def exampleJoin (db : NetworkDB) (n : node) : Option NetworkDB :=
  some { db with
    nodes := db.nodes ++ [(n.Name, n)]
    failedNodes := db.failedNodes.filter (fun kv => !(kv.1 == n.Name)) }

/-- The database `exampleDB` after the peer `n3` has left the node table. -/
def gossipBreakDB : NetworkDB :=
  { exampleDB with
    nodes := [("n1".toList, peerNode "n1".toList 0), ("n2".toList, peerNode "n2".toList 0)] }

/-- A parser that knows the two addresses `10.0.0.2:7946` and `10.0.0.9:7946`
and takes every 4-byte slice for an address. -/
def exampleNetip : Netip :=
  { ParseAddrPort := fun s =>
      if s = "10.0.0.2:7946".toList then some ([10, 0, 0, 2], 7946)
      else if s = "10.0.0.9:7946".toList then some ([10, 0, 0, 9], 7946)
      else none
    ParseAddr := fun _ => none
    AddrFromSlice := fun b => if b.length = 4 then some b else none }

/-- A database with two bootstrap addresses: the first is the address of the
known peer `n2`, the second is the address of no known node. -/
def bootstrapDB : NetworkDB :=
  { exampleDB with
    nodes :=
      [("n1".toList, { Name := "n1".toList, Addr := [10, 0, 0, 1], Port := 7946, reapTime := 0 }),
       ("n2".toList, { Name := "n2".toList, Addr := [10, 0, 0, 2], Port := 7946, reapTime := 0 })]
    bootStrapIP := ["10.0.0.2:7946".toList, "10.0.0.9:7946".toList]
    BindPort := 7946 }

/-- An environment like `exampleEnv` in which only the first reliable send
succeeds, the peer `n2` shares the network `net1` and every other peer shares
the network `net3`. -/
def flakyEnv : Env :=
  { exampleEnv with
    SendReliable := fun k _ _ => decide (k = 0)
    findCommonNetworks := fun p => if p = "n2".toList then [net1] else ["net3".toList] }

/-- An environment like `exampleEnv` in which every reliable send fails. -/
def failingEnv : Env :=
  { exampleEnv with SendReliable := fun _ _ _ => false }

/-- A database of `exampleDB` with two entries of table `t` under `net1`: a
live entry with the key `a` and a tombstone with one second left and the key
`a/b`. -/
def slashLiveDB : NetworkDB :=
  { exampleDB with
    heap := fun p => if p = 0 then { tombstone16 with reapTime := Second } else liveEntry
    byTable := [("/t/net1/a".toList, 1), ("/t/net1/a/b".toList, 0)]
    byNetwork := [("/net1/t/a".toList, 1), ("/net1/t/a/b".toList, 0)] }

/-- A matcher for patterns made of literal characters with an optional final
`$`: such a pattern matches the strings that contain its characters, at the
end when it ends in `$`. -/
def literalRegexp : Regexp :=
  { compiles := fun _ => true
    MatchString := fun p s =>
      if p.getLast? = some '$' then p.dropLast.isSuffixOf s
      else s.tails.any (fun t => p.isPrefixOf t) }

/-- A line of `mountinfo` for an overlay mount of the layer `abc` below
`/var/lib/docker2`. -/
def siblingMountLine : Str :=
  "36 35 0:30 / /var/lib/docker2/overlay2/abc/merged rw,relatime - overlay overlay rw".toList

/-- A line of `mountinfo` for an overlay mount of the layer `abc` below
`/var/lib/docker`. -/
def ownMountLine : Str :=
  "37 35 0:31 / /var/lib/docker/overlay2/abc/merged rw,relatime - overlay overlay rw".toList

/-- An environment in which a `RootFS` is its list of layers and the empty
layer has the digest `empty`. -/
def exampleImageEnv : ImageEnv (List DiffID) :=
  { Clone := fun r => r
    NewRootFS := []
    Append := fun r d => r ++ [d]
    DiffIDs := fun r => r
    IsEmpty := fun d => d == "empty".toList
    Version := "28.0".toList
    GOARCH := "amd64".toList
    now := 1000 }

/-- A parent image for `arm`, variant `v7`, with one layer and one history
entry. -/
def parentImage : Image (List DiffID) :=
  { Architecture := "arm".toList
    Variant := "v7".toList
    OS := "linux".toList
    RootFS := some ["l1".toList]
    History :=
      [{ Created := some 1, CreatedBy := "ADD".toList, Author := [], Comment := []
         EmptyLayer := false }]
    OSVersion := "10.0".toList
    OSFeatures := ["f1".toList] }

/-- A child configuration that adds the layer `l2`. -/
def exampleChild : ChildConfig :=
  { ContainerID := "c1".toList
    Author := "me".toList
    Comment := "step".toList
    DiffID := "l2".toList
    ContainerConfig := some { Cmd := ["sh".toList, "-c".toList] }
    Config := none }

/-- A database whose only entry is a tombstone with half a second left,
stored under network `net1`, table `t` and the key `a/b`. -/
def halfSecondDB : NetworkDB :=
  { exampleDB with
    heap := fun _ => { tombstone16 with reapTime := 500000000 }
    byTable := [("/t/net1/a/b".toList, 0)]
    byNetwork := [("/net1/t/a/b".toList, 0)] }

/-- A database whose only entry is a tombstone with 5 seconds more than
`2^31` seconds less one nanosecond left. -/
def longReapDB : NetworkDB :=
  { exampleDB with
    heap := fun _ => { tombstone16 with reapTime := 2147483652999999999 }
    byTable := [("/t/net1/k0".toList, 0)]
    byNetwork := [("/net1/t/k0".toList, 0)] }

theorem wrap64_of_range {x : Int} (h1 : -(2 ^ 63) ≤ x) (h2 : x < 2 ^ 63) : wrap64 x = x := by
  unfold wrap64
  omega

/-! ## Key ring operations -/

theorem findKey_eq_none {key : Key} {keys : List Key} : findKey key keys = none ↔ key ∉ keys := by
  induction keys with
  | nil => simp [findKey]
  | cons a rest ih =>
    by_cases h : key = a
    · simp [findKey, h]
    · simp [findKey, h, ih]

theorem findKey_isSome {key : Key} {keys : List Key} (h : key ∈ keys) :
    ∃ i, findKey key keys = some i := by
  cases hf : findKey key keys with
  | none => exact absurd h (findKey_eq_none.mp hf)
  | some i => exact ⟨i, rfl⟩

/-- C9: `SetKey(k)` leaves the key list unchanged when some key of the list is
byte-equal to `k` and otherwise appends `k` at the end; afterwards `k` is in
the list, and a second `SetKey(k)` changes nothing. -/
theorem SetKey_adds_if_absent (s : KeyState) (k : Key) :
    (SetKey s k).Keys = (if k ∈ s.Keys then s.Keys else s.Keys ++ [k]) ∧
    k ∈ (SetKey s k).Keys ∧
    (SetKey (SetKey s k) k).Keys = (SetKey s k).Keys := by
  have h1 : (SetKey s k).Keys = (if k ∈ s.Keys then s.Keys else s.Keys ++ [k]) := by
    by_cases h : k ∈ s.Keys
    · obtain ⟨i, hi⟩ := findKey_isSome h
      simp [SetKey, hi, h]
    · simp [SetKey, findKey_eq_none.mpr h, h]
  have h2 : k ∈ (SetKey s k).Keys := by
    rw [h1]
    by_cases h : k ∈ s.Keys <;> simp [h]
  refine ⟨h1, h2, ?_⟩
  obtain ⟨i, hi⟩ := findKey_isSome h2
  generalize SetKey s k = s1 at hi ⊢
  simp [SetKey, hi]

/-- C10: with two 16-byte keys `[k1, k2]`, for which `clusterInit` builds the
ring with primary `k1`, `RemoveKey(k1)` is not refused for the configured
list: `k1` is dropped from `nDB.config.Keys` although it is still the primary
key of the ring. -/
theorem RemoveKey_primary_drops_config_key :
    (clusterInitKeys keySizeRule { Keys := [key16 1, key16 2], keyring := none }).2 = true ∧
    primaryKey rotationState = some (key16 1) ∧
    rotationState.Keys = [key16 1, key16 2] ∧
    (RemoveKey rotationState (key16 1)).Keys = [key16 2] ∧
    primaryKey (RemoveKey rotationState (key16 1)) = some (key16 1) := by
  decide

/-- With keys of one byte, which the key ring refuses, `clusterInit` returns
the error and leaves the ring nil. -/
theorem clusterInitKeys_refused :
    clusterInitKeys keySizeRule { Keys := [[1], [2]], keyring := none }
      = ({ Keys := [[1], [2]], keyring := none }, false) := by
  decide

/-! ## Random peer selection -/

theorem swap_some {α : Type} (l : List α) {i j : Nat} (hi : i < l.length) (hj : j < l.length) :
    ∃ l', swap l i j = some l' ∧ l'.length = l.length ∧ ∀ x ∈ l', x ∈ l := by
  refine ⟨(l.set i l[j]).set j l[i], ?_, by simp, ?_⟩
  · simp [swap, List.getElem?_eq_getElem hi, List.getElem?_eq_getElem hj]
  · intro x hx
    rcases List.mem_or_eq_of_mem_set hx with hx | rfl
    · rcases List.mem_or_eq_of_mem_set hx with hx | rfl
      · exact hx
      · exact List.getElem_mem hj
    · exact List.getElem_mem hi

theorem applySwaps_some {α : Type} (sw : List (Nat × Nat)) (l : List α)
    (h : ∀ p ∈ sw, p.1 < l.length ∧ p.2 < l.length) :
    ∃ l', applySwaps sw l = some l' ∧ l'.length = l.length ∧ ∀ x ∈ l', x ∈ l := by
  induction sw generalizing l with
  | nil => exact ⟨l, rfl, rfl, fun _ hx => hx⟩
  | cons p rest ih =>
    obtain ⟨i, j⟩ := p
    have hp := h (i, j) (List.mem_cons_self _ _)
    obtain ⟨l1, hs, hlen, hmem⟩ := swap_some l hp.1 hp.2
    have hrest : ∀ p ∈ rest, p.1 < l1.length ∧ p.2 < l1.length := by
      intro p hp
      rw [hlen]
      exact h p (List.mem_cons_of_mem _ hp)
    obtain ⟨l2, hs2, hlen2, hmem2⟩ := ih l1 hrest
    exact ⟨l2, by simp [applySwaps, hs, hs2], hlen2.trans hlen, fun x hx => hmem x (hmem2 x hx)⟩

theorem sampleAt_some {α : Type} (mNodes : List α) (idxs : List Nat)
    (h : ∀ i ∈ idxs, i < mNodes.length) :
    ∃ s, sampleAt mNodes idxs = some s ∧ s.length = idxs.length ∧ ∀ x ∈ s, x ∈ mNodes := by
  induction idxs with
  | nil => exact ⟨[], rfl, rfl, by simp⟩
  | cons i rest ih =>
    have hi := h i (List.mem_cons_self _ _)
    obtain ⟨s, hs, hlen, hmem⟩ := ih (fun j hj => h j (List.mem_cons_of_mem _ hj))
    refine ⟨mNodes[i] :: s, ?_, by simp [hlen], ?_⟩
    · simp [sampleAt, List.getElem?_eq_getElem hi, hs]
    · intro x hx
      rcases List.mem_cons.mp hx with rfl | hx
      · exact List.getElem_mem hi
      · exact hmem x hx

/-- The result of `mRandomNodes` under the generator contract: it exists and
all its elements are entries of `nodes` other than `self`. -/
theorem mRandomNodes_some (self : Str) (rng : Rng) (m : Nat) (nodes : List Str)
    (hrng : rng.Valid (nodes.filter (fun node => !(node == self))).length) :
    ∃ r, mRandomNodes self rng m nodes = some r ∧
      ∀ x ∈ r, x ∈ nodes.filter (fun node => !(node == self)) := by
  obtain ⟨hperm, hsw⟩ := hrng
  unfold mRandomNodes
  by_cases hlt : (nodes.filter (fun node => !(node == self))).length < m
  · obtain ⟨l', h1, _, h3⟩ := applySwaps_some _ (nodes.filter (fun node => !(node == self))) hsw
    exact ⟨l', by simp [hlt, h1], h3⟩
  · have hlen : (rng.Perm (nodes.filter (fun node => !(node == self))).length).length
        = (nodes.filter (fun node => !(node == self))).length := by
      rw [hperm.length_eq, List.length_range]
    have hm : m ≤ (rng.Perm (nodes.filter (fun node => !(node == self))).length).length := by
      omega
    have hidx : ∀ i ∈ (rng.Perm (nodes.filter (fun node => !(node == self))).length).take m,
        i < (nodes.filter (fun node => !(node == self))).length := by
      intro i hi
      have := hperm.subset (List.mem_of_mem_take hi)
      simpa using this
    obtain ⟨s, h1, _, h3⟩ := sampleAt_some (nodes.filter (fun node => !(node == self))) _ hidx
    exact ⟨s, by simp [hlt, hm, h1], h3⟩

theorem gossipSends_peer (db : NetworkDB) (compound : List Msg) (peers : List Str) :
    ∀ s ∈ gossipSends db compound peers, s.peer ∈ peers := by
  induction peers with
  | nil => simp [gossipSends]
  | cons p rest ih =>
    intro s hs
    unfold gossipSends at hs
    cases hl : db.nodes.lookup p with
    | none => simp [hl] at hs
    | some mnode =>
      simp only [hl, List.mem_cons] at hs
      rcases hs with rfl | hs
      · simp
      · exact List.mem_cons_of_mem _ (ih s hs)

theorem gossipLoop_some (db : NetworkDB) (rng : Nat → Rng) (getBroadcasts : Str → List Msg)
    (hrng : ∀ i n, (rng i).Valid n) (nns : List (Str × List Str)) (i : Nat) :
    ∃ sends, gossipLoop db rng getBroadcasts nns i = some sends ∧
      ∀ s ∈ sends, s.peer ≠ db.NodeID := by
  induction nns generalizing i with
  | nil => exact ⟨[], rfl, by simp⟩
  | cons nn rest ih =>
    obtain ⟨later, hl, hlater⟩ := ih (i + 1)
    obtain ⟨mNodes, hm, hmem⟩ := mRandomNodes_some db.NodeID (rng i) 3 nn.2 (hrng i _)
    unfold gossipLoop
    simp only [hm, hl]
    cases db.thisNodeNetworks.lookup nn.1 with
    | none => exact ⟨later, rfl, hlater⟩
    | some nw =>
      by_cases h0 : (getBroadcasts nn.1).length = 0
      · exact ⟨later, by simp [h0], hlater⟩
      · refine ⟨gossipSends db (getBroadcasts nn.1) mNodes ++ later, by simp [h0], ?_⟩
        intro s hs
        rcases List.mem_append.mp hs with hs | hs
        · have hp := hmem _ (gossipSends_peer db _ mNodes s hs)
          simp only [List.mem_filter] at hp
          simpa using hp.2
        · exact hlater s hs

/-- C1: under the contract of the random generator, `mRandomNodes(m, nodes)`
returns a list that does not contain the local node id, and no send made by
`gossip()` is addressed to the local node id. -/
theorem mRandomNodes_excludes_self (db : NetworkDB) (rng1 : Rng) (m : Nat) (nodes : List Str)
    (rng : Nat → Rng) (getBroadcasts : Str → List Msg)
    (h1 : rng1.Valid (nodes.filter (fun node => !(node == db.NodeID))).length)
    (h2 : ∀ i n, (rng i).Valid n) :
    (∃ r, mRandomNodes db.NodeID rng1 m nodes = some r ∧ db.NodeID ∉ r) ∧
    (∃ sends, gossip db rng getBroadcasts = some sends ∧ ∀ s ∈ sends, s.peer ≠ db.NodeID) := by
  constructor
  · obtain ⟨r, hr, hmem⟩ := mRandomNodes_some db.NodeID rng1 m nodes h1
    refine ⟨r, hr, fun hin => ?_⟩
    have := hmem _ hin
    simp at this
  · exact gossipLoop_some db rng getBroadcasts h2 _ 0

/-! ## Tables as association lists -/

theorem mem_filterMap_of_nodupKeys {β : Type} (f : Str × β → Option (Str × β))
    (hf : ∀ kv kv', f kv = some kv' → kv'.1 = kv.1)
    {m : List (Str × β)} (hnd : (m.map Prod.fst).Nodup) {id : Str} {n : β}
    (hmem : (id, n) ∈ m) (n' : β) :
    (id, n') ∈ m.filterMap f ↔ f (id, n) = some (id, n') := by
  constructor
  · intro h
    obtain ⟨kv, hkv, hfk⟩ := List.mem_filterMap.mp h
    have hkey : kv.1 = id := (hf kv (id, n') hfk).symm
    have : kv = (id, n) := List.inj_on_of_nodup_map hnd hkv hmem hkey
    rw [← this]
    exact hfk
  · intro h
    exact List.mem_filterMap.mpr ⟨(id, n), hmem, h⟩

theorem keys_filterMap_sublist {β : Type} (f : Str × β → Option (Str × β))
    (hf : ∀ kv kv', f kv = some kv' → kv'.1 = kv.1) (m : List (Str × β)) :
    ((m.filterMap f).map Prod.fst).Sublist (m.map Prod.fst) := by
  induction m with
  | nil => simp
  | cons kv rest ih =>
    rw [List.filterMap_cons]
    cases hfk : f kv with
    | none => exact ih.trans (by simp)
    | some kv' =>
      simp only [List.map_cons, hf kv kv' hfk]
      exact ih.cons₂ _

/-! ## Network reaper -/

theorem reapNetworkMap_key (kv kv' : Str × network)
    (h : (fun kv : Str × network =>
      if kv.2.leaving then
        if kv.2.reapTime ≤ 0 then none
        else some (kv.1, { kv.2 with reapTime := Duration.sub kv.2.reapTime reapPeriod })
      else some kv) kv = some kv') : kv'.1 = kv.1 := by
  simp only at h
  split at h
  · split at h
    · exact absurd h (by simp)
    · cases h; rfl
  · cases h; rfl

/-- C7: one run of `reapNetworks` on the local network table removes a
network with `leaving` set and `reapTime <= 0`, keeps a network with
`leaving` set and `reapTime > 0` with `reapTime` reduced by `reapPeriod`,
keeps every other network unchanged, and adds no network id. -/
theorem reapNetworks_thisNodeNetworks (db : NetworkDB) (id : Str) (n : network)
    (hnd : (db.thisNodeNetworks.map Prod.fst).Nodup)
    (hmem : (id, n) ∈ db.thisNodeNetworks)
    (hmax : n.reapTime ≤ maxDuration) :
    (n.leaving = true → n.reapTime ≤ 0 →
      ∀ n', (id, n') ∉ (reapNetworks db).thisNodeNetworks) ∧
    (n.leaving = true → 0 < n.reapTime →
      ∀ n', (id, n') ∈ (reapNetworks db).thisNodeNetworks ↔
        n' = { n with reapTime := n.reapTime - reapPeriod }) ∧
    (n.leaving = false →
      ∀ n', (id, n') ∈ (reapNetworks db).thisNodeNetworks ↔ n' = n) ∧
    (∀ kv ∈ (reapNetworks db).thisNodeNetworks,
      kv.1 ∈ db.thisNodeNetworks.map Prod.fst) := by
  have key := fun n' => mem_filterMap_of_nodupKeys _ reapNetworkMap_key hnd hmem n'
  have hsub := (keys_filterMap_sublist _ reapNetworkMap_key db.thisNodeNetworks).subset
  refine ⟨?_, ?_, ?_, ?_⟩
  · intro hl hr n' hin
    have := (key n').mp hin
    simp [hl, hr] at this
  · intro hl hr n'
    have hw : Duration.sub n.reapTime reapPeriod = n.reapTime - reapPeriod := by
      unfold Duration.sub
      apply wrap64_of_range <;>
        simp only [reapPeriod, Second, maxDuration, Duration] at * <;> omega
    show (id, n') ∈ reapNetworkMap db.thisNodeNetworks ↔ _
    unfold reapNetworkMap
    rw [key n']
    simp [hl, not_le.mpr hr, hw, eq_comm]
  · intro hl n'
    show (id, n') ∈ reapNetworkMap db.thisNodeNetworks ↔ _
    unfold reapNetworkMap
    rw [key n']
    simp [hl, eq_comm]
  · intro kv hkv
    exact hsub (List.mem_map_of_mem Prod.fst hkv)

/-! ## Dead-node reaper -/

theorem reapNodeMap_key (kv kv' : Str × node)
    (h : (fun kv : Str × node =>
      if kv.2.reapTime > nodeReapPeriod then
        some (kv.1, { kv.2 with reapTime := Duration.sub kv.2.reapTime nodeReapPeriod })
      else none) kv = some kv') : kv'.1 = kv.1 := by
  simp only at h
  split at h
  · cases h; rfl
  · exact absurd h (by simp)

theorem reapNodeMap_nodup {m : List (Str × node)} (hnd : (m.map Prod.fst).Nodup) :
    ((reapNodeMap m).map Prod.fst).Nodup :=
  (keys_filterMap_sublist _ reapNodeMap_key m).nodup hnd

theorem reapNodeMap_mem {m : List (Str × node)} (hnd : (m.map Prod.fst).Nodup) {id : Str}
    {n : node} (hmem : (id, n) ∈ m) (hmax : n.reapTime ≤ maxDuration) (n' : node) :
    (id, n') ∈ reapNodeMap m ↔
      nodeReapPeriod < n.reapTime ∧ n' = { n with reapTime := n.reapTime - nodeReapPeriod } := by
  unfold reapNodeMap
  rw [mem_filterMap_of_nodupKeys _ reapNodeMap_key hnd hmem n']
  by_cases h : n.reapTime > nodeReapPeriod
  · have hw : Duration.sub n.reapTime nodeReapPeriod = n.reapTime - nodeReapPeriod := by
      unfold Duration.sub
      apply wrap64_of_range <;>
        simp only [nodeReapPeriod, Hour, Second, maxDuration, gt_iff_lt, Duration] at * <;> omega
    simp [h, hw, eq_comm]
  · simp only [gt_iff_lt] at h
    simp [h]

/-- Iterating the loop of `reapDeadNode` on one table: an entry with
`reapTime = r > 0` is there with `r - j * nodeReapPeriod` after `j` runs as
long as `j * nodeReapPeriod < r`, and gone afterwards. -/
theorem reapNodeMap_iterate (j : Nat) :
    ∀ (m : List (Str × node)) (id : Str) (n : node),
      (m.map Prod.fst).Nodup → (id, n) ∈ m → 0 < n.reapTime → n.reapTime ≤ maxDuration →
      ∀ n', (id, n') ∈ reapNodeMap^[j] m ↔
        (j : Int) * nodeReapPeriod < n.reapTime ∧
        n' = { n with reapTime := n.reapTime - j * nodeReapPeriod } := by
  induction j with
  | zero =>
    intro m id n hnd hmem hpos _ n'
    simp only [Function.iterate_zero, id_eq, Nat.cast_zero, zero_mul, sub_zero]
    constructor
    · intro h
      have : (id, n') = (id, n) := List.inj_on_of_nodup_map hnd h hmem rfl
      exact ⟨hpos, by cases this; rfl⟩
    · rintro ⟨_, rfl⟩
      exact hmem
  | succ j ih =>
    intro m id n hnd hmem hpos hmax n'
    rw [Function.iterate_succ_apply]
    by_cases h : nodeReapPeriod < n.reapTime
    · have h1 : (id, { n with reapTime := n.reapTime - nodeReapPeriod }) ∈ reapNodeMap m :=
        (reapNodeMap_mem hnd hmem hmax _).mpr ⟨h, rfl⟩
      have hP : (0 : Int) < nodeReapPeriod := by decide
      have hmax1 : n.reapTime - nodeReapPeriod ≤ maxDuration := by
        simp only [Duration] at *
        omega
      rw [ih (reapNodeMap m) id _ (reapNodeMap_nodup hnd) h1 (by simpa using h) hmax1 n']
      simp only [Nat.cast_succ, add_mul, one_mul]
      generalize (j : Int) * nodeReapPeriod = jp
      constructor
      · rintro ⟨h2, rfl⟩
        refine ⟨by simp only [Duration] at *; omega, ?_⟩
        congr 1
        simp only [Duration] at *
        omega
      · rintro ⟨h2, rfl⟩
        refine ⟨by simp only [Duration] at *; omega, ?_⟩
        congr 1
        simp only [Duration] at *
        omega
    · have hnone : ∀ n'', (id, n'') ∉ reapNodeMap m := fun n'' hin =>
        h ((reapNodeMap_mem hnd hmem hmax n'').mp hin).1
      have hgone : ∀ (k : Nat) (m' : List (Str × node)), (∀ n'', (id, n'') ∉ m') →
          ∀ n'', (id, n'') ∉ reapNodeMap^[k] m' := by
        intro k
        induction k with
        | zero => intro m' hm'; simpa using hm'
        | succ k ihk =>
          intro m' hm' n''
          rw [Function.iterate_succ_apply]
          apply ihk
          intro n3 hin
          obtain ⟨kv, hkv, hfk⟩ := List.mem_filterMap.mp hin
          have hk := reapNodeMap_key kv (id, n3) hfk
          obtain ⟨k1, v1⟩ := kv
          simp only at hk
          subst hk
          exact hm' v1 hkv
      have hP : (0 : Int) < nodeReapPeriod := by decide
      constructor
      · intro hin
        exact absurd hin (hgone j _ hnone n')
      · rintro ⟨h2, _⟩
        exfalso
        have : (0 : Int) ≤ (j : Int) * nodeReapPeriod :=
          mul_nonneg (Int.ofNat_nonneg j) (le_of_lt hP)
        simp only [Nat.cast_succ, add_mul, one_mul] at h2
        generalize (j : Int) * nodeReapPeriod = jp at *
        simp only [Duration] at *
        omega

theorem reapDeadNodeRuns_tables (j : Nat) (db : NetworkDB) :
    (reapDeadNodeRuns j db).failedNodes = reapNodeMap^[j] db.failedNodes ∧
    (reapDeadNodeRuns j db).leftNodes = reapNodeMap^[j] db.leftNodes := by
  induction j generalizing db with
  | zero => exact ⟨rfl, rfl⟩
  | succ j ih =>
    rw [Function.iterate_succ_apply, Function.iterate_succ_apply]
    exact ih (reapDeadNode db)

/-! ## Paths -/

theorem split_ne_nil (s : Str) : split s ≠ [] := by
  cases s with
  | nil => simp [split]
  | cons c cs =>
    unfold split
    split
    · simp
    · split <;> simp

theorem split_cons_other {c : Char} (h : c ≠ '/') (cs : Str) :
    split (c :: cs) =
      (match split cs with
      | [] => [[c]]
      | w :: ws => (c :: w) :: ws) := by
  rw [split]
  simp only [h, if_false]

theorem split_append_slash {a : Str} (h : '/' ∉ a) (r : Str) :
    split (a ++ '/' :: r) = a :: split r := by
  induction a with
  | nil => simp [split]
  | cons x a ih =>
    have hx : x ≠ '/' := fun hx => h (by simp [hx])
    have ha : '/' ∉ a := fun ha => h (List.mem_cons_of_mem _ ha)
    rw [List.cons_append, split_cons_other hx, ih ha]

theorem split_noSlash {a : Str} (h : '/' ∉ a) : split a = [a] := by
  induction a with
  | nil => simp [split]
  | cons x a ih =>
    have hx : x ≠ '/' := fun hx => h (by simp [hx])
    have ha : '/' ∉ a := fun ha => h (List.mem_cons_of_mem _ ha)
    rw [split_cons_other hx, ih ha]

theorem split_mkPath {a b c : Str} (ha : '/' ∉ a) (hb : '/' ∉ b) (hc : '/' ∉ c) :
    split (a ++ '/' :: (b ++ '/' :: c)) = [a, b, c] := by
  rw [split_append_slash ha, split_append_slash hb, split_noSlash hc]

theorem split_spec (s : Str) : joinSlash (split s) = s ∧ ∀ w ∈ split s, '/' ∉ w := by
  induction s with
  | nil => simp [split, joinSlash]
  | cons c cs ih =>
    obtain ⟨hj, hw⟩ := ih
    cases hs : split cs with
    | nil => exact absurd hs (split_ne_nil cs)
    | cons w ws =>
      rw [hs] at hj hw
      by_cases hc : c = '/'
      · subst hc
        simp only [split, if_true, hs]
        refine ⟨?_, ?_⟩
        · simp [joinSlash, hj]
        · intro u hu
          rcases List.mem_cons.mp hu with rfl | hu
          · simp
          · exact hw u hu
      · simp only [split, hc, if_false, hs]
        refine ⟨?_, ?_⟩
        · cases ws with
          | nil =>
            simp only [joinSlash] at hj ⊢
            rw [hj]
          | cons w2 ws2 =>
            simp only [joinSlash, List.cons_append] at hj ⊢
            rw [hj]
        · intro u hu
          rcases List.mem_cons.mp hu with rfl | hu
          · intro hmem
            rcases List.mem_cons.mp hmem with h | h
            · exact hc h.symm
            · exact hw w (List.mem_cons_self _ _) h
          · exact hw u (List.mem_cons_of_mem _ hu)

/-- An entry path is `mkPath a b c` for the three pieces `a`, `b`, `c` that
`split` finds in it, and these are free of `"/"`. -/
theorem isEntryPath_elim {p : Str} (h : isEntryPath p = true) :
    ∃ a b c rest, p = '/' :: rest ∧ split rest = [a, b, c] ∧ p = mkPath a b c ∧
      '/' ∉ a ∧ '/' ∉ b ∧ '/' ∉ c := by
  cases p with
  | nil => simp [isEntryPath] at h
  | cons x rest =>
    simp only [isEntryPath, Bool.and_eq_true, beq_iff_eq] at h
    obtain ⟨hx, hlen⟩ := h
    subst hx
    obtain ⟨hj, hw⟩ := split_spec rest
    match hs : split rest, hlen with
    | [a, b, c], _ =>
      rw [hs] at hj hw
      refine ⟨a, b, c, rest, rfl, hs, ?_, hw a (by simp), hw b (by simp), hw c (by simp)⟩
      simp only [joinSlash] at hj
      simp [mkPath, ← hj]

theorem isEntryPath_mkPath {a b c : Str} (ha : '/' ∉ a) (hb : '/' ∉ b) (hc : '/' ∉ c) :
    isEntryPath (mkPath a b c) = true := by
  simp [isEntryPath, mkPath, split_mkPath ha hb hc]

theorem mkPath_inj {a b c a' b' c' : Str} (ha : '/' ∉ a) (hb : '/' ∉ b) (hc : '/' ∉ c)
    (ha' : '/' ∉ a') (hb' : '/' ∉ b') (hc' : '/' ∉ c') (h : mkPath a b c = mkPath a' b' c') :
    a = a' ∧ b = b' ∧ c = c' := by
  have h1 : split (a ++ '/' :: (b ++ '/' :: c)) = split (a' ++ '/' :: (b' ++ '/' :: c')) := by
    simp only [mkPath, List.cons.injEq, true_and] at h
    rw [h]
  rw [split_mkPath ha hb hc, split_mkPath ha' hb' hc'] at h1
  simpa using h1

theorem isPrefixOf_mkPath (a b c : Str) : ('/' :: a).isPrefixOf (mkPath a b c) = true := by
  simp [mkPath]

theorem split_cons_slash (cs : Str) : split ('/' :: cs) = [] :: split cs := by
  rw [split]
  simp

theorem split_length_cons_other {c : Char} (h : c ≠ '/') (cs : Str) :
    (split (c :: cs)).length = (split cs).length := by
  rw [split_cons_other h]
  cases hs : split cs with
  | nil => exact absurd hs (split_ne_nil cs)
  | cons w ws => simp

theorem split_length_append (a r : Str) :
    (split (a ++ '/' :: r)).length = (split a).length + (split r).length := by
  induction a with
  | nil =>
    rw [List.nil_append, split_cons_slash]
    simp [split, Nat.add_comm]
  | cons x a ih =>
    by_cases hx : x = '/'
    · subst hx
      rw [List.cons_append, split_cons_slash, split_cons_slash, List.length_cons,
        List.length_cons, ih]
      omega
    · rw [List.cons_append, split_length_cons_other hx, split_length_cons_other hx, ih]

theorem split_length_pos (s : Str) : 0 < (split s).length :=
  List.length_pos.mpr (split_ne_nil s)

/-- The path of any entry splits into at least three pieces. -/
theorem split_mkPath_length (a b c : Str) :
    3 ≤ (split (a ++ '/' :: (b ++ '/' :: c))).length := by
  rw [split_length_append, split_length_append]
  have h1 := split_length_pos a
  have h2 := split_length_pos b
  have h3 := split_length_pos c
  omega

/-! ## Entry reaper: one visit -/

theorem threshold_eq {c : Duration} (hc0 : 0 ≤ c) (hc : c ≤ maxDuration - reapPeriod - Second) :
    Duration.add reapPeriod c = reapPeriod + c ∧
    Duration.add (Duration.add reapPeriod c) Second = reapPeriod + c + Second := by
  have h1 : Duration.add reapPeriod c = reapPeriod + c := by
    unfold Duration.add
    apply wrap64_of_range <;>
      simp only [reapPeriod, Second, maxDuration, Duration] at * <;> omega
  refine ⟨h1, ?_⟩
  rw [h1]
  unfold Duration.add
  apply wrap64_of_range <;>
    simp only [reapPeriod, Second, maxDuration, Duration] at * <;> omega

theorem reapVisit_live (c : Duration) (db : NetworkDB) (path : Str) (v : Nat)
    (h : (db.heap v).deleting = false) : reapVisit c db path v = some db := by
  simp [reapVisit, h]

theorem reapVisit_keep (c : Duration) (db : NetworkDB) (path : Str) (v : Nat)
    (hdel : (db.heap v).deleting = true)
    (hc0 : 0 ≤ c) (hc : c ≤ maxDuration - reapPeriod - Second)
    (hmax : (db.heap v).reapTime ≤ maxDuration)
    (hkeep : reapPeriod + c + Second < (db.heap v).reapTime) :
    reapVisit c db path v = some { db with
      heap := Function.update db.heap v
        { db.heap v with reapTime := (db.heap v).reapTime - (reapPeriod + c) } } := by
  obtain ⟨h1, h2⟩ := threshold_eq hc0 hc
  have h3 : Duration.sub (db.heap v).reapTime (reapPeriod + c)
      = (db.heap v).reapTime - (reapPeriod + c) := by
    unfold Duration.sub
    apply wrap64_of_range <;>
      simp only [reapPeriod, Second, maxDuration, Duration] at * <;> omega
  unfold reapVisit
  simp only [hdel, Bool.not_true, Bool.false_eq_true, if_false]
  rw [h2, h1, h3, if_pos (by simpa using hkeep)]

theorem reapVisit_delete (c : Duration) (db : NetworkDB) (rest a b k : Str) (v : Nat)
    (hdel : (db.heap v).deleting = true)
    (hc0 : 0 ≤ c) (hc : c ≤ maxDuration - reapPeriod - Second)
    (hdue : (db.heap v).reapTime ≤ reapPeriod + c + Second)
    (hsplit : split rest = [a, b, k]) :
    reapVisit c db ('/' :: rest) v = some (deleteEntry db a b k).1 := by
  obtain ⟨h1, h2⟩ := threshold_eq hc0 hc
  unfold reapVisit
  simp only [hdel, Bool.not_true, Bool.false_eq_true, if_false]
  rw [h2, if_neg (by simpa using hdue)]
  simp [hsplit]

theorem deleteEntry_byNetwork (db : NetworkDB) (a b k : Str) :
    (deleteEntry db a b k).1.byNetwork
      = db.byNetwork.filter (fun leaf => !(leaf.1 == mkPath a b k)) := rfl

theorem deleteEntry_byTable (db : NetworkDB) (a b k : Str) :
    (deleteEntry db a b k).1.byTable
      = db.byTable.filter (fun leaf => !(leaf.1 == mkPath b a k)) := rfl

/-- C2 (amended): for a tombstone whose network id, table name and key
contain no `"/"`, stored in both indexes, the walk of its network reaches its
leaf, and one visit with time compensation `c >= 0` removes the leaf from
both indexes when `reapTime <= reapPeriod + c + 1s` and otherwise leaves both
indexes as they are and reduces `reapTime` by exactly `reapPeriod + c`. -/
theorem reapVisit_tombstone (db : NetworkDB) (nid tname key : Str) (v : Nat) (c : Duration)
    (hn : '/' ∉ nid) (ht : '/' ∉ tname) (hk : '/' ∉ key)
    (hdel : (db.heap v).deleting = true)
    (hc0 : 0 ≤ c) (hc : c ≤ maxDuration - reapPeriod - Second)
    (hmax : (db.heap v).reapTime ≤ maxDuration)
    (hN : (mkPath nid tname key, v) ∈ db.byNetwork)
    (hT : (mkPath tname nid key, v) ∈ db.byTable) :
    (mkPath nid tname key, v) ∈ WalkPrefix db.byNetwork ('/' :: nid) ∧
    ∃ db', reapVisit c db (mkPath nid tname key) v = some db' ∧
      ((db.heap v).reapTime ≤ reapPeriod + c + Second →
        (∀ p, (mkPath nid tname key, p) ∉ db'.byNetwork) ∧
        (∀ p, (mkPath tname nid key, p) ∉ db'.byTable)) ∧
      (reapPeriod + c + Second < (db.heap v).reapTime →
        (mkPath nid tname key, v) ∈ db'.byNetwork ∧
        (mkPath tname nid key, v) ∈ db'.byTable ∧
        db'.byNetwork = db.byNetwork ∧ db'.byTable = db.byTable ∧
        db'.heap v = { db.heap v with reapTime := (db.heap v).reapTime - (reapPeriod + c) }) := by
  constructor
  · simp only [WalkPrefix, List.mem_filter]
    exact ⟨hN, isPrefixOf_mkPath nid tname key⟩
  · by_cases hdue : (db.heap v).reapTime ≤ reapPeriod + c + Second
    · refine ⟨(deleteEntry db nid tname key).1, ?_, ?_, ?_⟩
      · exact reapVisit_delete c db _ nid tname key v hdel hc0 hc hdue (split_mkPath hn ht hk)
      · intro _
        constructor
        · intro p hp
          rw [deleteEntry_byNetwork] at hp
          simp at hp
        · intro p hp
          rw [deleteEntry_byTable] at hp
          simp at hp
      · intro h
        exact absurd hdue (not_le.mpr h)
    · have hkeep := not_le.mp hdue
      refine ⟨_, reapVisit_keep c db _ v hdel hc0 hc hmax hkeep, ?_, ?_⟩
      · intro h
        exact absurd h hdue
      · intro _
        exact ⟨hN, hT, rfl, rfl, by simp⟩

/-! ## The `float64` value of `Seconds` -/

theorem roundEven_le {x : ℚ} {k : ℤ} (h : x ≤ k) : roundEven x ≤ k := by
  have hf : ⌊x⌋ ≤ k := by
    have := Int.floor_le x
    exact_mod_cast (this.trans h)
  have hlt : x - ⌊x⌋ ≥ 1 / 2 → ⌊x⌋ + 1 ≤ k := by
    intro hx
    have h1 : ((⌊x⌋ : ℤ) : ℚ) < k := by linarith
    have h2 : ⌊x⌋ < k := by exact_mod_cast h1
    omega
  unfold roundEven
  split_ifs with h1 h2 h3
  · exact hf
  · exact hlt (by linarith)
  · exact hf
  · exact hlt (by linarith)

theorem le_roundEven {x : ℚ} {k : ℤ} (h : (k : ℚ) ≤ x) : k ≤ roundEven x := by
  have hf : k ≤ ⌊x⌋ := Int.le_floor.mpr h
  unfold roundEven
  split_ifs <;> omega

theorem roundEven_near (x : ℚ) : x - 1 / 2 ≤ roundEven x ∧ (roundEven x : ℚ) ≤ x + 1 / 2 := by
  have h1 := Int.floor_le x
  have h2 := Int.lt_floor_add_one x
  unfold roundEven
  split_ifs with a b c
  · constructor <;> linarith
  · constructor <;> push_cast <;> linarith
  · constructor <;> linarith
  · constructor <;> push_cast <;> linarith

theorem ulp_pos (q : ℚ) : 0 < ulp q := by
  unfold ulp
  positivity

theorem ulp_eq {q : ℚ} {e : ℤ} (h1 : (2 : ℚ) ^ e ≤ q) (h2 : q < (2 : ℚ) ^ (e + 1)) :
    ulp q = 2 ^ (e - 52) := by
  have hq : 0 < q := lt_of_lt_of_le (by positivity) h1
  have ha : e ≤ Int.log 2 q := by
    rw [← Int.zpow_le_iff_le_log (by norm_num) hq]
    simpa using h1
  have hb : Int.log 2 q < e + 1 := by
    rw [← Int.lt_zpow_iff_log_lt (by norm_num) hq]
    simpa using h2
  have : Int.log 2 q = e := by omega
  unfold ulp
  rw [this]

theorem ulp_le {q : ℚ} {k : ℤ} (hq : 0 < q) (h : q < (2 : ℚ) ^ k) : ulp q ≤ 2 ^ (k - 53) := by
  have hb : Int.log 2 q < k := by
    rw [← Int.lt_zpow_iff_log_lt (by norm_num) hq]
    simpa using h
  unfold ulp
  exact zpow_le_zpow_right₀ (by norm_num) (by omega)

theorem roundPos_near (q : ℚ) :
    q - ulp q / 2 ≤ roundPos q ∧ roundPos q ≤ q + ulp q / 2 := by
  have hu := ulp_pos q
  obtain ⟨h1, h2⟩ := roundEven_near (q / ulp q)
  have hq : q / ulp q * ulp q = q := div_mul_cancel₀ q (ne_of_gt hu)
  unfold roundPos
  constructor
  · have := mul_le_mul_of_nonneg_right h1 (le_of_lt hu)
    nlinarith
  · have := mul_le_mul_of_nonneg_right h2 (le_of_lt hu)
    nlinarith

theorem roundPos_le_of_le {q : ℚ} (k : ℤ) (h : q ≤ k * ulp q) : roundPos q ≤ k * ulp q := by
  have hu := ulp_pos q
  have h1 : q / ulp q ≤ k := by
    rw [div_le_iff₀ hu]
    exact h
  have h2 : ((roundEven (q / ulp q) : ℤ) : ℚ) ≤ k := by exact_mod_cast roundEven_le h1
  unfold roundPos
  exact mul_le_mul_of_nonneg_right h2 (le_of_lt hu)

theorem le_roundPos_of_le {q : ℚ} (k : ℤ) (h : k * ulp q ≤ q) : k * ulp q ≤ roundPos q := by
  have hu := ulp_pos q
  have h1 : (k : ℚ) ≤ q / ulp q := by
    rw [le_div_iff₀ hu]
    exact h
  have h2 : (k : ℚ) ≤ ((roundEven (q / ulp q) : ℤ) : ℚ) := by exact_mod_cast le_roundEven h1
  unfold roundPos
  exact mul_le_mul_of_nonneg_right h2 (le_of_lt hu)

theorem roundPos_zero : roundPos 0 = 0 := by
  have h1 := roundPos_le_of_le (q := 0) 0 (by simp)
  have h2 := le_roundPos_of_le (q := 0) 0 (by simp)
  simp at h1 h2
  exact le_antisymm h1 h2

theorem exists_int_mul_ulp {q : ℚ} (hq : 0 < q) (h : q < (2 : ℚ) ^ (53 : ℤ)) (n : ℤ) :
    ∃ k : ℤ, (k : ℚ) * ulp q = n := by
  have hb : Int.log 2 q < 53 := by
    rw [← Int.lt_zpow_iff_log_lt (by norm_num) hq]
    simpa using h
  refine ⟨n * 2 ^ (52 - Int.log 2 q).toNat, ?_⟩
  unfold ulp
  have hj : ((52 - Int.log 2 q).toNat : ℤ) = 52 - Int.log 2 q := Int.toNat_of_nonneg (by omega)
  push_cast
  rw [mul_assoc, ← zpow_natCast, ← zpow_add₀ (by norm_num), hj]
  simp

theorem roundFloat64_of_nonneg {q : ℚ} (h : 0 ≤ q) : roundFloat64 q = roundPos q := by
  unfold roundFloat64
  rw [if_neg (not_lt.mpr h)]

theorem roundFloat64_neg (q : ℚ) : roundFloat64 (-q) = -roundFloat64 q := by
  unfold roundFloat64
  rcases lt_trichotomy q 0 with h | h | h
  · rw [if_neg (by linarith), if_pos h]
    simp
  · subst h
    simp [roundPos_zero]
  · rw [if_pos (by linarith), if_neg (by linarith)]
    simp

theorem truncFloat_neg (x : ℚ) : truncFloat (-x) = -truncFloat x := by
  unfold truncFloat
  rcases lt_trichotomy x 0 with h | h | h
  · rw [if_pos (by linarith), if_neg (by linarith), Int.floor_neg]
  · subst h
    simp
  · rw [if_neg (by linarith), if_pos (by linarith), Int.ceil_neg]

theorem neg_tmod (a b : Int) : Int.tmod (-a) b = -Int.tmod a b := by
  rw [Int.tmod_def, Int.tmod_def, Int.neg_tdiv]
  ring

theorem Seconds_neg (d : Duration) : Duration.Seconds (-d) = -Duration.Seconds d := by
  unfold Duration.Seconds
  rw [Int.neg_tdiv, neg_tmod]
  push_cast
  rw [neg_div, roundFloat64_neg, ← neg_add, roundFloat64_neg]

/-- The fraction `float64(nsec) / 1e9` of `Seconds`, for `0 <= nsec < 10^9`. -/
theorem fraction_bounds {r : Int} (h0 : 0 ≤ r) (h1 : r < 1000000000) :
    0 ≤ roundFloat64 ((r : ℚ) / 1000000000) ∧
    roundFloat64 ((r : ℚ) / 1000000000) ≤ 1 - 1 / 1000000000 + 1 / 2 ^ 54 := by
  have hr0 : (0 : ℚ) ≤ r := by exact_mod_cast h0
  have hr1 : (r : ℚ) ≤ 999999999 := by
    have : r ≤ 999999999 := by omega
    exact_mod_cast this
  have ht0 : (0 : ℚ) ≤ (r : ℚ) / 1000000000 := by positivity
  have ht1 : (r : ℚ) / 1000000000 ≤ 1 - 1 / 1000000000 := by
    rw [div_le_iff₀ (by norm_num)]
    linarith
  rw [roundFloat64_of_nonneg ht0]
  constructor
  · have := le_roundPos_of_le (q := (r : ℚ) / 1000000000) 0 (by simpa using ht0)
    simpa using this
  · rcases eq_or_lt_of_le ht0 with h | h
    · rw [← h, roundPos_zero]
      norm_num
    · have hu : ulp ((r : ℚ) / 1000000000) ≤ 2 ^ ((0 : ℤ) - 53) :=
        ulp_le h (by
          have : (r : ℚ) / 1000000000 < 1 := by linarith
          simpa using this)
      have hn := (roundPos_near ((r : ℚ) / 1000000000)).2
      have he : (2 : ℚ) ^ ((0 : ℤ) - 53) = 1 / 2 ^ 53 := by
        norm_num [zpow_neg]
      rw [he] at hu
      have : (1 : ℚ) / 2 ^ 53 / 2 = 1 / 2 ^ 54 := by norm_num
      linarith

theorem Seconds_bounds {d : Duration} (h0 : 0 ≤ d) (hd : d < 2 ^ 52 * Second) :
    ((d / Second : Int) : ℚ) ≤ Duration.Seconds d ∧
    Duration.Seconds d ≤ ((d / Second : Int) : ℚ) + 1 ∧
    (d < 2 ^ 24 * Second → Duration.Seconds d < ((d / Second : Int) : ℚ) + 1) := by
  have hS : (0 : Int) < Second := by decide
  have hdiv : Int.tdiv d Second = d / Second := Int.tdiv_eq_ediv h0 (le_of_lt hS)
  have hmod : Int.tmod d Second = d % Second := Int.tmod_eq_emod h0 (le_of_lt hS)
  have hr0 : 0 ≤ d % Second := Int.emod_nonneg d (ne_of_gt hS)
  have hr1 : d % Second < 1000000000 := Int.emod_lt_of_pos d hS
  have hn0 : 0 ≤ d / Second := Int.ediv_nonneg h0 (le_of_lt hS)
  have hn1 : d / Second < 2 ^ 52 := Int.ediv_lt_of_lt_mul hS hd
  have hn24 : d < 2 ^ 24 * Second → d / Second < 2 ^ 24 := fun h => Int.ediv_lt_of_lt_mul hS h
  obtain ⟨hf0, hf1⟩ := fraction_bounds hr0 hr1
  have hnq0 : (0 : ℚ) ≤ ((d / Second : Int) : ℚ) := by exact_mod_cast hn0
  have hnq1 : ((d / Second : Int) : ℚ) ≤ 2 ^ 52 - 1 := by
    have : d / Second ≤ 2 ^ 52 - 1 := Int.le_sub_one_of_lt hn1
    exact_mod_cast this
  have hnq24 : d < 2 ^ 24 * Second → ((d / Second : Int) : ℚ) ≤ 2 ^ 24 - 1 := by
    intro h
    have : d / Second ≤ 2 ^ 24 - 1 := Int.le_sub_one_of_lt (hn24 h)
    exact_mod_cast this
  unfold Duration.Seconds
  rw [hdiv, hmod]
  generalize roundFloat64 (((d % Second : Int) : ℚ) / 1000000000) = f at hf0 hf1
  have hx0 : (0 : ℚ) ≤ ((d / Second : Int) : ℚ) + f := by linarith
  rw [roundFloat64_of_nonneg hx0]
  have hsmall : (1 : ℚ) / 2 ^ 54 < 1 / 1000000000 := by norm_num
  rcases eq_or_lt_of_le hx0 with hx | hx
  · have hn : ((d / Second : Int) : ℚ) = 0 := by linarith
    rw [← hx, roundPos_zero, hn]
    refine ⟨le_refl _, by norm_num, fun _ => by norm_num⟩
  · have hx53 : ((d / Second : Int) : ℚ) + f < (2 : ℚ) ^ (53 : ℤ) := by
      have : (2 : ℚ) ^ (53 : ℤ) = 2 ^ 53 := by norm_num
      rw [this]
      have : (2 : ℚ) ^ 53 = 2 * 2 ^ 52 := by norm_num
      linarith
    obtain ⟨k, hk⟩ := exists_int_mul_ulp hx hx53 (d / Second)
    obtain ⟨k1, hk1⟩ := exists_int_mul_ulp hx hx53 (d / Second + 1)
    refine ⟨?_, ?_, ?_⟩
    · have := le_roundPos_of_le (q := ((d / Second : Int) : ℚ) + f) k (by rw [hk]; linarith)
      rw [hk] at this
      exact this
    · have := roundPos_le_of_le (q := ((d / Second : Int) : ℚ) + f) k1 (by
        rw [hk1]
        push_cast
        linarith)
      rw [hk1] at this
      push_cast at this
      exact this
    · intro h24
      have hn := hnq24 h24
      have hu : ulp (((d / Second : Int) : ℚ) + f) ≤ 2 ^ ((24 : ℤ) - 53) :=
        ulp_le hx (by
          have : (2 : ℚ) ^ (24 : ℤ) = 2 ^ 24 := by norm_num
          rw [this]
          linarith)
      have he : (2 : ℚ) ^ ((24 : ℤ) - 53) = 1 / 2 ^ 29 := by norm_num [zpow_neg]
      rw [he] at hu
      have hnear := (roundPos_near (((d / Second : Int) : ℚ) + f)).2
      have hnum : (1 : ℚ) / 2 ^ 54 + 1 / 2 ^ 29 / 2 < 1 / 1000000000 := by norm_num
      linarith

theorem truncFloat_Seconds {d : Duration} (h0 : 0 ≤ d) (hd : d < 2 ^ 24 * Second) :
    truncFloat (Duration.Seconds d) = d / Second := by
  have hd52 : d < 2 ^ 52 * Second := by
    simp only [Second, Duration] at *
    omega
  obtain ⟨h1, _, h3⟩ := Seconds_bounds h0 hd52
  have hS : (0 : Int) < Second := by decide
  have hn0 : (0 : ℚ) ≤ ((d / Second : Int) : ℚ) := by
    exact_mod_cast Int.ediv_nonneg h0 (le_of_lt hS)
  unfold truncFloat
  rw [if_pos (by linarith)]
  rw [Int.floor_eq_iff]
  exact ⟨h1, h3 hd⟩

/-- Below `2^24` seconds in magnitude, `int32(d.Seconds())` is `d` in whole
seconds, rounded toward zero. -/
theorem residual_eq_tdiv {d : Duration} (h1 : -(2 ^ 24 * Second) < d) (h2 : d < 2 ^ 24 * Second) :
    toInt32 (truncFloat (Duration.Seconds d)) = Int.tdiv d Second := by
  have hS : (0 : Int) < Second := by decide
  have key : ∀ x : Duration, 0 ≤ x → x < 2 ^ 24 * Second →
      truncFloat (Duration.Seconds x) = Int.tdiv x Second ∧ 0 ≤ Int.tdiv x Second ∧
        Int.tdiv x Second < 2 ^ 24 := by
    intro x hx0 hx1
    rw [truncFloat_Seconds hx0 hx1, Int.tdiv_eq_ediv hx0 (le_of_lt hS)]
    exact ⟨rfl, Int.ediv_nonneg hx0 (le_of_lt hS), Int.ediv_lt_of_lt_mul hS hx1⟩
  rcases le_or_lt 0 d with h | h
  · obtain ⟨e1, e2, e3⟩ := key d h h2
    rw [e1]
    unfold toInt32
    omega
  · obtain ⟨e1, e2, e3⟩ := key (-d) (by simp only [Duration] at *; omega)
      (by simp only [Second, Duration] at *; omega)
    have hneg : truncFloat (Duration.Seconds d) = Int.tdiv d Second := by
      have h4 := Seconds_neg d
      rw [h4, truncFloat_neg, Int.neg_tdiv] at e1
      omega
    rw [hneg]
    rw [Int.neg_tdiv] at e2 e3
    unfold toInt32
    omega

/-- From one second up to `2^31 - 1` seconds, `int32(d.Seconds())` is at
least 1. -/
theorem residual_ge_one {d : Duration} (h1 : Second ≤ d) (h2 : d < (2 ^ 31 - 1) * Second) :
    1 ≤ toInt32 (truncFloat (Duration.Seconds d)) := by
  have hS : (0 : Int) < Second := by decide
  have h0 : 0 ≤ d := le_trans (le_of_lt hS) h1
  have hd52 : d < 2 ^ 52 * Second := by
    simp only [Second, Duration] at *
    omega
  obtain ⟨b1, b2, _⟩ := Seconds_bounds h0 hd52
  have hn1 : 1 ≤ d / Second := by
    rw [Int.le_ediv_iff_mul_le hS]
    simpa using h1
  have hn2 : d / Second < 2 ^ 31 - 1 := Int.ediv_lt_of_lt_mul hS h2
  have hq1 : (1 : ℚ) ≤ ((d / Second : Int) : ℚ) := by exact_mod_cast hn1
  have hf1 : d / Second ≤ ⌊Duration.Seconds d⌋ := Int.le_floor.mpr b1
  have hf2 : ⌊Duration.Seconds d⌋ ≤ d / Second + 1 := by
    have := Int.floor_le (Duration.Seconds d)
    have h3 : ((⌊Duration.Seconds d⌋ : Int) : ℚ) ≤ ((d / Second + 1 : Int) : ℚ) := by
      push_cast
      linarith
    exact_mod_cast h3
  unfold truncFloat
  rw [if_pos (by linarith)]
  generalize ⌊Duration.Seconds d⌋ = y at hf1 hf2
  generalize d / Second = n at hn1 hn2 hf1 hf2
  unfold toInt32
  simp only [Duration] at *
  omega

theorem roundPos_eq {q : ℚ} {e k : ℤ} (h1 : (2 : ℚ) ^ e ≤ q) (h2 : q < (2 : ℚ) ^ (e + 1))
    (h3 : (k : ℚ) * 2 ^ (e - 52) - 2 ^ (e - 52) / 2 < q) (h4 : q ≤ (k : ℚ) * 2 ^ (e - 52)) :
    roundPos q = (k : ℚ) * 2 ^ (e - 52) := by
  have hu := ulp_eq h1 h2
  have hpos : (0 : ℚ) < 2 ^ (e - 52) := by positivity
  have hle : roundEven (q / ulp q) ≤ k := by
    apply roundEven_le
    rw [hu, div_le_iff₀ hpos]
    exact h4
  have hge : k ≤ roundEven (q / ulp q) := by
    have hn := (roundEven_near (q / ulp q)).1
    have hlt : (k : ℚ) - 1 / 2 < q / ulp q := by
      rw [hu, lt_div_iff₀ hpos]
      linarith
    have h5 : ((k - 1 : ℤ) : ℚ) < ((roundEven (q / ulp q) : ℤ) : ℚ) := by
      push_cast
      linarith
    have h6 : k - 1 < roundEven (q / ulp q) := by exact_mod_cast h5
    omega
  have : roundEven (q / ulp q) = k := le_antisymm hle hge
  unfold roundPos
  rw [this, hu]

/-- The fraction of the last nanosecond of a second. -/
theorem fraction_last :
    1 - 1 / 1000000000 - 1 / 2 ^ 54 ≤ roundFloat64 ((999999999 : ℚ) / 1000000000) ∧
    roundFloat64 ((999999999 : ℚ) / 1000000000) ≤ 1 - 1 / 1000000000 + 1 / 2 ^ 54 := by
  rw [roundFloat64_of_nonneg (by norm_num)]
  have hu : ulp ((999999999 : ℚ) / 1000000000) = 2 ^ ((-1 : ℤ) - 52) :=
    ulp_eq (by norm_num [zpow_neg]) (by norm_num)
  have he : (2 : ℚ) ^ ((-1 : ℤ) - 52) = 1 / 2 ^ 53 := by norm_num [zpow_neg]
  obtain ⟨h1, h2⟩ := roundPos_near ((999999999 : ℚ) / 1000000000)
  rw [hu, he] at h1 h2
  constructor
  · have : (1 : ℚ) - 1 / 1000000000 - 1 / 2 ^ 54 = 999999999 / 1000000000 - 1 / 2 ^ 53 / 2 := by
      norm_num
    rw [this]
    exact h1
  · have : (1 : ℚ) - 1 / 1000000000 + 1 / 2 ^ 54 = 999999999 / 1000000000 + 1 / 2 ^ 53 / 2 := by
      norm_num
    rw [this]
    exact h2

/-- One nanosecond below `2^31` seconds the `float64` sum of `Seconds` rounds
up to `2^31`, which is not an `int32`. -/
theorem Seconds_rounds_up_31 : Duration.Seconds 2147483647999999999 = 2147483648 := by
  have hdiv : Int.tdiv (2147483647999999999 : Int) Second = 2147483647 := by decide
  have hmod : Int.tmod (2147483647999999999 : Int) Second = 999999999 := by decide
  obtain ⟨f1, f2⟩ := fraction_last
  unfold Duration.Seconds
  rw [hdiv, hmod]
  push_cast
  generalize roundFloat64 ((999999999 : ℚ) / 1000000000) = f at f1 f2
  rw [roundFloat64_of_nonneg (by linarith)]
  have key := roundPos_eq (q := 2147483647 + f) (e := 30) (k := 2 ^ 53)
    (by norm_num; linarith) (by norm_num; linarith)
    (by norm_num [zpow_neg]; linarith) (by norm_num [zpow_neg]; linarith)
  rw [key]
  norm_num [zpow_neg]

theorem residual_example_31 :
    toInt32 (truncFloat (Duration.Seconds 2147483647999999999)) = -2147483648 := by
  rw [Seconds_rounds_up_31]
  have : truncFloat (2147483648 : ℚ) = 2147483648 := by
    unfold truncFloat
    norm_num
  rw [this]
  decide

/-! ## Events of the bulk sync snapshot -/

theorem bulkSyncVisit_mkPath (db : NetworkDB) (nid a b k : Str) (v : Nat) :
    ∃ ev, bulkSyncVisit db nid (mkPath a b k) v = some ev ∧
      ev.EvType = (if (db.heap v).deleting then TableEventType.TableEventTypeDelete
        else TableEventType.TableEventTypeCreate) ∧
      ev.LTime = (db.heap v).ltime ∧ ev.NodeName = (db.heap v).node ∧
      ev.NetworkID = nid ∧ ev.Value = (db.heap v).value ∧
      ev.ResidualReapTime = toInt32 (truncFloat (Duration.Seconds (db.heap v).reapTime)) := by
  have hlen := split_mkPath_length a b k
  match hs : split (a ++ '/' :: (b ++ '/' :: k)), hlen with
  | p0 :: p1 :: p2 :: ps, _ =>
    refine ⟨
      { EvType := (if (db.heap v).deleting then TableEventType.TableEventTypeDelete
          else TableEventType.TableEventTypeCreate)
        LTime := (db.heap v).ltime
        NodeName := (db.heap v).node
        NetworkID := nid
        TableName := p1
        Key := p2
        Value := (db.heap v).value
        ResidualReapTime := toInt32 (truncFloat (Duration.Seconds (db.heap v).reapTime)) },
      ?_, rfl, rfl, rfl, rfl, rfl, rfl⟩
    simp [bulkSyncVisit, mkPath, hs]

/-- C3 (amended): for a tombstone whose network id, table name and key
contain no `"/"`, stored in the by-network index, and a time compensation
`c >= 0` for which `reapPeriod + c + 1s` does not overflow, the visit returns
and the tombstone is kept, that is, still in the index after the visit,
exactly when its `reapTime` exceeded `reapPeriod + c + 1s`. If it is kept, its
new `reapTime` is greater than one second, and the `ResidualReapTime` that
`bulkSyncNode` computes for it, for a new `reapTime` below `2^31 - 1`
seconds, is at least 1. -/
theorem reapVisit_kept_residual (db : NetworkDB) (nid tname key : Str) (v : Nat) (c : Duration)
    (hns : '/' ∉ nid ∧ '/' ∉ tname ∧ '/' ∉ key)
    (hN : (mkPath nid tname key, v) ∈ db.byNetwork)
    (hdel : (db.heap v).deleting = true)
    (hc0 : 0 ≤ c) (hc : c ≤ maxDuration - reapPeriod - Second)
    (hmax : (db.heap v).reapTime ≤ maxDuration) :
    ∃ db', reapVisit c db (mkPath nid tname key) v = some db' ∧
      ((mkPath nid tname key, v) ∈ db'.byNetwork ↔
        reapPeriod + c + Second < (db.heap v).reapTime) ∧
      ((mkPath nid tname key, v) ∈ db'.byNetwork →
        Second < (db'.heap v).reapTime ∧
        ((db'.heap v).reapTime < (2 ^ 31 - 1) * Second →
          ∀ net, ∃ ev, bulkSyncVisit db' net (mkPath nid tname key) v = some ev ∧
            1 ≤ ev.ResidualReapTime)) := by
  by_cases hkept : reapPeriod + c + Second < (db.heap v).reapTime
  · have hnew : Second < (db.heap v).reapTime - (reapPeriod + c) := by
      simp only [reapPeriod, Second, maxDuration, Duration] at *
      omega
    refine ⟨_, reapVisit_keep c db _ v hdel hc0 hc hmax hkept, ⟨fun _ => hkept, fun _ => hN⟩, ?_⟩
    intro _
    simp only [Function.update_same]
    refine ⟨hnew, ?_⟩
    intro h31 net
    refine Exists.imp (fun ev h => ⟨h.1, ?_⟩) (bulkSyncVisit_mkPath _ net nid tname key v)
    rw [h.2.2.2.2.2.2]
    simp only [Function.update_same]
    exact residual_ge_one (le_of_lt hnew) h31
  · have hdue : (db.heap v).reapTime ≤ reapPeriod + c + Second := not_lt.mp hkept
    have hgone : (mkPath nid tname key, v) ∉ (deleteEntry db nid tname key).1.byNetwork := by
      rw [deleteEntry_byNetwork]
      simp
    refine ⟨(deleteEntry db nid tname key).1,
      reapVisit_delete c db _ nid tname key v hdel hc0 hc hdue
        (split_mkPath hns.1 hns.2.1 hns.2.2),
      ⟨fun h => absurd h hgone, fun h => absurd h hkept⟩, fun h => absurd h hgone⟩

theorem noSlash_of_split_length {s : Str} (h : (split s).length = 1) : '/' ∉ s := by
  obtain ⟨hj, hw⟩ := split_spec s
  match hs : split s, h with
  | [w], _ =>
    rw [hs] at hj hw
    simp only [joinSlash] at hj
    rw [← hj]
    exact hw w (by simp)

theorem noSlash_of_isEntryPath_mkPath {a b c : Str} (h : isEntryPath (mkPath a b c) = true) :
    '/' ∉ a ∧ '/' ∉ b ∧ '/' ∉ c := by
  simp only [isEntryPath, mkPath, beq_self_eq_true, Bool.true_and, beq_iff_eq] at h
  rw [split_length_append, split_length_append] at h
  have h1 := split_length_pos a
  have h2 := split_length_pos b
  have h3 := split_length_pos c
  exact ⟨noSlash_of_split_length (by omega), noSlash_of_split_length (by omega),
    noSlash_of_split_length (by omega)⟩

/-! ## Entry reaper: passes with time compensation 0 -/

theorem KeepInv.of_heap_update {nid tname key : Str} {v : Nat} {nets : List (Str × network)}
    {r : Duration} {db : NetworkDB} (inv : KeepInv nid tname key v nets r db)
    (w : Nat) (e : entry) (hw : w ≠ v) :
    KeepInv nid tname key v nets r { db with heap := Function.update db.heap w e } :=
  { wf := inv.wf
    ndPath := inv.ndPath
    ndPtr := inv.ndPtr
    memN := inv.memN
    memT := inv.memT
    del := by
      show (Function.update db.heap w e v).deleting = true
      rw [Function.update_noteq hw.symm]
      exact inv.del
    rt := by
      show (Function.update db.heap w e v).reapTime = r
      rw [Function.update_noteq hw.symm]
      exact inv.rt
    joined := inv.joined }

theorem KeepInv.of_deleteEntry {nid tname key : Str} {v : Nat} {nets : List (Str × network)}
    {r : Duration} {db : NetworkDB} (inv : KeepInv nid tname key v nets r db)
    {a b c : Str} (ha : '/' ∉ a) (hb : '/' ∉ b) (hc : '/' ∉ c)
    (hne : mkPath a b c ≠ mkPath nid tname key) :
    KeepInv nid tname key v nets r (deleteEntry db a b c).1 := by
  obtain ⟨hn, ht, hk⟩ := noSlash_of_isEntryPath_mkPath (inv.wf _ inv.memN)
  have hneT : mkPath b a c ≠ mkPath tname nid key := by
    intro h
    obtain ⟨h1, h2, h3⟩ := mkPath_inj hb ha hc ht hn hk h
    exact hne (by rw [h1, h2, h3])
  refine
    { wf := ?_, ndPath := ?_, ndPtr := ?_, memN := ?_, memT := ?_
      del := inv.del, rt := inv.rt, joined := inv.joined }
  · intro leaf hleaf
    rw [deleteEntry_byNetwork] at hleaf
    exact inv.wf leaf (List.mem_of_mem_filter hleaf)
  · rw [deleteEntry_byNetwork]
    exact ((List.filter_sublist _).map Prod.fst).nodup inv.ndPath
  · rw [deleteEntry_byNetwork]
    exact ((List.filter_sublist _).map Prod.snd).nodup inv.ndPtr
  · rw [deleteEntry_byNetwork]
    exact List.mem_filter.mpr ⟨inv.memN, by simpa using fun h => hne h.symm⟩
  · rw [deleteEntry_byTable]
    exact List.mem_filter.mpr ⟨inv.memT, by simpa using fun h => hneT h.symm⟩

/-- A visit of another leaf leaves the tombstone where it is. -/
theorem reapVisit_other {nid tname key : Str} {v : Nat} {nets : List (Str × network)}
    {r : Duration} {db : NetworkDB} (inv : KeepInv nid tname key v nets r db)
    (c : Duration) (path : Str) (w : Nat)
    (hwf : isEntryPath path = true) (hw : w ≠ v) (hpath : path ≠ mkPath nid tname key) :
    ∃ db', reapVisit c db path w = some db' ∧ KeepInv nid tname key v nets r db' := by
  obtain ⟨a, b, k, rest, hp, hsplit, hmk, ha, hb, hk⟩ := isEntryPath_elim hwf
  unfold reapVisit
  by_cases hdel : (db.heap w).deleting = true
  · simp only [hdel, Bool.not_true, Bool.false_eq_true, if_false]
    split
    · exact ⟨_, rfl, inv.of_heap_update w _ hw⟩
    · subst hp
      refine ⟨(deleteEntry db a b k).1, by simp [hsplit], ?_⟩
      exact inv.of_deleteEntry ha hb hk (by rw [← hmk]; exact hpath)
  · simp only [Bool.not_eq_true] at hdel
    exact ⟨db, by simp [hdel], inv⟩

/-- A visit of the tombstone itself, with time compensation 0 and more than
`reapPeriod + 1s` left, takes `reapPeriod` off its reap counter. -/
theorem reapVisit_self {nid tname key : Str} {v : Nat} {nets : List (Str × network)}
    {r : Duration} {db : NetworkDB} (inv : KeepInv nid tname key v nets r db)
    (hmax : r ≤ maxDuration) (hr : reapPeriod + Second < r) :
    ∃ db', reapVisit 0 db (mkPath nid tname key) v = some db' ∧
      KeepInv nid tname key v nets (r - reapPeriod) db' := by
  have hrt := inv.rt
  have hk := reapVisit_keep 0 db (mkPath nid tname key) v inv.del (le_refl _) (by decide)
    (by rw [hrt]; exact hmax) (by rw [hrt]; simpa using hr)
  refine ⟨_, hk, ?_⟩
  exact
    { wf := inv.wf
      ndPath := inv.ndPath
      ndPtr := inv.ndPtr
      memN := inv.memN
      memT := inv.memT
      del := by
        simp only [Function.update_same]
        exact inv.del
      rt := by
        simp only [Function.update_same]
        rw [hrt]
        simp
      joined := inv.joined }

theorem reapWalk_keep (nid tname key : Str) (v : Nat) (nets : List (Str × network)) :
    ∀ (L : Index) (i : Nat) (r : Duration) (db : NetworkDB),
      KeepInv nid tname key v nets r db →
      (∀ leaf ∈ L, isEntryPath leaf.1 = true ∧
        (leaf.2 = v → leaf = (mkPath nid tname key, v)) ∧
        (leaf.1 = mkPath nid tname key → leaf = (mkPath nid tname key, v))) →
      r ≤ maxDuration →
      (L.count (mkPath nid tname key, v) = 0 ∨
        (L.count (mkPath nid tname key, v) : Int) * reapPeriod + Second < r) →
      ∃ s', reapWalk (fun _ => 0) L (i, db) = some s' ∧
        KeepInv nid tname key v nets
          (r - (L.count (mkPath nid tname key, v) : Int) * reapPeriod) s'.2 := by
  intro L
  induction L with
  | nil =>
    intro i r db inv _ _ _
    exact ⟨(i, db), rfl, by simpa using inv⟩
  | cons leaf rest ih =>
    intro i r db inv hL hmax hcnt
    have hrestL : ∀ l ∈ rest, isEntryPath l.1 = true ∧
        (l.2 = v → l = (mkPath nid tname key, v)) ∧
        (l.1 = mkPath nid tname key → l = (mkPath nid tname key, v)) :=
      fun l hl => hL l (List.mem_cons_of_mem _ hl)
    obtain ⟨hwf, hptr, hpath⟩ := hL leaf (List.mem_cons_self _ _)
    have hP : (0 : Int) < reapPeriod := by decide
    by_cases hself : leaf = (mkPath nid tname key, v)
    · subst hself
      rw [List.count_cons_self] at hcnt ⊢
      have hc0 : (0 : Int) ≤ (rest.count (mkPath nid tname key, v) : Int) := Int.ofNat_nonneg _
      have hnn : (0 : Int) ≤ (rest.count (mkPath nid tname key, v) : Int) * reapPeriod :=
        mul_nonneg hc0 (le_of_lt hP)
      have hcnt' : ((rest.count (mkPath nid tname key, v) : Int) + 1) * reapPeriod + Second < r := by
        rcases hcnt with h | h
        · exact absurd h (Nat.succ_ne_zero _)
        · simpa using h
      rw [add_mul, one_mul] at hcnt'
      obtain ⟨q, hq⟩ : ∃ q : Int, (rest.count (mkPath nid tname key, v) : Int) * reapPeriod = q :=
        ⟨_, rfl⟩
      rw [hq] at hcnt' hnn
      have hr : reapPeriod + Second < r := by
        simp only [Duration] at *
        omega
      obtain ⟨db1, hv, inv1⟩ := reapVisit_self inv hmax hr
      have hmax1 : r - reapPeriod ≤ maxDuration := by
        simp only [Duration] at *
        omega
      have hcnt1 : rest.count (mkPath nid tname key, v) = 0 ∨
          (rest.count (mkPath nid tname key, v) : Int) * reapPeriod + Second < r - reapPeriod := by
        right
        rw [hq]
        simp only [Duration] at *
        omega
      obtain ⟨s', hs', inv'⟩ := ih (i + 1) (r - reapPeriod) db1 inv1 hrestL hmax1 hcnt1
      refine ⟨s', ?_, ?_⟩
      · simp only [reapWalk, hv, Option.bind_some]
        exact hs'
      · have he : r - reapPeriod - (rest.count (mkPath nid tname key, v) : Int) * reapPeriod
            = r - ((rest.count (mkPath nid tname key, v) + 1 : Nat) : Int) * reapPeriod := by
          push_cast
          rw [add_mul, one_mul, hq]
          simp only [Duration] at *
          omega
        rw [← he]
        exact inv'
    · have hw : leaf.2 ≠ v := fun h => hself (hptr h)
      have hp : leaf.1 ≠ mkPath nid tname key := fun h => hself (hpath h)
      obtain ⟨db1, hv, inv1⟩ := reapVisit_other inv 0 leaf.1 leaf.2 hwf hw hp
      have hc : (leaf :: rest).count (mkPath nid tname key, v)
          = rest.count (mkPath nid tname key, v) := by
        rw [List.count_cons_of_ne (fun h => hself h.symm)]
      rw [hc] at hcnt ⊢
      obtain ⟨s', hs', inv'⟩ := ih (i + 1) r db1 inv1 hrestL hmax hcnt
      refine ⟨s', ?_, inv'⟩
      simp only [reapWalk, hv, Option.bind_some]
      exact hs'

theorem count_eq_one_of_nodup {α : Type} [BEq α] [LawfulBEq α] {a : α} {l : List α}
    (hnd : l.Nodup) (hmem : a ∈ l) : l.count a = 1 := by
  induction l with
  | nil => cases hmem
  | cons b l ih =>
    rw [List.nodup_cons] at hnd
    by_cases hab : a = b
    · subst hab
      rw [List.count_cons_self, List.count_eq_zero_of_not_mem hnd.1]
    · rw [List.count_cons_of_ne hab]
      rcases List.mem_cons.mp hmem with h | h
      · exact absurd h hab
      · exact ih hnd.2 h

theorem walkPrefix_count {nid tname key : Str} {v : Nat} {nets : List (Str × network)}
    {r : Duration} {db : NetworkDB} (inv : KeepInv nid tname key v nets r db) (x : Str) :
    (WalkPrefix db.byNetwork ('/' :: x)).count (mkPath nid tname key, v)
      = if ('/' :: x).isPrefixOf (mkPath nid tname key) then 1 else 0 := by
  have hnd : db.byNetwork.Nodup := List.Nodup.of_map _ inv.ndPath
  unfold WalkPrefix
  by_cases hp : ('/' :: x).isPrefixOf (mkPath nid tname key) = true
  · rw [if_pos hp, List.count_filter (by simpa using hp)]
    exact count_eq_one_of_nodup hnd inv.memN
  · rw [if_neg hp]
    apply List.count_eq_zero_of_not_mem
    intro hmem
    exact hp (by simpa using (List.mem_filter.mp hmem).2)

theorem walkPrefix_leaves {nid tname key : Str} {v : Nat} {nets : List (Str × network)}
    {r : Duration} {db : NetworkDB} (inv : KeepInv nid tname key v nets r db) (x : Str) :
    ∀ leaf ∈ WalkPrefix db.byNetwork ('/' :: x), isEntryPath leaf.1 = true ∧
      (leaf.2 = v → leaf = (mkPath nid tname key, v)) ∧
      (leaf.1 = mkPath nid tname key → leaf = (mkPath nid tname key, v)) := by
  intro leaf hleaf
  have hmem : leaf ∈ db.byNetwork := List.mem_of_mem_filter hleaf
  exact ⟨inv.wf leaf hmem,
    fun h => List.inj_on_of_nodup_map inv.ndPtr hmem inv.memN h,
    fun h => List.inj_on_of_nodup_map inv.ndPath hmem inv.memN h⟩

theorem reapLoop_keep (nid tname key : Str) (v : Nat) (nets : List (Str × network)) :
    ∀ (K : List Str) (i : Nat) (r : Duration) (db : NetworkDB),
      KeepInv nid tname key v nets r db →
      r ≤ maxDuration →
      (K.countP (fun x => ('/' :: x).isPrefixOf (mkPath nid tname key)) = 0 ∨
        (K.countP (fun x => ('/' :: x).isPrefixOf (mkPath nid tname key)) : Int) * reapPeriod
          + Second < r) →
      ∃ s', reapLoop (fun _ => 0) K (i, db) = some s' ∧
        KeepInv nid tname key v nets
          (r - (K.countP (fun x => ('/' :: x).isPrefixOf (mkPath nid tname key)) : Int)
            * reapPeriod) s'.2 := by
  intro K
  induction K with
  | nil =>
    intro i r db inv _ _
    exact ⟨(i, db), rfl, by simpa using inv⟩
  | cons x K ih =>
    intro i r db inv hmax hcnt
    have hleaves := walkPrefix_leaves inv x
    have hcount := walkPrefix_count inv x
    rw [List.countP_cons] at hcnt ⊢
    have hK0 : (0 : Int) ≤
        (K.countP (fun x => ('/' :: x).isPrefixOf (mkPath nid tname key)) : Int) :=
      Int.ofNat_nonneg _
    by_cases hp : ('/' :: x).isPrefixOf (mkPath nid tname key) = true
    · simp only [hp, if_true] at hcnt hcount ⊢
      have hcnt' : ((K.countP (fun x => ('/' :: x).isPrefixOf (mkPath nid tname key)) : Int) + 1)
          * reapPeriod + Second < r := by
        rcases hcnt with h | h
        · exact absurd h (Nat.succ_ne_zero _)
        · simpa using h
      have hw : (WalkPrefix db.byNetwork ('/' :: x)).count (mkPath nid tname key, v) = 0 ∨
          ((WalkPrefix db.byNetwork ('/' :: x)).count (mkPath nid tname key, v) : Int)
            * reapPeriod + Second < r := by
        right
        rw [hcount]
        simp only [reapPeriod, Second, Duration] at *
        push_cast
        omega
      obtain ⟨s1, hs1, inv1⟩ := reapWalk_keep nid tname key v nets _ i r db inv hleaves hmax hw
      rw [hcount] at inv1
      have hmax1 : r - ((1 : Nat) : Int) * reapPeriod ≤ maxDuration := by
        simp only [reapPeriod, Second, maxDuration, Duration] at *
        push_cast
        omega
      have hcnt1 : K.countP (fun x => ('/' :: x).isPrefixOf (mkPath nid tname key)) = 0 ∨
          (K.countP (fun x => ('/' :: x).isPrefixOf (mkPath nid tname key)) : Int) * reapPeriod
            + Second < r - ((1 : Nat) : Int) * reapPeriod := by
        right
        simp only [reapPeriod, Second, Duration] at *
        push_cast
        omega
      obtain ⟨s2, hs2, inv2⟩ := ih s1.1 _ s1.2 inv1 hmax1 hcnt1
      refine ⟨s2, ?_, ?_⟩
      · simp only [reapLoop, hs1, Option.bind_some]
        exact hs2
      · have he : r - ((1 : Nat) : Int) * reapPeriod
            - (K.countP (fun x => ('/' :: x).isPrefixOf (mkPath nid tname key)) : Int) * reapPeriod
            = r - ((K.countP (fun x => ('/' :: x).isPrefixOf (mkPath nid tname key)) + 1 : Nat)
              : Int) * reapPeriod := by
          push_cast
          ring
        rw [← he]
        exact inv2
    · simp only [hp, if_false, Nat.add_zero, Bool.false_eq_true] at hcnt hcount ⊢
      have hw : (WalkPrefix db.byNetwork ('/' :: x)).count (mkPath nid tname key, v) = 0 ∨
          ((WalkPrefix db.byNetwork ('/' :: x)).count (mkPath nid tname key, v) : Int)
            * reapPeriod + Second < r := Or.inl hcount
      obtain ⟨s1, hs1, inv1⟩ := reapWalk_keep nid tname key v nets _ i r db inv hleaves hmax hw
      rw [hcount] at inv1
      simp only [Nat.cast_zero, zero_mul, sub_zero] at inv1
      obtain ⟨s2, hs2, inv2⟩ := ih s1.1 r s1.2 inv1 hmax hcnt
      refine ⟨s2, ?_, inv2⟩
      simp only [reapLoop, hs1, Option.bind_some]
      exact hs2

theorem countP_prefix_eq_one {K : List Str} {nid P : Str} (hnd : K.Nodup) (hmem : nid ∈ K)
    (hself : ('/' :: nid).isPrefixOf P = true)
    (hother : ∀ x ∈ K, ('/' :: x).isPrefixOf P = true → x = nid) :
    K.countP (fun x => ('/' :: x).isPrefixOf P) = 1 := by
  have h1 : K.countP (fun x => ('/' :: x).isPrefixOf P) = K.countP (fun x => x == nid) := by
    apply List.countP_congr
    intro x hx
    constructor
    · intro h
      simpa using hother x hx h
    · intro h
      have : x = nid := by simpa using h
      rw [this]
      exact hself
  rw [h1]
  exact count_eq_one_of_nodup hnd hmem

/-- One pass of `reapTableEntries` with time compensation 0 over a store in
which exactly one joined network reaches the tombstone: the tombstone stays
and loses `reapPeriod`. -/
theorem reapTableEntries_keep {nid tname key : Str} {v : Nat} {nets : List (Str × network)}
    {r : Duration} {db : NetworkDB} (inv : KeepInv nid tname key v nets r db)
    (hnd : (nets.map Prod.fst).Nodup) (hjoin : nid ∈ nets.map Prod.fst)
    (hother : ∀ x ∈ nets.map Prod.fst,
      ('/' :: x).isPrefixOf (mkPath nid tname key) = true → x = nid)
    (hmax : r ≤ maxDuration) (hr : reapPeriod + Second < r) :
    ∃ db', reapTableEntries (fun _ => 0) db = some db' ∧
      KeepInv nid tname key v nets (r - reapPeriod) db' := by
  have hone := countP_prefix_eq_one hnd hjoin (isPrefixOf_mkPath nid tname key) hother
  have hcnt : (nets.map Prod.fst).countP
        (fun x => ('/' :: x).isPrefixOf (mkPath nid tname key)) = 0 ∨
      ((nets.map Prod.fst).countP
        (fun x => ('/' :: x).isPrefixOf (mkPath nid tname key)) : Int) * reapPeriod
          + Second < r := by
    right
    rw [hone]
    simpa using hr
  obtain ⟨s', hs', inv'⟩ := reapLoop_keep nid tname key v nets _ 0 r db inv hmax hcnt
  rw [hone] at inv'
  refine ⟨s'.2, ?_, by simpa using inv'⟩
  unfold reapTableEntries
  rw [inv.joined, hs']
  rfl

theorem reapPasses_keep {nid tname key : Str} {v : Nat} {nets : List (Str × network)}
    (hnd : (nets.map Prod.fst).Nodup) (hjoin : nid ∈ nets.map Prod.fst)
    (hother : ∀ x ∈ nets.map Prod.fst,
      ('/' :: x).isPrefixOf (mkPath nid tname key) = true → x = nid) :
    ∀ (k : Nat) (r : Duration) (db : NetworkDB), KeepInv nid tname key v nets r db →
      r ≤ maxDuration → (k = 0 ∨ (k : Int) * reapPeriod + Second < r) →
      ∃ db', reapPasses k db = some db' ∧
        KeepInv nid tname key v nets (r - (k : Int) * reapPeriod) db' := by
  intro k
  induction k with
  | zero =>
    intro r db inv _ _
    exact ⟨db, rfl, by simpa using inv⟩
  | succ k ih =>
    intro r db inv hmax hk
    have hk' : ((k : Int) + 1) * reapPeriod + Second < r := by
      rcases hk with h | h
      · exact absurd h (Nat.succ_ne_zero _)
      · simpa using h
    have hk0 : (0 : Int) ≤ (k : Int) := Int.ofNat_nonneg _
    have hr : reapPeriod + Second < r := by
      simp only [reapPeriod, Second, Duration] at *
      omega
    obtain ⟨db1, h1, inv1⟩ := reapTableEntries_keep inv hnd hjoin hother hmax hr
    have hmax1 : r - reapPeriod ≤ maxDuration := by
      simp only [reapPeriod, Second, maxDuration, Duration] at *
      omega
    have hk1 : k = 0 ∨ (k : Int) * reapPeriod + Second < r - reapPeriod := by
      right
      simp only [reapPeriod, Second, Duration] at *
      omega
    obtain ⟨db2, h2, inv2⟩ := ih (r - reapPeriod) db1 inv1 hmax1 hk1
    refine ⟨db2, ?_, ?_⟩
    · simp only [reapPasses, h1, Option.bind_some]
      exact h2
    · have he : r - reapPeriod - (k : Int) * reapPeriod = r - ((k + 1 : Nat) : Int) * reapPeriod := by
        push_cast
        ring
      rw [← he]
      exact inv2

/-- C4 (amended): in a well-formed store (every leaf path of the by-network
index is an entry path, no path and no entry occurs twice) where the walk of
exactly one joined network reaches the tombstone, a tombstone with
`reapTime = R` is still in both indexes after `k` passes of
`reapTableEntries` with time compensation 0 whenever `k = 0` or
`k * reapPeriod + 1s < R`, and its `reapTime` is then `R - k * reapPeriod`. -/
theorem reapPasses_keeps_tombstone (db : NetworkDB) (nid tname key : Str) (v : Nat) (k : Nat)
    (hwf : ∀ leaf ∈ db.byNetwork, isEntryPath leaf.1 = true)
    (hndPath : (db.byNetwork.map Prod.fst).Nodup)
    (hndPtr : (db.byNetwork.map Prod.snd).Nodup)
    (hN : (mkPath nid tname key, v) ∈ db.byNetwork)
    (hT : (mkPath tname nid key, v) ∈ db.byTable)
    (hdel : (db.heap v).deleting = true)
    (hmax : (db.heap v).reapTime ≤ maxDuration)
    (hnd : (db.thisNodeNetworks.map Prod.fst).Nodup)
    (hjoin : nid ∈ db.thisNodeNetworks.map Prod.fst)
    (hother : ∀ x ∈ db.thisNodeNetworks.map Prod.fst,
      ('/' :: x).isPrefixOf (mkPath nid tname key) = true → x = nid)
    (hk : k = 0 ∨ (k : Int) * reapPeriod + Second < (db.heap v).reapTime) :
    ∃ db', reapPasses k db = some db' ∧
      (mkPath nid tname key, v) ∈ db'.byNetwork ∧
      (mkPath tname nid key, v) ∈ db'.byTable ∧
      (db'.heap v).deleting = true ∧
      (db'.heap v).reapTime = (db.heap v).reapTime - (k : Int) * reapPeriod := by
  have inv : KeepInv nid tname key v db.thisNodeNetworks (db.heap v).reapTime db :=
    { wf := hwf, ndPath := hndPath, ndPtr := hndPtr, memN := hN, memT := hT
      del := hdel, rt := rfl, joined := rfl }
  obtain ⟨db', h, inv'⟩ := reapPasses_keep hnd hjoin hother k _ db inv hmax hk
  exact ⟨db', h, inv'.memN, inv'.memT, inv'.del, inv'.rt⟩

theorem lt_runsToReap_iff (r : Duration) (j : Nat) :
    j < runsToReap r ↔ (j : Int) * nodeReapPeriod < r := by
  unfold runsToReap
  simp only [nodeReapPeriod, Hour, Second, Duration] at *
  omega

/-- C8: a node of `failedNodes` or `leftNodes` with `reapTime = r > 0` is
kept by the first `ceil(r / nodeReapPeriod) - 1` runs of `reapDeadNode`, each
taking `nodeReapPeriod` off its `reapTime`, and is deleted by run number
`ceil(r / nodeReapPeriod)`; for `r = nodeReapInterval` that is run 12. -/
theorem reapDeadNode_runs (db : NetworkDB) (id : Str) (n : node) (j : Nat)
    (hndF : (db.failedNodes.map Prod.fst).Nodup)
    (hndL : (db.leftNodes.map Prod.fst).Nodup)
    (hpos : 0 < n.reapTime) (hmax : n.reapTime ≤ maxDuration) :
    ((id, n) ∈ db.failedNodes →
      (j < runsToReap n.reapTime →
        ∀ n', (id, n') ∈ (reapDeadNodeRuns j db).failedNodes ↔
          n' = { n with reapTime := n.reapTime - (j : Int) * nodeReapPeriod }) ∧
      (runsToReap n.reapTime ≤ j →
        ∀ n', (id, n') ∉ (reapDeadNodeRuns j db).failedNodes)) ∧
    ((id, n) ∈ db.leftNodes →
      (j < runsToReap n.reapTime →
        ∀ n', (id, n') ∈ (reapDeadNodeRuns j db).leftNodes ↔
          n' = { n with reapTime := n.reapTime - (j : Int) * nodeReapPeriod }) ∧
      (runsToReap n.reapTime ≤ j →
        ∀ n', (id, n') ∉ (reapDeadNodeRuns j db).leftNodes)) ∧
    runsToReap nodeReapInterval = 12 := by
  have key : ∀ m : List (Str × node), (m.map Prod.fst).Nodup → (id, n) ∈ m →
      (j < runsToReap n.reapTime →
        ∀ n', (id, n') ∈ reapNodeMap^[j] m ↔
          n' = { n with reapTime := n.reapTime - (j : Int) * nodeReapPeriod }) ∧
      (runsToReap n.reapTime ≤ j → ∀ n', (id, n') ∉ reapNodeMap^[j] m) := by
    intro m hnd hmem
    have hit := reapNodeMap_iterate j m id n hnd hmem hpos hmax
    constructor
    · intro hj n'
      rw [hit n']
      exact ⟨fun h => h.2, fun h => ⟨(lt_runsToReap_iff n.reapTime j).mp hj, h⟩⟩
    · intro hj n' hin
      have := ((hit n').mp hin).1
      exact absurd ((lt_runsToReap_iff n.reapTime j).mpr this) (not_lt.mpr hj)
  obtain ⟨hF, hL⟩ := reapDeadNodeRuns_tables j db
  refine ⟨?_, ?_, by decide⟩
  · intro hmem
    rw [hF]
    exact key _ hndF hmem
  · intro hmem
    rw [hL]
    exact key _ hndL hmem

/-! ## Bulk sync snapshot -/

theorem toInt32_of_range {x : Int} (h1 : -(2 ^ 31) ≤ x) (h2 : x < 2 ^ 31) : toInt32 x = x := by
  unfold toInt32
  omega

theorem bulkSyncWalk_some (db : NetworkDB) (encodeMessage : TableEvent → Option Msg) (nid : Str) :
    ∀ (L : Index) (msgs : List Msg), (∀ leaf ∈ L, ∃ a b c, leaf.1 = mkPath a b c) →
      ∃ out, bulkSyncWalk db encodeMessage nid L msgs = some out ∧
        (∀ m ∈ msgs, m ∈ out) ∧
        ∀ leaf ∈ L, ∀ ev, bulkSyncVisit db nid leaf.1 leaf.2 = some ev →
          ∀ msg, encodeMessage ev = some msg → msg ∈ out := by
  intro L
  induction L with
  | nil =>
    intro msgs _
    exact ⟨msgs, rfl, fun _ h => h, by simp⟩
  | cons leaf rest ih =>
    intro msgs hL
    obtain ⟨a, b, c, hleaf⟩ := hL leaf (List.mem_cons_self _ _)
    obtain ⟨ev, hev, _⟩ := bulkSyncVisit_mkPath db nid a b c leaf.2
    rw [← hleaf] at hev
    have hrest : ∀ l ∈ rest, ∃ a b c, l.1 = mkPath a b c :=
      fun l hl => hL l (List.mem_cons_of_mem _ hl)
    cases henc : encodeMessage ev with
    | none =>
      obtain ⟨out, hout, hmsgs, hall⟩ := ih msgs hrest
      refine ⟨out, by simp [bulkSyncWalk, hev, henc, hout], hmsgs, ?_⟩
      intro l hl ev' hev' msg hmsg
      rcases List.mem_cons.mp hl with rfl | hl
      · rw [hev] at hev'
        cases hev'
        rw [henc] at hmsg
        cases hmsg
      · exact hall l hl ev' hev' msg hmsg
    | some m0 =>
      obtain ⟨out, hout, hmsgs, hall⟩ := ih (msgs ++ [m0]) hrest
      refine ⟨out, by simp [bulkSyncWalk, hev, henc, hout],
        fun m hm => hmsgs m (List.mem_append_left _ hm), ?_⟩
      intro l hl ev' hev' msg hmsg
      rcases List.mem_cons.mp hl with rfl | hl
      · rw [hev] at hev'
        cases hev'
        rw [henc] at hmsg
        cases hmsg
        exact hmsgs _ (by simp)
      · exact hall l hl ev' hev' msg hmsg

theorem bulkSyncLoop_some (db : NetworkDB) (encodeMessage : TableEvent → Option Msg)
    (hwf : ∀ leaf ∈ db.byNetwork, ∃ a b c, leaf.1 = mkPath a b c) :
    ∀ (networks : List Str) (msgs : List Msg),
      ∃ out, bulkSyncLoop db encodeMessage networks msgs = some out ∧
        (∀ m ∈ msgs, m ∈ out) ∧
        ∀ nid ∈ networks, ∀ leaf ∈ WalkPrefix db.byNetwork ('/' :: nid),
          ∀ ev, bulkSyncVisit db nid leaf.1 leaf.2 = some ev →
            ∀ msg, encodeMessage ev = some msg → msg ∈ out := by
  intro networks
  induction networks with
  | nil =>
    intro msgs
    exact ⟨msgs, rfl, fun _ h => h, by simp⟩
  | cons nid rest ih =>
    intro msgs
    have hL : ∀ leaf ∈ WalkPrefix db.byNetwork ('/' :: nid), ∃ a b c, leaf.1 = mkPath a b c :=
      fun leaf hleaf => hwf leaf (List.mem_of_mem_filter hleaf)
    obtain ⟨out1, h1, hm1, hall1⟩ := bulkSyncWalk_some db encodeMessage nid _ msgs hL
    obtain ⟨out, h2, hm2, hall2⟩ := ih out1
    refine ⟨out, by simp [bulkSyncLoop, h1, h2], fun m hm => hm2 m (hm1 m hm), ?_⟩
    intro x hx leaf hleaf ev hev msg hmsg
    rcases List.mem_cons.mp hx with rfl | hx
    · exact hm2 msg (hall1 leaf hleaf ev hev msg hmsg)
    · exact hall2 x hx leaf hleaf ev hev msg hmsg

theorem isPrefixOf_of_noSlash {nid : Str} (h : '/' ∉ nid) :
    ∀ (a r : Str), nid.isPrefixOf (a ++ '/' :: r) = true → nid.isPrefixOf a = true := by
  induction nid with
  | nil => intro a r _; simp
  | cons x xs ih =>
    intro a r hp
    have hx : x ≠ '/' := fun hx => h (by simp [hx])
    have hxs : '/' ∉ xs := fun hxs => h (List.mem_cons_of_mem _ hxs)
    cases a with
    | nil =>
      simp only [List.nil_append, List.isPrefixOf, Bool.and_eq_true, beq_iff_eq] at hp
      exact absurd hp.1 hx
    | cons y ys =>
      simp only [List.cons_append, List.isPrefixOf, Bool.and_eq_true, beq_iff_eq] at hp ⊢
      exact ⟨hp.1, ih hxs ys r hp.2⟩

theorem walkPrefix_store {db : NetworkDB} {store : List (Str × Str × Str × Nat)} {nid : Str}
    (hstore : db.byNetwork = store.map leafOf)
    (hnid : '/' ∉ nid)
    (hpfx : ∀ s ∈ store, nid.isPrefixOf s.1 = true → nid = s.1) :
    WalkPrefix db.byNetwork ('/' :: nid) = (store.filter (fun s => s.1 == nid)).map leafOf := by
  unfold WalkPrefix
  rw [hstore, List.filter_map]
  congr 1
  apply List.filter_congr
  intro s hs
  simp only [Function.comp, leafOf]
  by_cases hsn : s.1 = nid
  · rw [← hsn]
    simp [isPrefixOf_mkPath]
  · have : ('/' :: nid).isPrefixOf (mkPath s.1 s.2.1 s.2.2.1) = false := by
      rw [Bool.eq_false_iff]
      intro hp
      simp only [mkPath, List.isPrefixOf, beq_self_eq_true, Bool.true_and] at hp
      exact hsn (hpfx s hs (isPrefixOf_of_noSlash hnid _ _ hp)).symm
    rw [this]
    simp [hsn]

theorem bulkSyncVisit_leafOf (db : NetworkDB) {s : Str × Str × Str × Nat}
    (h1 : '/' ∉ s.1) (h2 : '/' ∉ s.2.1) (h3 : '/' ∉ s.2.2.1) :
    bulkSyncVisit db s.1 (leafOf s).1 (leafOf s).2 = some (eventOf db s) := by
  simp [bulkSyncVisit, leafOf, mkPath, split_mkPath h1 h2 h3, eventOf]

theorem bulkSyncWalk_store (db : NetworkDB) (encodeMessage : TableEvent → Option Msg) (nid : Str) :
    ∀ (S : List (Str × Str × Str × Nat)) (msgs : List Msg),
      (∀ s ∈ S, s.1 = nid ∧ '/' ∉ s.1 ∧ '/' ∉ s.2.1 ∧ '/' ∉ s.2.2.1) →
      bulkSyncWalk db encodeMessage nid (S.map leafOf) msgs
        = some (msgs ++ (S.map (eventOf db)).filterMap encodeMessage) := by
  intro S
  induction S with
  | nil => intro msgs _; simp [bulkSyncWalk]
  | cons s rest ih =>
    intro msgs hS
    obtain ⟨hn, h1, h2, h3⟩ := hS s (List.mem_cons_self _ _)
    have hv := bulkSyncVisit_leafOf db h1 h2 h3
    rw [hn] at hv
    have hrest := fun t ht => hS t (List.mem_cons_of_mem _ ht)
    simp only [List.map_cons, bulkSyncWalk, hv, List.filterMap_cons]
    cases henc : encodeMessage (eventOf db s) with
    | none => simp only [ih msgs hrest]
    | some m => simp only [ih (msgs ++ [m]) hrest, List.append_assoc, List.singleton_append]

theorem bulkSyncLoop_store (db : NetworkDB) (encodeMessage : TableEvent → Option Msg)
    (store : List (Str × Str × Str × Nat))
    (hstore : db.byNetwork = store.map leafOf)
    (hslash : ∀ s ∈ store, '/' ∉ s.1 ∧ '/' ∉ s.2.1 ∧ '/' ∉ s.2.2.1) :
    ∀ (networks : List Str) (msgs : List Msg),
      (∀ nid ∈ networks, '/' ∉ nid) →
      (∀ nid ∈ networks, ∀ s ∈ store, nid.isPrefixOf s.1 = true → nid = s.1) →
      bulkSyncLoop db encodeMessage networks msgs
        = some (msgs ++ (eventsOf db store networks).filterMap encodeMessage) := by
  intro networks
  induction networks with
  | nil => intro msgs _ _; simp [bulkSyncLoop, eventsOf]
  | cons nid rest ih =>
    intro msgs hnets hpfx
    have hw := walkPrefix_store hstore (hnets nid (List.mem_cons_self _ _))
      (hpfx nid (List.mem_cons_self _ _))
    have hS : ∀ s ∈ store.filter (fun s => s.1 == nid),
        s.1 = nid ∧ '/' ∉ s.1 ∧ '/' ∉ s.2.1 ∧ '/' ∉ s.2.2.1 := by
      intro s hs
      obtain ⟨hmem, hp⟩ := List.mem_filter.mp hs
      exact ⟨by simpa using hp, hslash s hmem⟩
    have h1 := bulkSyncWalk_store db encodeMessage nid _ msgs hS
    have h2 := ih (msgs ++ ((store.filter (fun s => s.1 == nid)).map (eventOf db)).filterMap
      encodeMessage)
      (fun x hx => hnets x (List.mem_cons_of_mem _ hx))
      (fun x hx => hpfx x (List.mem_cons_of_mem _ hx))
    rw [bulkSyncLoop, hw, h1]
    show bulkSyncLoop db encodeMessage rest _ = _
    rw [h2]
    simp [eventsOf, List.flatMap_cons, List.filterMap_append, List.append_assoc]

theorem eventsOf_mem (db : NetworkDB) (store : List (Str × Str × Str × Nat))
    (networks : List Str) (ev : TableEvent) :
    ev ∈ eventsOf db store networks ↔ ∃ s ∈ store, s.1 ∈ networks ∧ ev = eventOf db s := by
  simp only [eventsOf, List.mem_flatMap, List.mem_map, List.mem_filter, beq_iff_eq]
  constructor
  · rintro ⟨nid, hnid, s, ⟨hs, hsn⟩, rfl⟩
    exact ⟨s, hs, by rw [hsn]; exact hnid, rfl⟩
  · rintro ⟨s, hs, hnet, rfl⟩
    exact ⟨s.1, hnet, s, ⟨hs, rfl⟩, rfl⟩

theorem eventsOf_nodup (db : NetworkDB) (store : List (Str × Str × Str × Nat))
    (networks : List Str)
    (hnd : (store.map (fun s => (s.1, s.2.1, s.2.2.1))).Nodup) (hnets : networks.Nodup) :
    ((eventsOf db store networks).map
      (fun ev => (ev.NetworkID, ev.TableName, ev.Key))).Nodup := by
  unfold eventsOf
  rw [List.map_flatMap, List.nodup_flatMap]
  constructor
  · intro nid _
    rw [List.map_map]
    exact ((List.filter_sublist _).map _).nodup hnd
  · apply hnets.pairwise_of_forall_ne
    intro a _ b _ hab
    simp only [Function.onFun]
    intro t hta htb
    simp only [List.mem_map, List.mem_filter, beq_iff_eq] at hta htb
    obtain ⟨_, ⟨s, ⟨_, hsa⟩, rfl⟩, rfl⟩ := hta
    obtain ⟨_, ⟨s', ⟨_, hsb⟩, rfl⟩, h⟩ := htb
    simp only [eventOf, Prod.mk.injEq] at h
    exact hab (by rw [← hsa, ← hsb, h.1])

/-- C5 (amended): for a store whose network ids, table names and keys contain
no `"/"`, and a duplicate-free list of `"/"`-free network ids none of which
is a proper prefix of a stored network id, with the peer known and every
event encodable, the payload is the encoding of exactly one `TableEvent` per
entry stored under a listed network and of nothing else; the event of an
entry carries its network, table and key, and its value, ltime and author. -/
theorem bulkSyncNode_payload (db : NetworkDB) (encodeMessage : TableEvent → Option Msg)
    (store : List (Str × Str × Str × Nat)) (networks : List Str) (peer : Str)
    (unsolicited : Bool)
    (hpeer : db.nodes.lookup peer ≠ none)
    (hstore : db.byNetwork = store.map leafOf)
    (hkeys : (store.map (fun s => (s.1, s.2.1, s.2.2.1))).Nodup)
    (hslash : ∀ s ∈ store, '/' ∉ s.1 ∧ '/' ∉ s.2.1 ∧ '/' ∉ s.2.2.1)
    (hnets : ∀ nid ∈ networks, '/' ∉ nid)
    (hpfx : ∀ nid ∈ networks, ∀ s ∈ store, nid.isPrefixOf s.1 = true → nid = s.1)
    (hnodup : networks.Nodup)
    (henc : ∀ ev, encodeMessage ev ≠ none) :
    ∃ (bsm : BulkSyncMessage) (events : List TableEvent),
      bulkSyncNode db encodeMessage networks peer unsolicited = some (some bsm) ∧
      bsm.Payload.map some = events.map encodeMessage ∧
      (∀ ev, ev ∈ events ↔ ∃ s ∈ store, s.1 ∈ networks ∧
        ev.NetworkID = s.1 ∧ ev.TableName = s.2.1 ∧ ev.Key = s.2.2.1 ∧
        ev.Value = (db.heap s.2.2.2).value ∧ ev.LTime = (db.heap s.2.2.2).ltime ∧
        ev.NodeName = (db.heap s.2.2.2).node ∧ ev = eventOf db s) ∧
      (events.map (fun ev => (ev.NetworkID, ev.TableName, ev.Key))).Nodup := by
  have hloop := bulkSyncLoop_store db encodeMessage store hstore hslash networks [] hnets hpfx
  cases hl : db.nodes.lookup peer with
  | none => exact absurd hl hpeer
  | some mnode =>
    refine ⟨
      { LTime := db.tableClock, Unsolicited := unsolicited, NodeName := db.NodeID
        Networks := networks
        Payload := (eventsOf db store networks).filterMap encodeMessage },
      eventsOf db store networks, ?_, ?_, ?_, eventsOf_nodup db store networks hkeys hnodup⟩
    · simp [bulkSyncNode, hl, hloop]
    · simp only
      generalize eventsOf db store networks = evs
      induction evs with
      | nil => rfl
      | cons e rest ih =>
        cases he : encodeMessage e with
        | none => exact absurd he (henc e)
        | some m => simp [List.filterMap_cons, he, ih]
    · intro ev
      rw [eventsOf_mem]
      constructor
      · rintro ⟨s, hs, hnet, rfl⟩
        exact ⟨s, hs, hnet, rfl, rfl, rfl, rfl, rfl, rfl, rfl⟩
      · rintro ⟨s, hs, hnet, _, _, _, _, _, _, h⟩
        exact ⟨s, hs, hnet, h⟩

/-! ## Instances on the example states -/

theorem exampleRng_valid (n : Nat) : exampleRng.Valid n := by
  refine ⟨List.reverse_perm _, ?_⟩
  intro p hp
  simp only [exampleRng] at hp
  split at hp
  · simp only [List.mem_singleton] at hp
    subst hp
    exact ⟨by omega, by omega⟩
  · cases hp

theorem mRandomNodes_excludes_self_witness :
    (∃ r, mRandomNodes exampleDB.NodeID exampleRng 1
        ["n1".toList, "n2".toList, "n3".toList] = some r ∧ exampleDB.NodeID ∉ r) ∧
    (∃ sends, gossip exampleDB (fun _ => exampleRng) exampleBroadcasts = some sends ∧
      ∀ s ∈ sends, s.peer ≠ exampleDB.NodeID) :=
  mRandomNodes_excludes_self exampleDB exampleRng 1 ["n1".toList, "n2".toList, "n3".toList]
    (fun _ => exampleRng) exampleBroadcasts (exampleRng_valid _) (fun _ n => exampleRng_valid n)

theorem reapNetworks_thisNodeNetworks_witness :
    ("net2".toList, { leaving := true, reapTime := 10 * Second - reapPeriod })
      ∈ (reapNetworks exampleDB).thisNodeNetworks ∧
    (net1, { leaving := false, reapTime := 0 }) ∈ (reapNetworks exampleDB).thisNodeNetworks :=
  ⟨((reapNetworks_thisNodeNetworks exampleDB "net2".toList
      { leaving := true, reapTime := 10 * Second } (by decide) (by decide) (by decide)).2.1
      rfl (by decide) _).mpr rfl,
   ((reapNetworks_thisNodeNetworks exampleDB net1
      { leaving := false, reapTime := 0 } (by decide) (by decide) (by decide)).2.2.1
      rfl _).mpr rfl⟩

theorem reapDeadNode_runs_witness :
    (∀ n', ("n4".toList, n') ∈ (reapDeadNodeRuns 11 exampleDB).failedNodes ↔
      n' = peerNode "n4".toList (nodeReapInterval - 11 * nodeReapPeriod)) ∧
    (∀ n', ("n4".toList, n') ∉ (reapDeadNodeRuns 12 exampleDB).failedNodes) :=
  ⟨((reapDeadNode_runs exampleDB "n4".toList (peerNode "n4".toList nodeReapInterval) 11
      (by decide) (by decide) (by decide) (by decide)).1 (by decide)).1 (by decide),
   ((reapDeadNode_runs exampleDB "n4".toList (peerNode "n4".toList nodeReapInterval) 12
      (by decide) (by decide) (by decide) (by decide)).1 (by decide)).2 (by decide)⟩

/-- C2 (as stated, refuted): a tombstone stored under the key `a/b` with one
second left is due for removal, yet one visit, and one whole pass of
`reapTableEntries`, leave its leaves in both indexes. -/
theorem reapVisit_slash_key_not_removed :
    (slashKeyDB.heap 0).deleting = true ∧
    (slashKeyDB.heap 0).reapTime ≤ reapPeriod + 0 + Second ∧
    slashKeyDB.byNetwork = [(mkPath net1 tbl "a/b".toList, 0)] ∧
    slashKeyDB.byTable = [(mkPath tbl net1 "a/b".toList, 0)] ∧
    (reapVisit 0 slashKeyDB (mkPath net1 tbl "a/b".toList) 0).map (fun d => d.byNetwork)
      = some [(mkPath net1 tbl "a/b".toList, 0)] ∧
    (reapVisit 0 slashKeyDB (mkPath net1 tbl "a/b".toList) 0).map (fun d => d.byTable)
      = some [(mkPath tbl net1 "a/b".toList, 0)] ∧
    (reapTableEntries (fun _ => 0) slashKeyDB).map (fun d => d.byNetwork)
      = some [(mkPath net1 tbl "a/b".toList, 0)] := by
  decide

theorem reapVisit_tombstone_witness :
    (mkPath net1 tbl key0, 0) ∈ WalkPrefix exampleDB.byNetwork ('/' :: net1) ∧
    ∃ db', reapVisit (12 * Second) exampleDB (mkPath net1 tbl key0) 0 = some db' ∧
      ((exampleDB.heap 0).reapTime ≤ reapPeriod + 12 * Second + Second →
        (∀ p, (mkPath net1 tbl key0, p) ∉ db'.byNetwork) ∧
        (∀ p, (mkPath tbl net1 key0, p) ∉ db'.byTable)) ∧
      (reapPeriod + 12 * Second + Second < (exampleDB.heap 0).reapTime →
        (mkPath net1 tbl key0, 0) ∈ db'.byNetwork ∧
        (mkPath tbl net1 key0, 0) ∈ db'.byTable ∧
        db'.byNetwork = exampleDB.byNetwork ∧ db'.byTable = exampleDB.byTable ∧
        db'.heap 0 = { exampleDB.heap 0 with
          reapTime := (exampleDB.heap 0).reapTime - (reapPeriod + 12 * Second) }) :=
  reapVisit_tombstone exampleDB net1 tbl key0 0 (12 * Second) (by decide) (by decide) (by decide)
    (by decide) (by decide) (by decide) (by decide) (by decide) (by decide)

theorem reapVisit_kept_residual_witness :
    ∃ db', reapVisit Second exampleDB (mkPath net1 tbl key0) 0 = some db' ∧
      ((mkPath net1 tbl key0, 0) ∈ db'.byNetwork ↔
        reapPeriod + Second + Second < (exampleDB.heap 0).reapTime) ∧
      ((mkPath net1 tbl key0, 0) ∈ db'.byNetwork →
        Second < (db'.heap 0).reapTime ∧
        ((db'.heap 0).reapTime < (2 ^ 31 - 1) * Second →
          ∀ net, ∃ ev, bulkSyncVisit db' net (mkPath net1 tbl key0) 0 = some ev ∧
            1 ≤ ev.ResidualReapTime)) :=
  reapVisit_kept_residual exampleDB net1 tbl key0 0 Second (by decide) (by decide) (by decide)
    (by decide) (by decide) (by decide)

/-- C3 (as stated, refuted): a tombstone under the key `a/b` with half a
second left is still in both indexes after its visit, with its `reapTime` of
half a second, and `bulkSyncNode` computes `ResidualReapTime = 0` for it; and
a tombstone that is kept with a new `reapTime` one nanosecond below `2^31`
seconds gets a `float64` of `2^31` seconds and a negative `ResidualReapTime`. -/
theorem reapVisit_kept_residual_below_one :
    (∃ db' ev, reapVisit 0 halfSecondDB (mkPath net1 tbl "a/b".toList) 0 = some db' ∧
      (mkPath net1 tbl "a/b".toList, 0) ∈ db'.byNetwork ∧
      (mkPath tbl net1 "a/b".toList, 0) ∈ db'.byTable ∧
      (db'.heap 0).deleting = true ∧ (db'.heap 0).reapTime = 500000000 ∧
      bulkSyncVisit db' net1 (mkPath net1 tbl "a/b".toList) 0 = some ev ∧
      ev.ResidualReapTime = 0) ∧
    (∃ db' ev, reapVisit 0 longReapDB (mkPath net1 tbl key0) 0 = some db' ∧
      (mkPath net1 tbl key0, 0) ∈ db'.byNetwork ∧
      (db'.heap 0).reapTime = 2147483647999999999 ∧
      (db'.heap 0).reapTime < 2 ^ 31 * Second ∧
      Duration.Seconds (db'.heap 0).reapTime = 2147483648 ∧
      bulkSyncVisit db' net1 (mkPath net1 tbl key0) 0 = some ev ∧
      ev.ResidualReapTime = -2147483648) := by
  constructor
  · have hmap : (reapVisit 0 halfSecondDB (mkPath net1 tbl "a/b".toList) 0).map
        (fun d => (d.byNetwork, d.byTable, (d.heap 0).deleting, (d.heap 0).reapTime))
        = some ([(mkPath net1 tbl "a/b".toList, 0)], [(mkPath tbl net1 "a/b".toList, 0)],
            true, 500000000) := by
      decide
    cases h : reapVisit 0 halfSecondDB (mkPath net1 tbl "a/b".toList) 0 with
    | none =>
      rw [h] at hmap
      cases hmap
    | some d =>
      rw [h] at hmap
      simp only [Option.map_some', Option.some.injEq, Prod.mk.injEq] at hmap
      obtain ⟨h1, h2, h3, h4⟩ := hmap
      obtain ⟨ev, hev, _, _, _, _, _, hres⟩ :=
        bulkSyncVisit_mkPath d net1 net1 tbl "a/b".toList 0
      refine ⟨d, ev, rfl, by rw [h1]; simp, by rw [h2]; simp, h3, h4, hev, ?_⟩
      rw [hres, h4, residual_eq_tdiv (by decide) (by decide)]
      decide
  · have hmap : (reapVisit 0 longReapDB (mkPath net1 tbl key0) 0).map
        (fun d => (d.byNetwork, (d.heap 0).reapTime))
        = some ([(mkPath net1 tbl key0, 0)], 2147483647999999999) := by
      decide
    cases h : reapVisit 0 longReapDB (mkPath net1 tbl key0) 0 with
    | none =>
      rw [h] at hmap
      cases hmap
    | some d =>
      rw [h] at hmap
      simp only [Option.map_some', Option.some.injEq, Prod.mk.injEq] at hmap
      obtain ⟨h1, h4⟩ := hmap
      obtain ⟨ev, hev, _, _, _, _, _, hres⟩ := bulkSyncVisit_mkPath d net1 net1 tbl key0 0
      refine ⟨d, ev, rfl, by rw [h1]; simp, h4, by rw [h4]; decide, ?_, hev, ?_⟩
      · rw [h4]
        exact Seconds_rounds_up_31
      · rw [hres, h4]
        exact residual_example_31

/-- C4 (as stated, refuted): a tombstone with `reapTime` 6 s satisfies
`1 * reapPeriod < 6 s`, yet one pass of `reapTableEntries` with time
compensation 0 removes it from both indexes. -/
theorem reapPasses_margin_reaps_early :
    (marginDB.heap 0).deleting = true ∧
    (marginDB.heap 0).reapTime = 6 * Second ∧
    (1 : Int) * reapPeriod < (marginDB.heap 0).reapTime ∧
    marginDB.byNetwork = [(mkPath net1 tbl key0, 0)] ∧
    marginDB.byTable = [(mkPath tbl net1 key0, 0)] ∧
    (reapPasses 1 marginDB).map (fun d => d.byNetwork) = some [] ∧
    (reapPasses 1 marginDB).map (fun d => d.byTable) = some [] := by
  decide

theorem reapPasses_keeps_tombstone_witness :
    ∃ db', reapPasses 2 exampleDB = some db' ∧
      (mkPath net1 tbl key0, 0) ∈ db'.byNetwork ∧
      (mkPath tbl net1 key0, 0) ∈ db'.byTable ∧
      (db'.heap 0).deleting = true ∧
      (db'.heap 0).reapTime = (exampleDB.heap 0).reapTime - ((2 : Nat) : Int) * reapPeriod :=
  reapPasses_keeps_tombstone exampleDB net1 tbl key0 0 2 (by decide) (by decide) (by decide)
    (by decide) (by decide) (by decide) (by decide) (by decide) (by decide) (by decide)
    (by decide)

/-- C5 (as stated, refuted): with the network list `[net1, net1]` the payload
holds two messages for each of the two entries stored under `net1`. -/
theorem bulkSyncNode_duplicate_network :
    exampleDB.byNetwork = exampleStore.map leafOf ∧
    (bulkSyncNode exampleDB exampleEncode [net1, net1] "n2".toList true).map
      (fun r => r.map (fun bsm => bsm.Payload)) = some (some [[3], [4], [3], [4]]) := by
  decide

theorem bulkSyncNode_payload_witness :
    ∃ (bsm : BulkSyncMessage) (events : List TableEvent),
      bulkSyncNode exampleDB exampleEncode [net1] "n2".toList true = some (some bsm) ∧
      bsm.Payload.map some = events.map exampleEncode ∧
      (∀ ev, ev ∈ events ↔ ∃ s ∈ exampleStore, s.1 ∈ [net1] ∧
        ev.NetworkID = s.1 ∧ ev.TableName = s.2.1 ∧ ev.Key = s.2.2.1 ∧
        ev.Value = (exampleDB.heap s.2.2.2).value ∧ ev.LTime = (exampleDB.heap s.2.2.2).ltime ∧
        ev.NodeName = (exampleDB.heap s.2.2.2).node ∧ ev = eventOf exampleDB s) ∧
      (events.map (fun ev => (ev.NetworkID, ev.TableName, ev.Key))).Nodup :=
  bulkSyncNode_payload exampleDB exampleEncode exampleStore [net1] "n2".toList true
    (by decide) (by decide) (by decide) (by decide) (by decide) (by decide) (by decide)
    (fun _ h => Option.noConfusion h)

/-- C11: `SetPrimaryKey(k)` with a `k` that is byte-equal to no key of the
list changes neither the primary key nor the key list (nor anything else),
and `SetPrimaryKey(k')` leaves the key list as it is for every `k'`. -/
theorem SetPrimaryKey_frame (s : KeyState) (k k' : Key) (h : k ∉ s.Keys) :
    primaryKey (SetPrimaryKey s k) = primaryKey s ∧
    (SetPrimaryKey s k).Keys = s.Keys ∧
    SetPrimaryKey s k = s ∧
    (SetPrimaryKey s k').Keys = s.Keys := by
  have h1 : SetPrimaryKey s k = s := by
    simp [SetPrimaryKey, findKey_eq_none.mpr h]
  refine ⟨by rw [h1], by rw [h1], h1, ?_⟩
  unfold SetPrimaryKey
  cases findKey k' s.Keys <;> rfl

theorem SetPrimaryKey_frame_witness :
    primaryKey (SetPrimaryKey rotationState (key16 3)) = primaryKey rotationState ∧
    (SetPrimaryKey rotationState (key16 3)).Keys = rotationState.Keys ∧
    SetPrimaryKey rotationState (key16 3) = rotationState ∧
    (SetPrimaryKey rotationState (key16 2)).Keys = rotationState.Keys :=
  SetPrimaryKey_frame rotationState (key16 3) (key16 2) (by decide)

theorem findKey_cons_self (k : Key) (rest : List Key) : findKey k (k :: rest) = some 0 := by
  simp [findKey]

/-- C12: from a key list `[k1]` whose primary key is `k1`, and `k2` different
from `k1`, the sequence `SetKey(k2)`, `SetPrimaryKey(k2)`, `RemoveKey(k1)`
ends with the key list `[k2]` and the primary key `k2`, and after each of the
three steps the primary key is in the key list. -/
theorem key_rotation (s : KeyState) (k1 k2 : Key)
    (hkeys : s.Keys = [k1]) (hprim : primaryKey s = some k1) (hne : k1 ≠ k2) :
    (RemoveKey (SetPrimaryKey (SetKey s k2) k2) k1).Keys = [k2] ∧
    primaryKey (RemoveKey (SetPrimaryKey (SetKey s k2) k2) k1) = some k2 ∧
    (SetKey s k2).Keys = [k1, k2] ∧ primaryKey (SetKey s k2) = some k1 ∧
    (SetPrimaryKey (SetKey s k2) k2).Keys = [k1, k2] ∧
    primaryKey (SetPrimaryKey (SetKey s k2) k2) = some k2 ∧
    (∀ p, primaryKey (SetKey s k2) = some p → p ∈ (SetKey s k2).Keys) ∧
    (∀ p, primaryKey (SetPrimaryKey (SetKey s k2) k2) = some p →
      p ∈ (SetPrimaryKey (SetKey s k2) k2).Keys) ∧
    (∀ p, primaryKey (RemoveKey (SetPrimaryKey (SetKey s k2) k2) k1) = some p →
      p ∈ (RemoveKey (SetPrimaryKey (SetKey s k2) k2) k1).Keys) := by
  obtain ⟨keys, ring⟩ := s
  simp only at hkeys
  subst hkeys
  cases ring with
  | none => simp [primaryKey] at hprim
  | some r =>
    obtain ⟨rk⟩ := r
    cases rk with
    | nil => simp [primaryKey, Keyring.GetPrimaryKey] at hprim
    | cons p0 others =>
      have hp0 : p0 = k1 := by
        simpa [primaryKey, Keyring.GetPrimaryKey] using hprim
      subst hp0
      have hne' : k2 ≠ p0 := fun h => hne h.symm
      have hf1 : findKey k2 [p0] = none := by simp [findKey, hne']
      have hf2 : findKey k2 [p0, k2] = some 1 := by simp [findKey, hne']
      have hf3 : findKey p0 [p0, k2] = some 0 := findKey_cons_self _ _
      have hs1 : SetKey ⟨[p0], some ⟨p0 :: others⟩⟩ k2
          = ⟨[p0, k2], some (Keyring.AddKey ⟨p0 :: others⟩ k2)⟩ := by
        simp [SetKey, hf1]
      have hadd : ∃ ks, Keyring.AddKey ⟨p0 :: others⟩ k2 = ⟨p0 :: ks⟩ ∧ k2 ∈ ks := by
        unfold Keyring.AddKey
        by_cases hin : (p0 :: others).any (fun x => x == k2) = true
        · rw [if_pos hin]
          refine ⟨others, rfl, ?_⟩
          simpa [hne] using hin
        · rw [if_neg hin]
          refine ⟨((p0 :: others) ++ [k2]).filter (fun x => !(x == p0)), ?_, ?_⟩
          · simp [Keyring.installKeys, Keyring.GetPrimaryKey]
          · simp [hne']
      obtain ⟨ks, hks, hk2⟩ := hadd
      rw [hs1, hks]
      have hs2 : SetPrimaryKey ⟨[p0, k2], some ⟨p0 :: ks⟩⟩ k2
          = ⟨[p0, k2], some (Keyring.UseKey ⟨p0 :: ks⟩ k2)⟩ := by
        simp [SetPrimaryKey, hf2]
      have huse : Keyring.UseKey ⟨p0 :: ks⟩ k2
          = ⟨k2 :: (p0 :: ks).filter (fun x => !(x == k2))⟩ := by
        have : (p0 :: ks).any (fun x => x == k2) = true := by
          simp [hk2]
        simp [Keyring.UseKey, this, Keyring.installKeys]
      rw [hs2, huse]
      have hs3 : RemoveKey ⟨[p0, k2], some ⟨k2 :: (p0 :: ks).filter (fun x => !(x == k2))⟩⟩ p0
          = ⟨[k2], some (Keyring.RemoveKey
              ⟨k2 :: (p0 :: ks).filter (fun x => !(x == k2))⟩ p0)⟩ := by
        simp [RemoveKey, hf3]
      have hrem : (Keyring.RemoveKey ⟨k2 :: (p0 :: ks).filter (fun x => !(x == k2))⟩ p0).GetPrimaryKey
          = some k2 := by
        simp [Keyring.RemoveKey, Keyring.GetPrimaryKey, hne', hne]
      rw [hs3]
      refine ⟨rfl, ?_, rfl, ?_, rfl, ?_, ?_, ?_, ?_⟩
      · simpa [primaryKey] using hrem
      · simp [primaryKey, Keyring.GetPrimaryKey]
      · simp [primaryKey, Keyring.GetPrimaryKey]
      · intro p hp
        have : p0 = p := by simpa [primaryKey, Keyring.GetPrimaryKey] using hp
        subst this
        simp
      · intro p hp
        have : k2 = p := by simpa [primaryKey, Keyring.GetPrimaryKey] using hp
        subst this
        simp
      · intro p hp
        have hp' : (Keyring.RemoveKey
            ⟨k2 :: (p0 :: ks).filter (fun x => !(x == k2))⟩ p0).GetPrimaryKey = some p := by
          simpa [primaryKey] using hp
        rw [hrem] at hp'
        cases hp'
        simp

theorem key_rotation_witness :
    (RemoveKey (SetPrimaryKey (SetKey (clusterInitKeys keySizeRule ⟨[key16 1], none⟩).1
      (key16 2)) (key16 2)) (key16 1)).Keys = [key16 2] ∧
    primaryKey (RemoveKey (SetPrimaryKey (SetKey (clusterInitKeys keySizeRule
      ⟨[key16 1], none⟩).1 (key16 2)) (key16 2)) (key16 1)) = some (key16 2) :=
  ⟨(key_rotation (clusterInitKeys keySizeRule ⟨[key16 1], none⟩).1 (key16 1) (key16 2)
      (by decide) (by decide) (by decide)).1,
   (key_rotation (clusterInitKeys keySizeRule ⟨[key16 1], none⟩).1 (key16 1) (key16 2)
      (by decide) (by decide) (by decide)).2.1⟩

/-! ## Size of the sample -/

theorem swap_perm {α : Type} [DecidableEq α] (l : List α) {i j : Nat}
    (hi : i < l.length) (hj : j < l.length) :
    ((l.set i l[j]).set j l[i]).Perm l := by
  rw [List.perm_iff_count]
  intro x
  have hj' : j < (l.set i l[j]).length := by simpa using hj
  rw [List.count_set _ _ _ _ hj', List.count_set _ _ _ _ hi]
  have hget : (l.set i l[j])[j] = l[j] := by
    rw [List.getElem_set]
    split <;> rfl
  rw [hget]
  have hpos : ∀ k (hk : k < l.length), l[k] = x → 0 < l.count x := by
    intro k hk hx
    exact List.count_pos_iff.mpr (hx ▸ List.getElem_mem hk)
  by_cases ha : l[i] = x <;> by_cases hb : l[j] = x
  · have := hpos i hi ha
    simp only [ha, hb, beq_self_eq_true, if_true]
    omega
  · have := hpos i hi ha
    simp only [ha, hb, beq_self_eq_true, if_true, beq_iff_eq, if_false]
    omega
  · have := hpos j hj hb
    simp only [ha, hb, beq_self_eq_true, if_true, beq_iff_eq, if_false]
    omega
  · simp only [ha, hb, beq_iff_eq, if_false]
    omega

theorem applySwaps_perm {α : Type} [DecidableEq α] (sw : List (Nat × Nat)) (l : List α)
    (h : ∀ p ∈ sw, p.1 < l.length ∧ p.2 < l.length) :
    ∃ l', applySwaps sw l = some l' ∧ l'.Perm l := by
  induction sw generalizing l with
  | nil => exact ⟨l, rfl, List.Perm.refl _⟩
  | cons p rest ih =>
    obtain ⟨i, j⟩ := p
    have hp := h (i, j) (List.mem_cons_self _ _)
    have hs : swap l i j = some ((l.set i l[j]).set j l[i]) := by
      simp [swap, List.getElem?_eq_getElem hp.1, List.getElem?_eq_getElem hp.2]
    have hperm := swap_perm l hp.1 hp.2
    have hrest : ∀ p ∈ rest, p.1 < ((l.set i l[j]).set j l[i]).length ∧
        p.2 < ((l.set i l[j]).set j l[i]).length := by
      intro p hp'
      simpa using h p (List.mem_cons_of_mem _ hp')
    obtain ⟨l2, hs2, hperm2⟩ := ih _ hrest
    exact ⟨l2, by simp [applySwaps, hs, hs2], hperm2.trans hperm⟩

/-- The result of `mRandomNodes` under the generator contract: its elements
are entries of `nodes` other than `self`, it has `min(m, n)` elements, and it
is a permutation of all `n` such entries when `n < m`. -/
theorem mRandomNodes_sample (self : Str) (rng : Rng) (m : Nat) (nodes : List Str)
    (hrng : rng.Valid (nodes.filter (fun node => !(node == self))).length) :
    ∃ r, mRandomNodes self rng m nodes = some r ∧
      (∀ x ∈ r, x ∈ nodes.filter (fun node => !(node == self))) ∧
      r.length = min m (nodes.filter (fun node => !(node == self))).length ∧
      ((nodes.filter (fun node => !(node == self))).length < m →
        r.Perm (nodes.filter (fun node => !(node == self)))) := by
  obtain ⟨hperm, hsw⟩ := hrng
  unfold mRandomNodes
  by_cases hlt : (nodes.filter (fun node => !(node == self))).length < m
  · obtain ⟨l', h1, h2⟩ := applySwaps_perm _ (nodes.filter (fun node => !(node == self))) hsw
    refine ⟨l', by simp [hlt, h1], fun x hx => h2.subset hx, ?_, fun _ => h2⟩
    rw [h2.length_eq]
    omega
  · have hlen : (rng.Perm (nodes.filter (fun node => !(node == self))).length).length
        = (nodes.filter (fun node => !(node == self))).length := by
      rw [hperm.length_eq, List.length_range]
    have hm : m ≤ (rng.Perm (nodes.filter (fun node => !(node == self))).length).length := by
      omega
    have hidx : ∀ i ∈ (rng.Perm (nodes.filter (fun node => !(node == self))).length).take m,
        i < (nodes.filter (fun node => !(node == self))).length := by
      intro i hi
      have := hperm.subset (List.mem_of_mem_take hi)
      simpa using this
    obtain ⟨s, h1, h2, h3⟩ := sampleAt_some (nodes.filter (fun node => !(node == self))) _ hidx
    refine ⟨s, by simp [hlt, hm, h1], h3, ?_, fun h => absurd h hlt⟩
    rw [h2, List.length_take]
    omega

/-- C19: under the contract of the random generator, `mRandomNodes(m, nodes)`
returns exactly `min(m, n)` ids, `n` being the number of entries of `nodes`
other than the local node id, and when `n < m` the result is a permutation of
these `n` entries. -/
theorem mRandomNodes_length (self : Str) (rng : Rng) (m : Nat) (nodes : List Str)
    (hrng : rng.Valid (nodes.filter (fun node => !(node == self))).length) :
    ∃ r, mRandomNodes self rng m nodes = some r ∧
      r.length = min m (nodes.filter (fun node => !(node == self))).length ∧
      ((nodes.filter (fun node => !(node == self))).length < m →
        r.Perm (nodes.filter (fun node => !(node == self)))) := by
  obtain ⟨r, h1, _, h3, h4⟩ := mRandomNodes_sample self rng m nodes hrng
  exact ⟨r, h1, h3, h4⟩

theorem mRandomNodes_length_witness :
    ∃ r, mRandomNodes exampleDB.NodeID exampleRng 3
        ["n1".toList, "n2".toList, "n3".toList] = some r ∧
      r.length = min 3 (["n1".toList, "n2".toList, "n3".toList].filter
        (fun node => !(node == exampleDB.NodeID))).length ∧
      ((["n1".toList, "n2".toList, "n3".toList].filter
          (fun node => !(node == exampleDB.NodeID))).length < 3 →
        r.Perm (["n1".toList, "n2".toList, "n3".toList].filter
          (fun node => !(node == exampleDB.NodeID)))) :=
  mRandomNodes_length exampleDB.NodeID exampleRng 3 ["n1".toList, "n2".toList, "n3".toList]
    (exampleRng_valid _)

/-! ## Bulk sync exchange -/

theorem SameButAck.refl (db : NetworkDB) : SameButAck db db := rfl

theorem SameButAck.trans {a b c : NetworkDB} (h1 : SameButAck a b) (h2 : SameButAck b c) :
    SameButAck a c := by
  unfold SameButAck at *
  rw [h2, h1]

theorem SameButAck.leaves {a b : NetworkDB} (h : SameButAck a b) (hwf : LeavesAreEntries a) :
    LeavesAreEntries b := by
  unfold SameButAck at h
  unfold LeavesAreEntries at *
  rw [h]
  exact hwf

theorem SameButAck.nodeID {a b : NetworkDB} (h : SameButAck a b) : b.NodeID = a.NodeID := by
  unfold SameButAck at h
  rw [h]

theorem SameButAck.networkNodes {a b : NetworkDB} (h : SameButAck a b) :
    b.networkNodes = a.networkNodes := by
  unfold SameButAck at h
  rw [h]

theorem SameButAck.nodes {a b : NetworkDB} (h : SameButAck a b) : b.nodes = a.nodes := by
  unfold SameButAck at h
  rw [h]

/-- A call of `bulkSyncNode` returns, records itself with the error it
returns, changes nothing in the database but the ack table, and every send it
makes goes to the peer it was called for and carries the `unsolicited` flag
and the network list it was called with. -/
theorem bulkSyncNodeCall_spec (env : Env) (st : SyncState) (networks : List Str) (peer : Str)
    (unsolicited : Bool) (hwf : LeavesAreEntries st.db) :
    ∃ st' err newSends, bulkSyncNodeCall env st networks peer unsolicited = some (st', err) ∧
      st'.calls = st.calls ++ [⟨networks, peer, unsolicited, err⟩] ∧
      st'.sends = st.sends ++ newSends ∧
      SameButAck st.db st'.db ∧
      ∀ s ∈ newSends, s.peer = peer ∧ s.bsm.Unsolicited = unsolicited ∧
        s.bsm.Networks = networks ∧ s.bsm.NodeName = st.db.NodeID ∧
        st.db.nodes.lookup peer = some s.mnode := by
  unfold bulkSyncNodeCall
  cases hl : st.db.nodes.lookup peer with
  | none => exact ⟨_, none, [], rfl, rfl, by simp, SameButAck.refl _, by simp⟩
  | some mnode =>
    obtain ⟨out, hout, _, _⟩ := bulkSyncLoop_some st.db env.encodeMessage hwf networks []
    have hb : bulkSyncNode st.db env.encodeMessage networks peer unsolicited
        = some (some
            { LTime := st.db.tableClock, Unsolicited := unsolicited, NodeName := st.db.NodeID
              Networks := networks, Payload := out }) := by
      simp [bulkSyncNode, hl, hout]
    simp only [hb]
    cases henc : env.encodeBulkSync
        { LTime := st.db.tableClock, Unsolicited := unsolicited, NodeName := st.db.NodeID
          Networks := networks, Payload := out } with
    | none => exact ⟨_, some SyncErr.encode, [], rfl, rfl, by simp, SameButAck.refl _, by simp⟩
    | some buf =>
      simp only
      by_cases hsend : env.SendReliable st.sends.length mnode buf = true
      · rw [if_pos hsend]
        refine ⟨_, none, _, rfl, rfl, rfl, rfl, ?_⟩
        intro s hs
        simp only [List.mem_singleton] at hs
        subst hs
        exact ⟨rfl, rfl, rfl, rfl, rfl⟩
      · rw [if_neg hsend]
        refine ⟨_, some SyncErr.send, _, rfl, rfl, rfl, rfl, ?_⟩
        intro s hs
        simp only [List.mem_singleton] at hs
        subst hs
        exact ⟨rfl, rfl, rfl, rfl, rfl⟩

/-- The loop of `bulkSync` returns, changes nothing in the database but the
ack table, calls `bulkSyncNode` only for listed nodes other than the local
one, always with `unsolicited = true` and the common networks of the node,
and every send goes to a node it called `bulkSyncNode` for. -/
theorem bulkSyncNodes_spec (env : Env) (all : Bool) :
    ∀ (nodes : List Str) (st : SyncState) (vars : SyncVars), LeavesAreEntries st.db →
      ∃ st' vars' newCalls newSends,
        bulkSyncNodes env all nodes st vars = some (st', vars') ∧
        st'.calls = st.calls ++ newCalls ∧ st'.sends = st.sends ++ newSends ∧
        SameButAck st.db st'.db ∧
        (∀ c ∈ newCalls, c.node ∈ nodes ∧ c.node ≠ st.db.NodeID ∧ c.unsolicited = true ∧
          c.networks = env.findCommonNetworks c.node) ∧
        (∀ s ∈ newSends, s.peer ∈ nodes ∧ s.peer ≠ st.db.NodeID ∧ s.bsm.Unsolicited = true ∧
          s.bsm.NodeName = st.db.NodeID) ∧
        (all = true → newCalls.map (fun c => c.node)
          = nodes.filter (fun n => !(n == st.db.NodeID))) := by
  intro nodes
  induction nodes with
  | nil =>
    intro st vars _
    exact ⟨st, vars, [], [], rfl, by simp, by simp, SameButAck.refl _, by simp, by simp,
      fun _ => rfl⟩
  | cons peer rest ih =>
    intro st vars hwf
    by_cases hself : peer = st.db.NodeID
    · obtain ⟨st', vars', nc, ns, h, hc, hs, hsame, hcc, hss, hall⟩ := ih st vars hwf
      refine ⟨st', vars', nc, ns, ?_, hc, hs, hsame, ?_, ?_, ?_⟩
      · simp [bulkSyncNodes, hself, h]
      · intro c hcm
        obtain ⟨h1, h2⟩ := hcc c hcm
        exact ⟨List.mem_cons_of_mem _ h1, h2⟩
      · intro s hsm
        obtain ⟨h1, h2⟩ := hss s hsm
        exact ⟨List.mem_cons_of_mem _ h1, h2⟩
      · intro ha
        rw [hall ha]
        simp [hself]
    · obtain ⟨st1, err, ns1, h1, hc1, hs1, hsame1, hss1⟩ :=
        bulkSyncNodeCall_spec env st (env.findCommonNetworks peer) peer true hwf
      have hwf1 := hsame1.leaves hwf
      have hid1 := hsame1.nodeID
      have hne : (peer == st.db.NodeID) = false := by simpa using hself
      have hhead : ∀ s ∈ ns1, s.peer ∈ peer :: rest ∧ s.peer ≠ st.db.NodeID ∧
          s.bsm.Unsolicited = true ∧ s.bsm.NodeName = st.db.NodeID := by
        intro s hsm
        obtain ⟨hp, hu, _, hn, _⟩ := hss1 s hsm
        exact ⟨by rw [hp]; exact List.mem_cons_self _ _, by rw [hp]; exact hself, hu, hn⟩
      have hrec : ∀ vars1, ∃ st' vars' newCalls newSends,
          bulkSyncNodes env all rest st1 vars1 = some (st', vars') ∧
          st'.calls = st.calls ++ newCalls ∧ st'.sends = st.sends ++ newSends ∧
          SameButAck st.db st'.db ∧
          (∀ c ∈ newCalls, c.node ∈ peer :: rest ∧ c.node ≠ st.db.NodeID ∧
            c.unsolicited = true ∧ c.networks = env.findCommonNetworks c.node) ∧
          (∀ s ∈ newSends, s.peer ∈ peer :: rest ∧ s.peer ≠ st.db.NodeID ∧
            s.bsm.Unsolicited = true ∧ s.bsm.NodeName = st.db.NodeID) ∧
          (all = true → newCalls.map (fun c => c.node)
            = (peer :: rest).filter (fun n => !(n == st.db.NodeID))) := by
        intro vars1
        obtain ⟨st', vars', nc, ns, h, hc, hs, hsame, hcc, hss, hall⟩ := ih st1 vars1 hwf1
        refine ⟨st', vars', ⟨env.findCommonNetworks peer, peer, true, err⟩ :: nc, ns1 ++ ns,
          h, ?_, ?_, hsame1.trans hsame, ?_, ?_, ?_⟩
        · rw [hc, hc1]
          simp
        · rw [hs, hs1]
          simp
        · intro c hcm
          rcases List.mem_cons.mp hcm with rfl | hcm
          · exact ⟨List.mem_cons_self _ _, hself, rfl, rfl⟩
          · obtain ⟨h1, h2, h3⟩ := hcc c hcm
            exact ⟨List.mem_cons_of_mem _ h1, by rw [← hid1]; exact h2, h3⟩
        · intro s hsm
          rcases List.mem_append.mp hsm with hsm | hsm
          · exact hhead s hsm
          · obtain ⟨h1, h2, h3, h4⟩ := hss s hsm
            exact ⟨List.mem_cons_of_mem _ h1, by rw [← hid1]; exact h2, h3,
              by rw [← hid1]; exact h4⟩
        · intro ha
          rw [List.map_cons, hall ha, hid1]
          simp [hne]
      cases err with
      | some e =>
        obtain ⟨st', vars', nc, ns, h, rest'⟩ := hrec
          { err := some (SyncErr.peer peer e), networks := env.findCommonNetworks peer
            success := vars.success }
        exact ⟨st', vars', nc, ns, by simp [bulkSyncNodes, hne, h1, h], rest'⟩
      | none =>
        cases all with
        | true =>
          obtain ⟨st', vars', nc, ns, h, rest'⟩ := hrec
            { err := none, networks := env.findCommonNetworks peer, success := true }
          exact ⟨st', vars', nc, ns, by simp [bulkSyncNodes, hne, h1, h], rest'⟩
        | false =>
          refine ⟨st1, { err := none, networks := env.findCommonNetworks peer, success := true },
            [⟨env.findCommonNetworks peer, peer, true, none⟩], ns1,
            by simp [bulkSyncNodes, hne, h1], hc1, hs1, hsame1, ?_, hhead, ?_⟩
          · intro c hcm
            simp only [List.mem_singleton] at hcm
            subst hcm
            exact ⟨List.mem_cons_self _ _, hself, rfl, rfl⟩
          · intro ha
            cases ha

/-- C13: `bulkSync` returns, and in both modes it calls `bulkSyncNode` only
for peers other than the local node id and sends bulk sync messages, whose
sender is the local node, only to such peers; `bulkSync([self], true)` sends
nothing, calls nothing and returns `(nil, nil)`. -/
theorem bulkSync_never_self (env : Env) (rng : Rng) (st : SyncState) (nodes : List Str)
    (all : Bool) (hwf : LeavesAreEntries st.db)
    (hrng : rng.Valid (nodes.filter (fun node => !(node == st.db.NodeID))).length) :
    (∃ st' nets err newCalls newSends,
      bulkSync env rng st nodes all = some (st', nets, err) ∧
      st'.calls = st.calls ++ newCalls ∧ st'.sends = st.sends ++ newSends ∧
      (∀ c ∈ newCalls, c.node ≠ st.db.NodeID) ∧
      (∀ s ∈ newSends, s.peer ≠ st.db.NodeID ∧ s.bsm.NodeName = st.db.NodeID)) ∧
    bulkSync env rng st [st.db.NodeID] true = some (st, [], none) := by
  constructor
  · have key : ∀ picked : List Str,
        (if !all then mRandomNodes st.db.NodeID rng 2 nodes else some nodes) = some picked →
        ∃ st' nets err newCalls newSends,
          bulkSync env rng st nodes all = some (st', nets, err) ∧
          st'.calls = st.calls ++ newCalls ∧ st'.sends = st.sends ++ newSends ∧
          (∀ c ∈ newCalls, c.node ≠ st.db.NodeID) ∧
          (∀ s ∈ newSends, s.peer ≠ st.db.NodeID ∧ s.bsm.NodeName = st.db.NodeID) := by
      intro picked hp
      unfold bulkSync
      rw [hp]
      by_cases h0 : picked.length = 0
      · exact ⟨st, [], none, [], [], by simp [h0], by simp, by simp, by simp, by simp⟩
      · obtain ⟨st', vars', nc, ns, h, hc, hs, _, hcc, hss, _⟩ :=
          bulkSyncNodes_spec env all picked st
            { err := none, networks := [], success := false } hwf
        simp only [h0, if_false, h]
        by_cases hsucc : vars'.success = true
        · exact ⟨st', vars'.networks, none, nc, ns, by simp [hsucc], hc, hs,
            fun c hcm => (hcc c hcm).2.1,
            fun s hsm => ⟨(hss s hsm).2.1, (hss s hsm).2.2.2⟩⟩
        · exact ⟨st', [], vars'.err, nc, ns, by simp [hsucc], hc, hs,
            fun c hcm => (hcc c hcm).2.1,
            fun s hsm => ⟨(hss s hsm).2.1, (hss s hsm).2.2.2⟩⟩
    cases all with
    | true => exact key nodes rfl
    | false =>
      obtain ⟨r, hr, _⟩ := mRandomNodes_some st.db.NodeID rng 2 nodes hrng
      exact key r (by simpa using hr)
  · simp [bulkSync, bulkSyncNodes]

theorem bulkSync_never_self_witness :
    (∃ st' nets err newCalls newSends,
      bulkSync exampleEnv exampleRng exampleState ["n1".toList, "n2".toList, "n3".toList] true
        = some (st', nets, err) ∧
      st'.calls = exampleState.calls ++ newCalls ∧ st'.sends = exampleState.sends ++ newSends ∧
      (∀ c ∈ newCalls, c.node ≠ exampleState.db.NodeID) ∧
      (∀ s ∈ newSends, s.peer ≠ exampleState.db.NodeID ∧
        s.bsm.NodeName = exampleState.db.NodeID)) ∧
    bulkSync exampleEnv exampleRng exampleState [exampleState.db.NodeID] true
      = some (exampleState, [], none) :=
  bulkSync_never_self exampleEnv exampleRng exampleState
    ["n1".toList, "n2".toList, "n3".toList] true
    (by
      intro leaf h
      simp only [exampleState, exampleDB, List.mem_cons, List.mem_singleton, List.not_mem_nil,
        or_false] at h
      rcases h with rfl | rfl
      · exact ⟨net1, tbl, key0, rfl⟩
      · exact ⟨net1, tbl, "k1".toList, rfl⟩)
    (exampleRng_valid _)

theorem bulkSync_of_nodes (env : Env) (rng : Rng) (st : SyncState) (nodes picked : List Str)
    (st' : SyncState) (vars' : SyncVars)
    (hp : mRandomNodes st.db.NodeID rng 2 nodes = some picked) (h0 : picked ≠ [])
    (h : bulkSyncNodes env false picked st { err := none, networks := [], success := false }
      = some (st', vars')) :
    ∃ nets err, bulkSync env rng st nodes false = some (st', nets, err) := by
  have hlen : picked.length ≠ 0 := fun hl => h0 (List.length_eq_zero.mp hl)
  unfold bulkSync
  by_cases hsucc : vars'.success = true
  · exact ⟨vars'.networks, none, by simp [hp, hlen, h, hsucc]⟩
  · exact ⟨[], vars'.err, by simp [hp, hlen, h, hsucc]⟩

theorem bulkSyncNodes_one (env : Env) (st : SyncState) (vars : SyncVars) (p1 : Str)
    (hwf : LeavesAreEntries st.db) (h1 : p1 ≠ st.db.NodeID) :
    ∃ st' vars' c1, bulkSyncNodes env false [p1] st vars = some (st', vars') ∧
      st'.calls = st.calls ++ [c1] ∧ c1.node = p1 ∧ SameButAck st.db st'.db := by
  obtain ⟨st1, err, ns1, hcall, hc1, _, hsame, _⟩ :=
    bulkSyncNodeCall_spec env st (env.findCommonNetworks p1) p1 true hwf
  have hne : (p1 == st.db.NodeID) = false := by simpa using h1
  cases err with
  | none =>
    exact ⟨st1, { err := none, networks := env.findCommonNetworks p1, success := true },
      _, by simp [bulkSyncNodes, hne, hcall], hc1, rfl, hsame⟩
  | some e =>
    exact ⟨st1, { err := some (SyncErr.peer p1 e), networks := env.findCommonNetworks p1
                  success := vars.success },
      _, by simp [bulkSyncNodes, hne, hcall], hc1, rfl, hsame⟩

theorem bulkSyncNodes_two (env : Env) (st : SyncState) (vars : SyncVars) (p1 p2 : Str)
    (hwf : LeavesAreEntries st.db) (h1 : p1 ≠ st.db.NodeID) (h2 : p2 ≠ st.db.NodeID) :
    ∃ st' vars' c1, bulkSyncNodes env false [p1, p2] st vars = some (st', vars') ∧
      c1.node = p1 ∧
      ((c1.err = none ∧ st'.calls = st.calls ++ [c1]) ∨
        (c1.err ≠ none ∧ ∃ c2, c2.node = p2 ∧ st'.calls = st.calls ++ [c1, c2])) := by
  obtain ⟨st1, err, ns1, hcall, hc1, _, hsame, _⟩ :=
    bulkSyncNodeCall_spec env st (env.findCommonNetworks p1) p1 true hwf
  have hne : (p1 == st.db.NodeID) = false := by simpa using h1
  cases err with
  | none =>
    exact ⟨st1, { err := none, networks := env.findCommonNetworks p1, success := true },
      ⟨env.findCommonNetworks p1, p1, true, none⟩,
      by simp [bulkSyncNodes, hne, hcall], rfl, Or.inl ⟨rfl, hc1⟩⟩
  | some e =>
    have h2' : p2 ≠ st1.db.NodeID := by rw [hsame.nodeID]; exact h2
    obtain ⟨st2, vars2, c2, hloop, hc2, hn2, _⟩ := bulkSyncNodes_one env st1
      { err := some (SyncErr.peer p1 e), networks := env.findCommonNetworks p1
        success := vars.success } p2 (hsame.leaves hwf) h2'
    refine ⟨st2, vars2, ⟨env.findCommonNetworks p1, p1, true, some e⟩, ?_, rfl,
      Or.inr ⟨by simp, c2, hn2, ?_⟩⟩
    · rw [bulkSyncNodes]
      simp only [hne, hcall]
      exact hloop
    · rw [hc2, hc1]
      simp

/-- C14: in periodic mode `bulkSync` picks at most two peers with
`mRandomNodes(2, nodes)`; it calls `bulkSyncNode` for the first picked peer,
and for the second picked peer exactly when the call for the first one
returned an error. -/
theorem bulkSync_periodic (env : Env) (rng : Rng) (st : SyncState) (nodes : List Str)
    (hwf : LeavesAreEntries st.db)
    (hrng : rng.Valid (nodes.filter (fun node => !(node == st.db.NodeID))).length) :
    ∃ picked st' nets err newCalls,
      mRandomNodes st.db.NodeID rng 2 nodes = some picked ∧ picked.length ≤ 2 ∧
      bulkSync env rng st nodes false = some (st', nets, err) ∧
      st'.calls = st.calls ++ newCalls ∧
      (picked = [] → newCalls = []) ∧
      (∀ p1, picked = [p1] → ∃ c1, newCalls = [c1] ∧ c1.node = p1) ∧
      (∀ p1 p2, picked = [p1, p2] → ∃ c1, c1.node = p1 ∧
        ((c1.err = none ∧ newCalls = [c1]) ∨
          (c1.err ≠ none ∧ ∃ c2, c2.node = p2 ∧ newCalls = [c1, c2]))) := by
  obtain ⟨picked, hp, hmem, hlen, _⟩ := mRandomNodes_sample st.db.NodeID rng 2 nodes hrng
  have hlen2 : picked.length ≤ 2 := by rw [hlen]; omega
  have hnotself : ∀ x ∈ picked, x ≠ st.db.NodeID := by
    intro x hx
    have := hmem x hx
    simp only [List.mem_filter] at this
    simpa using this.2
  match picked, hp, hlen2, hnotself with
  | [], hp, _, _ =>
    refine ⟨[], st, [], none, [], hp, by simp, by simp [bulkSync, hp], by simp,
      fun _ => rfl, ?_, ?_⟩
    · intro p1 h
      cases h
    · intro p1 p2 h
      cases h
  | [q1], hp, _, hns =>
    obtain ⟨st', vars', c1, hloop, hc, hn, _⟩ := bulkSyncNodes_one env st
      { err := none, networks := [], success := false } q1 hwf (hns q1 (by simp))
    obtain ⟨nets, err, hb⟩ := bulkSync_of_nodes env rng st nodes [q1] st' vars' hp (by simp) hloop
    refine ⟨[q1], st', nets, err, [c1], hp, by simp, hb, hc, ?_, ?_, ?_⟩
    · intro h
      cases h
    · intro p1 h
      cases h
      exact ⟨c1, rfl, hn⟩
    · intro p1 p2 h
      cases h
  | [q1, q2], hp, _, hns =>
    obtain ⟨st', vars', c1, hloop, hn, hcases⟩ := bulkSyncNodes_two env st
      { err := none, networks := [], success := false } q1 q2 hwf (hns q1 (by simp))
      (hns q2 (by simp))
    obtain ⟨nets, err, hb⟩ :=
      bulkSync_of_nodes env rng st nodes [q1, q2] st' vars' hp (by simp) hloop
    rcases hcases with ⟨he, hc⟩ | ⟨he, c2, hn2, hc⟩
    · refine ⟨[q1, q2], st', nets, err, [c1], hp, by simp, hb, hc, ?_, ?_, ?_⟩
      · intro h
        cases h
      · intro p1 h
        cases h
      · intro p1 p2 h
        cases h
        exact ⟨c1, hn, Or.inl ⟨he, rfl⟩⟩
    · refine ⟨[q1, q2], st', nets, err, [c1, c2], hp, by simp, hb, hc, ?_, ?_, ?_⟩
      · intro h
        cases h
      · intro p1 h
        cases h
      · intro p1 p2 h
        cases h
        exact ⟨c1, hn, Or.inr ⟨he, c2, hn2, rfl⟩⟩
  | _ :: _ :: _ :: _, _, hl, _ =>
    simp at hl

theorem bulkSync_periodic_witness :
    ∃ picked st' nets err newCalls,
      mRandomNodes exampleState.db.NodeID exampleRng 2
        ["n1".toList, "n2".toList, "n3".toList] = some picked ∧ picked.length ≤ 2 ∧
      bulkSync exampleEnv exampleRng exampleState ["n1".toList, "n2".toList, "n3".toList] false
        = some (st', nets, err) ∧
      st'.calls = exampleState.calls ++ newCalls ∧
      (picked = [] → newCalls = []) ∧
      (∀ p1, picked = [p1] → ∃ c1, newCalls = [c1] ∧ c1.node = p1) ∧
      (∀ p1 p2, picked = [p1, p2] → ∃ c1, c1.node = p1 ∧
        ((c1.err = none ∧ newCalls = [c1]) ∨
          (c1.err ≠ none ∧ ∃ c2, c2.node = p2 ∧ newCalls = [c1, c2]))) :=
  bulkSync_periodic exampleEnv exampleRng exampleState ["n1".toList, "n2".toList, "n3".toList]
    (by
      intro leaf h
      simp only [exampleState, exampleDB, List.mem_cons, List.mem_singleton, List.not_mem_nil,
        or_false] at h
      rcases h with rfl | rfl
      · exact ⟨net1, tbl, key0, rfl⟩
      · exact ⟨net1, tbl, "k1".toList, rfl⟩)
    (exampleRng_valid _)

/-! ## Ack table -/

theorem le_foldr_max (l : List Nat) : ∀ x ∈ l, x ≤ l.foldr max 0 := by
  induction l with
  | nil => simp
  | cons a rest ih =>
    intro x hx
    simp only [List.foldr_cons]
    rcases List.mem_cons.mp hx with rfl | hx
    · exact le_max_left _ _
    · exact le_trans (ih x hx) (le_max_right _ _)

theorem freshChan_fresh (tbl : List (Str × Nat)) : ∀ kv ∈ tbl, kv.2 ≠ freshChan tbl := by
  intro kv hkv
  have := le_foldr_max (tbl.map Prod.snd) kv.2 (List.mem_map_of_mem Prod.snd hkv)
  unfold freshChan
  omega

theorem lookup_filter_ne (tbl : List (Str × Nat)) {peer q : Str} (h : q ≠ peer) :
    (tbl.filter (fun kv => !(kv.1 == peer))).lookup q = tbl.lookup q := by
  induction tbl with
  | nil => rfl
  | cons kv rest ih =>
    obtain ⟨k, v⟩ := kv
    by_cases hk : k = peer
    · subst hk
      have hq : (q == k) = false := by simpa using h
      simp [List.filter_cons, List.lookup_cons, hq, ih]
    · have hk' : (k == peer) = false := by simpa using hk
      simp only [List.filter_cons, hk', Bool.not_false, if_true, List.lookup_cons]
      rw [ih]

theorem lookup_ackInsert (tbl : List (Str × Nat)) (peer : Str) (ch : Nat) :
    (ackInsert tbl peer ch).lookup peer = some ch ∧
    ∀ q, q ≠ peer → (ackInsert tbl peer ch).lookup q = tbl.lookup q := by
  constructor
  · simp [ackInsert, List.lookup_cons]
  · intro q hq
    have hq' : (q == peer) = false := by simpa using hq
    simp only [ackInsert, List.lookup_cons, hq']
    exact lookup_filter_ne tbl hq

/-- C16 (amended): a call of `bulkSyncNode` to a known peer whose message
encodes and whose reliable send succeeds returns `nil` and registers an entry
for the peer whether `unsolicited` is true or false: the new channel, which
was not in the table before, is put under the peer with the entry of every
other peer as it was. A call with `unsolicited = false` returns with the ack
table in that state, so not as it was before the call; a call with
`unsolicited = true` hands that table to the wait for the ack and returns
with the table as the wait leaves it. -/
theorem bulkSyncNodeCall_registers (env : Env) (st : SyncState) (networks : List Str)
    (peer : Str) (unsolicited : Bool) (mnode : node)
    (hwf : LeavesAreEntries st.db)
    (hpeer : st.db.nodes.lookup peer = some mnode)
    (henc : ∀ bsm, env.encodeBulkSync bsm ≠ none)
    (hsend : ∀ buf, env.SendReliable st.sends.length mnode buf = true) :
    ∃ st' registered, bulkSyncNodeCall env st networks peer unsolicited = some (st', none) ∧
      registered = ackInsert st.db.bulkSyncAckTbl peer (freshChan st.db.bulkSyncAckTbl) ∧
      registered.lookup peer = some (freshChan st.db.bulkSyncAckTbl) ∧
      (∀ kv ∈ st.db.bulkSyncAckTbl, kv.2 ≠ freshChan st.db.bulkSyncAckTbl) ∧
      (∀ q, q ≠ peer → registered.lookup q = st.db.bulkSyncAckTbl.lookup q) ∧
      (unsolicited = false → st'.db.bulkSyncAckTbl = registered ∧
        st'.db.bulkSyncAckTbl ≠ st.db.bulkSyncAckTbl) ∧
      (unsolicited = true →
        st'.db.bulkSyncAckTbl = env.awaitAck st.sends.length peer registered) ∧
      (∃ s, st'.sends = st.sends ++ [s] ∧ s.peer = peer ∧ s.ok = true ∧
        s.bsm.Unsolicited = unsolicited) ∧
      SameButAck st.db st'.db := by
  obtain ⟨out, hout, _, _⟩ := bulkSyncLoop_some st.db env.encodeMessage hwf networks []
  have hb : bulkSyncNode st.db env.encodeMessage networks peer unsolicited
      = some (some
          { LTime := st.db.tableClock, Unsolicited := unsolicited, NodeName := st.db.NodeID
            Networks := networks, Payload := out }) := by
    simp [bulkSyncNode, hpeer, hout]
  obtain ⟨hl1, hl2⟩ := lookup_ackInsert st.db.bulkSyncAckTbl peer (freshChan st.db.bulkSyncAckTbl)
  have hfresh := freshChan_fresh st.db.bulkSyncAckTbl
  have hne : ackInsert st.db.bulkSyncAckTbl peer (freshChan st.db.bulkSyncAckTbl)
      ≠ st.db.bulkSyncAckTbl := by
    intro h
    have hmem : (peer, freshChan st.db.bulkSyncAckTbl)
        ∈ ackInsert st.db.bulkSyncAckTbl peer (freshChan st.db.bulkSyncAckTbl) := by
      unfold ackInsert
      exact List.mem_cons_self _ _
    rw [h] at hmem
    exact hfresh _ hmem rfl
  cases hbuf : env.encodeBulkSync
      { LTime := st.db.tableClock, Unsolicited := unsolicited, NodeName := st.db.NodeID
        Networks := networks, Payload := out } with
  | none => exact absurd hbuf (henc _)
  | some buf =>
    have hcall : bulkSyncNodeCall env st networks peer unsolicited
        = some
          ({ db :=
               { st.db with
                 bulkSyncAckTbl :=
                   if unsolicited then
                     env.awaitAck st.sends.length peer
                       (ackInsert st.db.bulkSyncAckTbl peer (freshChan st.db.bulkSyncAckTbl))
                   else ackInsert st.db.bulkSyncAckTbl peer (freshChan st.db.bulkSyncAckTbl) }
             sends := st.sends ++
               [⟨peer, mnode,
                 { LTime := st.db.tableClock, Unsolicited := unsolicited
                   NodeName := st.db.NodeID, Networks := networks, Payload := out }, buf, true⟩]
             calls := st.calls ++ [⟨networks, peer, unsolicited, none⟩] }, none) := by
      unfold bulkSyncNodeCall
      simp only [hpeer, hb, hbuf, hsend buf, if_true]
    refine ⟨_, _, hcall, rfl, hl1, hfresh, hl2, ?_, ?_, ⟨_, rfl, rfl, rfl, rfl⟩, rfl⟩
    · intro hu
      subst hu
      exact ⟨rfl, hne⟩
    · intro hu
      subst hu
      rfl

theorem bulkSyncNodeCall_registers_witness :
    ∃ st' registered,
      bulkSyncNodeCall exampleEnv exampleState [net1] "n2".toList false = some (st', none) ∧
      registered
        = ackInsert exampleState.db.bulkSyncAckTbl "n2".toList
            (freshChan exampleState.db.bulkSyncAckTbl) ∧
      registered.lookup "n2".toList = some (freshChan exampleState.db.bulkSyncAckTbl) ∧
      (∀ kv ∈ exampleState.db.bulkSyncAckTbl,
        kv.2 ≠ freshChan exampleState.db.bulkSyncAckTbl) ∧
      (∀ q, q ≠ "n2".toList →
        registered.lookup q = exampleState.db.bulkSyncAckTbl.lookup q) ∧
      (false = false → st'.db.bulkSyncAckTbl = registered ∧
        st'.db.bulkSyncAckTbl ≠ exampleState.db.bulkSyncAckTbl) ∧
      (false = true →
        st'.db.bulkSyncAckTbl
          = exampleEnv.awaitAck exampleState.sends.length "n2".toList registered) ∧
      (∃ s, st'.sends = exampleState.sends ++ [s] ∧ s.peer = "n2".toList ∧ s.ok = true ∧
        s.bsm.Unsolicited = false) ∧
      SameButAck exampleState.db st'.db :=
  bulkSyncNodeCall_registers exampleEnv exampleState [net1] "n2".toList false
    (peerNode "n2".toList 0)
    (by
      intro leaf h
      simp only [exampleState, exampleDB, List.mem_cons, List.mem_singleton, List.not_mem_nil,
        or_false] at h
      rcases h with rfl | rfl
      · exact ⟨net1, tbl, key0, rfl⟩
      · exact ⟨net1, tbl, "k1".toList, rfl⟩)
    (by decide) (fun _ h => Option.noConfusion h) (fun _ => rfl)

/-- C16 (as stated, refuted): a call with `unsolicited = false` whose
reliable send succeeds returns `nil` and turns the empty ack table into one
with an entry for the peer. -/
theorem bulkSyncNodeCall_solicited_registers :
    exampleState.db.bulkSyncAckTbl = [] ∧
    (bulkSyncNodeCall exampleEnv exampleState [net1] "n2".toList false).map
      (fun r => (r.1.db.bulkSyncAckTbl, r.2, r.1.sends.map (fun s => (s.peer, s.ok))))
      = some ([("n2".toList, 1)], none, [("n2".toList, true)]) := by
  decide

/-- A call with `unsolicited = true` whose ack arrives during the wait: when
the call returns, the entry registered for the peer is no longer in the ack
table. -/
theorem bulkSyncNodeCall_unsolicited_acked :
    (bulkSyncNodeCall exampleEnv exampleState [net1] "n2".toList true).map
      (fun r => (r.1.db.bulkSyncAckTbl, r.2, r.1.sends.map (fun s => (s.peer, s.ok))))
      = some ([], none, [("n2".toList, true)]) := by
  decide

/-! ## Reconnect -/

/-- A call of `bulkSyncNode` to a known peer whose message encodes makes
exactly one reliable send, to that peer, of a message that carries the
`unsolicited` flag and the network list of the call; the call returns `nil`
exactly when the send succeeds. -/
theorem bulkSyncNodeCall_known (env : Env) (st : SyncState) (networks : List Str) (peer : Str)
    (unsolicited : Bool) (mnode : node) (hwf : LeavesAreEntries st.db)
    (hpeer : st.db.nodes.lookup peer = some mnode)
    (henc : ∀ bsm, env.encodeBulkSync bsm ≠ none) :
    ∃ st' err s, bulkSyncNodeCall env st networks peer unsolicited = some (st', err) ∧
      st'.sends = st.sends ++ [s] ∧ s.peer = peer ∧ s.mnode = mnode ∧
      s.bsm.Unsolicited = unsolicited ∧ s.bsm.Networks = networks ∧
      s.bsm.NodeName = st.db.NodeID ∧ (s.ok = true ↔ err = none) := by
  obtain ⟨out, hout, _, _⟩ := bulkSyncLoop_some st.db env.encodeMessage hwf networks []
  have hb : bulkSyncNode st.db env.encodeMessage networks peer unsolicited
      = some (some
          { LTime := st.db.tableClock, Unsolicited := unsolicited, NodeName := st.db.NodeID
            Networks := networks, Payload := out }) := by
    simp [bulkSyncNode, hpeer, hout]
  unfold bulkSyncNodeCall
  simp only [hpeer, hb]
  cases hbuf : env.encodeBulkSync
      { LTime := st.db.tableClock, Unsolicited := unsolicited, NodeName := st.db.NodeID
        Networks := networks, Payload := out } with
  | none => exact absurd hbuf (henc _)
  | some buf =>
    simp only
    by_cases hsend : env.SendReliable st.sends.length mnode buf = true
    · rw [if_pos hsend]
      exact ⟨_, none, _, rfl, rfl, rfl, rfl, rfl, rfl, rfl, by simp⟩
    · rw [if_neg hsend]
      exact ⟨_, some SyncErr.send, _, rfl, rfl, rfl, rfl, rfl, rfl, rfl, by simp⟩

/-- C18 (amended): when `reconnectNode` rejoins a failed node other than the
local node (join and node-join event both succeed), it makes exactly one call
of `bulkSyncNode`, for that node, with `unsolicited = true`, and every bulk
sync message it sends goes to that node with `Unsolicited = true`. When the
node is in the node table after the join and the message encodes, exactly one
bulk sync message is sent: to that node, with `Unsolicited = true` and the
networks common with that node. -/
theorem reconnectNode_bulk_sync (env : Env) (memberlistJoin : NetworkDB → node → Option NetworkDB)
    (sendNodeEvent : NetworkDB → Option NetworkDB) (offset : Nat) (rng : Rng)
    (st : SyncState) (n : node) (db1 db2 : NetworkDB)
    (hpick : (st.db.failedNodes.map Prod.snd)[offset]? = some n)
    (hjoin : memberlistJoin st.db n = some db1)
    (hevent : sendNodeEvent db1 = some db2)
    (hwf : LeavesAreEntries db2)
    (hother : n.Name ≠ db2.NodeID) :
    ∃ st' c newSends,
      reconnectNode env memberlistJoin sendNodeEvent offset rng st = some st' ∧
      st'.calls = st.calls ++ [c] ∧ c.node = n.Name ∧ c.unsolicited = true ∧
      st'.sends = st.sends ++ newSends ∧
      (∀ s ∈ newSends, s.peer = n.Name ∧ s.bsm.Unsolicited = true) ∧
      (∀ mnode, db2.nodes.lookup n.Name = some mnode →
        (∀ bsm, env.encodeBulkSync bsm ≠ none) →
        ∃ s, newSends = [s] ∧ s.peer = n.Name ∧ s.mnode = mnode ∧
          s.bsm.Unsolicited = true ∧ s.bsm.Networks = env.findCommonNetworks n.Name ∧
          s.bsm.NodeName = db2.NodeID) := by
  have hlen : st.db.failedNodes.length ≠ 0 := by
    intro h0
    have : st.db.failedNodes = [] := List.length_eq_zero.mp h0
    rw [this] at hpick
    simp at hpick
  obtain ⟨st1, err, ns1, hcall, hc1, hs1, _, hss⟩ :=
    bulkSyncNodeCall_spec env { st with db := db2 } (env.findCommonNetworks n.Name) n.Name true hwf
  have hne : (n.Name == db2.NodeID) = false := by simpa using hother
  have hloop : ∃ vars', bulkSyncNodes env true [n.Name] { st with db := db2 }
      { err := none, networks := [], success := false } = some (st1, vars') := by
    cases err with
    | none =>
      exact ⟨{ err := none, networks := env.findCommonNetworks n.Name, success := true },
        by simp [bulkSyncNodes, hne, hcall]⟩
    | some e =>
      exact ⟨{ err := some (SyncErr.peer n.Name e), networks := env.findCommonNetworks n.Name
               success := false },
        by simp [bulkSyncNodes, hne, hcall]⟩
  obtain ⟨vars', hloop⟩ := hloop
  have hb : (bulkSync env rng { st with db := db2 } [n.Name] true).map (fun r => r.1)
      = some st1 := by
    unfold bulkSync
    by_cases hsucc : vars'.success = true <;> simp [hloop, hsucc]
  refine ⟨st1, ⟨env.findCommonNetworks n.Name, n.Name, true, err⟩, ns1, ?_, hc1, rfl, rfl, hs1,
    fun s hs => ⟨(hss s hs).1, (hss s hs).2.1⟩, ?_⟩
  · unfold reconnectNode
    simp only [hlen, if_false, hpick, hjoin, hevent]
    exact hb
  · intro mnode hknown henc
    obtain ⟨st2, err2, s, hcall2, hs2, hp, hm, hu, hn, hid, _⟩ :=
      bulkSyncNodeCall_known env { st with db := db2 } (env.findCommonNetworks n.Name) n.Name true
        mnode hwf hknown henc
    rw [hcall] at hcall2
    simp only [Option.some.injEq, Prod.mk.injEq] at hcall2
    obtain ⟨h1, _⟩ := hcall2
    subst h1
    rw [hs1] at hs2
    exact ⟨s, List.append_cancel_left hs2, hp, hm, hu, hn, hid⟩

theorem reconnectNode_bulk_sync_witness :
    ∃ st' c newSends,
      reconnectNode exampleEnv exampleJoin (fun db => some db) 0 exampleRng exampleState
        = some st' ∧
      st'.calls = exampleState.calls ++ [c] ∧ c.node = (peerNode "n4".toList nodeReapInterval).Name ∧
      c.unsolicited = true ∧
      st'.sends = exampleState.sends ++ newSends ∧
      (∀ s ∈ newSends, s.peer = (peerNode "n4".toList nodeReapInterval).Name ∧
        s.bsm.Unsolicited = true) ∧
      (∀ mnode,
        (exampleDB.nodes ++ [("n4".toList, peerNode "n4".toList nodeReapInterval)]).lookup
          (peerNode "n4".toList nodeReapInterval).Name = some mnode →
        (∀ bsm, exampleEnv.encodeBulkSync bsm ≠ none) →
        ∃ s, newSends = [s] ∧ s.peer = (peerNode "n4".toList nodeReapInterval).Name ∧
          s.mnode = mnode ∧
          s.bsm.Unsolicited = true ∧
          s.bsm.Networks
            = exampleEnv.findCommonNetworks (peerNode "n4".toList nodeReapInterval).Name ∧
          s.bsm.NodeName = exampleDB.NodeID) :=
  reconnectNode_bulk_sync exampleEnv exampleJoin (fun db => some db) 0 exampleRng exampleState
    (peerNode "n4".toList nodeReapInterval) _ _ (by decide) rfl rfl
    (by
      intro leaf h
      simp only [exampleState, exampleDB, List.mem_cons, List.mem_singleton, List.not_mem_nil,
        or_false] at h
      rcases h with rfl | rfl
      · exact ⟨net1, tbl, key0, rfl⟩
      · exact ⟨net1, tbl, "k1".toList, rfl⟩)
    (by decide)

/-- C18 (as stated, refuted): after a successful rejoin of the failed node
`n4`, the one bulk sync message that `reconnectNode` sends goes to `n4` and
has `Unsolicited = true`. -/
theorem reconnectNode_sends_unsolicited :
    (reconnectNode exampleEnv exampleJoin (fun db => some db) 0 exampleRng exampleState).map
      (fun st => st.sends.map (fun s => (s.peer, s.bsm.Unsolicited)))
      = some [("n4".toList, true)] := by
  decide

/-! ## Periodic bulk sync -/

theorem bulkSync_total (env : Env) (rng : Rng) (st : SyncState) (nodes : List Str) (all : Bool)
    (hwf : LeavesAreEntries st.db)
    (hrng : rng.Valid (nodes.filter (fun node => !(node == st.db.NodeID))).length) :
    ∃ st' nets err, bulkSync env rng st nodes all = some (st', nets, err) ∧
      SameButAck st.db st'.db := by
  have key : ∀ picked : List Str,
      (if !all then mRandomNodes st.db.NodeID rng 2 nodes else some nodes) = some picked →
      ∃ st' nets err, bulkSync env rng st nodes all = some (st', nets, err) ∧
        SameButAck st.db st'.db := by
    intro picked hp
    unfold bulkSync
    rw [hp]
    by_cases h0 : picked.length = 0
    · exact ⟨st, [], none, by simp [h0], SameButAck.refl _⟩
    · obtain ⟨st', vars', _, _, h, _, _, hsame, _⟩ :=
        bulkSyncNodes_spec env all picked st
          { err := none, networks := [], success := false } hwf
      simp only [h0, if_false, h]
      by_cases hsucc : vars'.success = true
      · exact ⟨st', vars'.networks, none, by simp [hsucc], hsame⟩
      · exact ⟨st', [], vars'.err, by simp [hsucc], hsame⟩
  cases all with
  | true => exact key nodes rfl
  | false =>
    obtain ⟨r, hr, _⟩ := mRandomNodes_some st.db.NodeID rng 2 nodes hrng
    exact key r (by simpa using hr)

theorem bulkSyncTablesLoop_spec (env : Env) (rng : Nat → Rng)
    (hrng : ∀ i n, (rng i).Valid n) :
    ∀ (fuel i : Nat) (networks : List Str) (st : SyncState),
      networks.length ≤ fuel → LeavesAreEntries st.db →
      ∃ st' tr, bulkSyncTablesLoop env rng fuel i networks st = some (st', tr) ∧
        SameButAck st.db st'.db ∧
        (tr.map (fun a => a.nid)).Sublist networks ∧
        tr.Pairwise (fun a b => ∀ completed, a.result = some (completed, none) →
          b.nid ∉ completed) ∧
        ∀ n ∈ networks, n ∈ tr.map (fun a => a.nid) ∨
          ∃ a ∈ tr, ∃ completed, a.result = some (completed, none) ∧ n ∈ completed := by
  intro fuel
  induction fuel with
  | zero =>
    intro i networks st hlen _
    have : networks = [] := List.length_eq_zero.mp (Nat.le_zero.mp hlen)
    subst this
    exact ⟨st, [], by simp [bulkSyncTablesLoop], SameButAck.refl _, by simp, by simp, by simp⟩
  | succ fuel ih =>
    intro i networks st hlen hwf
    cases networks with
    | nil =>
      exact ⟨st, [], by simp [bulkSyncTablesLoop], SameButAck.refl _, by simp, by simp,
        by simp⟩
    | cons nid rest =>
      have hrest : rest.length ≤ fuel := by
        simp only [List.length_cons] at hlen
        omega
      by_cases hnodes : ((st.db.networkNodes.lookup nid).getD []).length = 0
      · obtain ⟨st', tr, h, hsame, hsub, hpw, hcov⟩ := ih (i + 1) rest st hrest hwf
        refine ⟨st', ⟨nid, none⟩ :: tr, by simp [bulkSyncTablesLoop, hnodes, h], hsame,
          by simpa using hsub.cons₂ nid, ?_, ?_⟩
        · rw [List.pairwise_cons]
          refine ⟨?_, hpw⟩
          intro b _ completed hres
          cases hres
        · intro n hn
          rcases List.mem_cons.mp hn with rfl | hn
          · left
            simp
          · rcases hcov n hn with h1 | ⟨a, ha, completed, hres, hin⟩
            · left
              simp [h1]
            · right
              exact ⟨a, List.mem_cons_of_mem _ ha, completed, hres, hin⟩
      · obtain ⟨st1, completed, err, hb, hsame1⟩ := bulkSync_total env (rng i) st
          ((st.db.networkNodes.lookup nid).getD []) false hwf (hrng i _)
        have hwf1 := hsame1.leaves hwf
        cases err with
        | some e =>
          obtain ⟨st', tr, h, hsame, hsub, hpw, hcov⟩ := ih (i + 1) rest st1 hrest hwf1
          refine ⟨st', ⟨nid, some (completed, some e)⟩ :: tr,
            by simp [bulkSyncTablesLoop, hnodes, hb, h], hsame1.trans hsame,
            by simpa using hsub.cons₂ nid, ?_, ?_⟩
          · rw [List.pairwise_cons]
            refine ⟨?_, hpw⟩
            intro b _ completed' hres
            simp at hres
          · intro n hn
            rcases List.mem_cons.mp hn with rfl | hn
            · left
              simp
            · rcases hcov n hn with h1 | ⟨a, ha, completed', hres, hin⟩
              · left
                simp [h1]
              · right
                exact ⟨a, List.mem_cons_of_mem _ ha, completed', hres, hin⟩
        | none =>
          have hfl : (rest.filter (fun n => !(completed.contains n))).length ≤ fuel :=
            le_trans (List.length_filter_le _ _) hrest
          obtain ⟨st', tr, h, hsame, hsub, hpw, hcov⟩ :=
            ih (i + 1) (rest.filter (fun n => !(completed.contains n))) st1 hfl hwf1
          refine ⟨st', ⟨nid, some (completed, none)⟩ :: tr,
            by
              rw [bulkSyncTablesLoop]
              simp only [hnodes, if_false, hb, h, Option.map_some'], hsame1.trans hsame,
            by simpa using (hsub.trans (List.filter_sublist _)).cons₂ nid, ?_, ?_⟩
          · rw [List.pairwise_cons]
            refine ⟨?_, hpw⟩
            intro b hb' completed' hres
            simp only [Option.some.injEq, Prod.mk.injEq, and_true] at hres
            subst hres
            have hbm : b.nid ∈ rest.filter (fun n => !(completed.contains n)) :=
              hsub.subset (List.mem_map_of_mem (fun a => a.nid) hb')
            have := (List.mem_filter.mp hbm).2
            simpa using this
          · intro n hn
            rcases List.mem_cons.mp hn with rfl | hn
            · left
              simp
            · by_cases hin : n ∈ completed
              · right
                exact ⟨⟨nid, some (completed, none)⟩, List.mem_cons_self _ _, completed, rfl,
                  hin⟩
              · have hnf : n ∈ rest.filter (fun n => !(completed.contains n)) :=
                  List.mem_filter.mpr ⟨hn, by simpa using hin⟩
                rcases hcov n hnf with h1 | ⟨a, ha, completed', hres, hin'⟩
                · left
                  simp [h1]
                · right
                  exact ⟨a, List.mem_cons_of_mem _ ha, completed', hres, hin'⟩

/-- C15: one tick of `bulkSyncTables` ends after at most one iteration per
network of the work list. Once an iteration's `bulkSync` succeeds and reports
`completed`, no later iteration of the tick takes a network of `completed`;
the networks taken follow the order of the work list; and every network of
the work list is taken unless an earlier success completed it. -/
theorem bulkSyncTables_work_list (env : Env) (rng : Nat → Rng) (st : SyncState)
    (hwf : LeavesAreEntries st.db) (hrng : ∀ i n, (rng i).Valid n) :
    ∃ st' tr, bulkSyncTables env rng st = some (st', tr) ∧
      (tr.map (fun a => a.nid)).Sublist
        ((st.db.thisNodeNetworks.filter (fun kv => !kv.2.leaving)).map Prod.fst) ∧
      tr.Pairwise (fun a b => ∀ completed, a.result = some (completed, none) →
        b.nid ∉ completed) ∧
      ∀ n ∈ (st.db.thisNodeNetworks.filter (fun kv => !kv.2.leaving)).map Prod.fst,
        n ∈ tr.map (fun a => a.nid) ∨
        ∃ a ∈ tr, ∃ completed, a.result = some (completed, none) ∧ n ∈ completed := by
  obtain ⟨st', tr, h, _, hsub, hpw, hcov⟩ := bulkSyncTablesLoop_spec env rng hrng
    ((st.db.thisNodeNetworks.filter (fun kv => !kv.2.leaving)).map Prod.fst).length 0
    ((st.db.thisNodeNetworks.filter (fun kv => !kv.2.leaving)).map Prod.fst) st (le_refl _) hwf
  exact ⟨st', tr, h, hsub, hpw, hcov⟩

theorem bulkSyncTables_work_list_witness :
    ∃ st' tr, bulkSyncTables exampleEnv (fun _ => exampleRng) exampleState = some (st', tr) ∧
      (tr.map (fun a => a.nid)).Sublist
        ((exampleState.db.thisNodeNetworks.filter (fun kv => !kv.2.leaving)).map Prod.fst) ∧
      tr.Pairwise (fun a b => ∀ completed, a.result = some (completed, none) →
        b.nid ∉ completed) ∧
      ∀ n ∈ (exampleState.db.thisNodeNetworks.filter (fun kv => !kv.2.leaving)).map Prod.fst,
        n ∈ tr.map (fun a => a.nid) ∨
        ∃ a ∈ tr, ∃ completed, a.result = some (completed, none) ∧ n ∈ completed :=
  bulkSyncTables_work_list exampleEnv (fun _ => exampleRng) exampleState
    (by
      intro leaf h
      simp only [exampleState, exampleDB, List.mem_cons, List.mem_singleton, List.not_mem_nil,
        or_false] at h
      rcases h with rfl | rfl
      · exact ⟨net1, tbl, key0, rfl⟩
      · exact ⟨net1, tbl, "k1".toList, rfl⟩)
    (fun _ n => exampleRng_valid n)

/-! ## Bootstrap rejoin -/

theorem rejoinLoop_eq (nip : Netip) (db : NetworkDB) :
    ∀ (l acc : List Str),
      rejoinLoop nip db l acc =
        if (∀ b ∈ l, (parseBootstrap nip db b).1.isSome = true →
            bootstrapInCluster nip db (parseBootstrap nip db b) = false)
        then some (acc ++ l.filter (fun b => (parseBootstrap nip db b).1.isSome))
        else none := by
  intro l
  induction l with
  | nil => intro acc; simp [rejoinLoop]
  | cons b rest ih =>
    intro acc
    unfold rejoinLoop
    by_cases hv : (parseBootstrap nip db b).1.isSome = true
    · by_cases hin : bootstrapInCluster nip db (parseBootstrap nip db b) = true
      · simp [hv, hin]
      · have hin' : bootstrapInCluster nip db (parseBootstrap nip db b) = false := by
          simpa using hin
        simp only [hv, if_true, hin', Bool.false_eq_true, if_false, ih]
        by_cases hall : ∀ b ∈ rest, (parseBootstrap nip db b).1.isSome = true →
            bootstrapInCluster nip db (parseBootstrap nip db b) = false
        · simp [hall, hv, hin', List.filter_cons]
        · simp [hall]
    · simp only [hv, Bool.false_eq_true, if_false, ih]
      by_cases hall : ∀ b ∈ rest, (parseBootstrap nip db b).1.isSome = true →
          bootstrapInCluster nip db (parseBootstrap nip db b) = false
      · simp [hall, hv, List.filter_cons]
      · simp [hall, hv]

theorem bootstrapInCluster_iff (nip : Netip) (db : NetworkDB) (ap : AddrPort) :
    bootstrapInCluster nip db ap = true ↔
      ∃ kv ∈ db.nodes, kv.1 ≠ db.NodeID ∧ ap = (nip.AddrFromSlice kv.2.Addr, kv.2.Port) := by
  simp [bootstrapInCluster, List.any_eq_true]

/-- C20 (amended): `rejoinClusterBootStrap` calls `retryJoin` exactly when the
local node is in the node table, at least one configured bootstrap address is
valid and no valid configured bootstrap address is the address (IP and port)
of a known node other than the local one; the call gets the valid configured
addresses in their configured order. -/
theorem rejoinClusterBootStrap_spec (nip : Netip) (db : NetworkDB) (ips : List Str) :
    rejoinClusterBootStrap nip db = some ips ↔
      (db.nodes.lookup db.NodeID).isSome = true ∧
      ips = db.bootStrapIP.filter (fun b => (parseBootstrap nip db b).1.isSome) ∧
      ips ≠ [] ∧
      ∀ b ∈ db.bootStrapIP, (parseBootstrap nip db b).1.isSome = true →
        ¬ ∃ kv ∈ db.nodes, kv.1 ≠ db.NodeID ∧
          parseBootstrap nip db b = (nip.AddrFromSlice kv.2.Addr, kv.2.Port) := by
  have hiff : (∀ b ∈ db.bootStrapIP, (parseBootstrap nip db b).1.isSome = true →
        ¬ ∃ kv ∈ db.nodes, kv.1 ≠ db.NodeID ∧
          parseBootstrap nip db b = (nip.AddrFromSlice kv.2.Addr, kv.2.Port)) ↔
      (∀ b ∈ db.bootStrapIP, (parseBootstrap nip db b).1.isSome = true →
        bootstrapInCluster nip db (parseBootstrap nip db b) = false) := by
    constructor
    · intro h b hb hv
      have := h b hb hv
      rw [← bootstrapInCluster_iff] at this
      simpa using this
    · intro h b hb hv
      rw [← bootstrapInCluster_iff]
      simp [h b hb hv]
  rw [hiff]
  unfold rejoinClusterBootStrap
  by_cases h0 : db.bootStrapIP.length = 0
  · have hnil : db.bootStrapIP = [] := List.length_eq_zero.mp h0
    simp only [h0, if_true]
    constructor
    · intro h
      cases h
    · rintro ⟨_, h2, h3, _⟩
      rw [hnil] at h2
      exact absurd h2 h3
  · simp only [h0, if_false]
    cases hl : db.nodes.lookup db.NodeID with
    | none => simp
    | some me =>
      simp only [rejoinLoop_eq, List.nil_append, Option.isSome_some, true_and]
      by_cases hall : ∀ b ∈ db.bootStrapIP, (parseBootstrap nip db b).1.isSome = true →
          bootstrapInCluster nip db (parseBootstrap nip db b) = false
      · rw [if_pos hall]
        by_cases hf : (db.bootStrapIP.filter
            (fun b => (parseBootstrap nip db b).1.isSome)).length = 0
        · have hfn := List.length_eq_zero.mp hf
          simp only [hf, if_true]
          constructor
          · intro h
            cases h
          · rintro ⟨h2, h3, _⟩
            rw [hfn] at h2
            exact absurd h2 h3
        · simp only [hf, if_false, Option.some.injEq]
          constructor
          · intro h
            subst h
            exact ⟨rfl, fun hn => hf (by rw [hn]; rfl), hall⟩
          · rintro ⟨h2, _, _⟩
            exact h2.symm
      · rw [if_neg hall]
        constructor
        · intro h
          cases h
        · rintro ⟨_, _, h⟩
          exact absurd h hall

/-- C20 (as stated, refuted): the bootstrap address `10.0.0.9:7946` is valid
and is the address of no known node, yet `rejoinClusterBootStrap` returns
without calling `retryJoin`, because the other bootstrap address is the
address of the known peer `n2`. -/
theorem rejoinClusterBootStrap_one_active_suffices :
    "10.0.0.9:7946".toList ∈ bootstrapDB.bootStrapIP ∧
    (parseBootstrap exampleNetip bootstrapDB "10.0.0.9:7946".toList).1.isSome = true ∧
    bootstrapInCluster exampleNetip bootstrapDB
      (parseBootstrap exampleNetip bootstrapDB "10.0.0.9:7946".toList) = false ∧
    (bootstrapDB.nodes.lookup bootstrapDB.NodeID).isSome = true ∧
    rejoinClusterBootStrap exampleNetip bootstrapDB = none := by
  decide

/-! ## Gossip sends -/

/-- The loop over the picked peers sends to the picked peers that come before
the first one missing from the node table, and to no other. -/
theorem gossipSends_eq (db : NetworkDB) (compound : List Msg) (peers : List Str) :
    (gossipSends db compound peers).map (fun s => s.peer)
      = peers.takeWhile (fun p => (db.nodes.lookup p).isSome) ∧
    ∀ s ∈ gossipSends db compound peers,
      s.compound = compound ∧ db.nodes.lookup s.peer = some s.mnode := by
  induction peers with
  | nil => simp [gossipSends]
  | cons p rest ih =>
    unfold gossipSends
    cases hl : db.nodes.lookup p with
    | none => simp [List.takeWhile_cons, hl]
    | some mnode =>
      obtain ⟨h1, h2⟩ := ih
      refine ⟨by simp [List.takeWhile_cons, hl, h1], ?_⟩
      intro s hs
      rcases List.mem_cons.mp hs with rfl | hs
      · exact ⟨rfl, hl⟩
      · exact h2 s hs

theorem lookup_isSome_of_mem {β : Type} (l : List (Str × β)) (kv : Str × β) (h : kv ∈ l) :
    (l.lookup kv.1).isSome = true := by
  induction l with
  | nil => cases h
  | cons a rest ih =>
    obtain ⟨k, v⟩ := a
    by_cases hk : kv.1 = k
    · simp [List.lookup_cons, hk]
    · have hk' : (kv.1 == k) = false := by simpa using hk
      simp only [List.lookup_cons, hk']
      rcases List.mem_cons.mp h with h1 | h1
      · rw [h1] at hk
        exact absurd rfl hk
      · exact ih h1

theorem gossipLoop_sends (db : NetworkDB) (rng : Nat → Rng) (getBroadcasts : Str → List Msg)
    (hrng : ∀ i n, (rng i).Valid n) :
    ∀ (nns : List (Str × List Str)) (i : Nat),
      (∀ nn ∈ nns, (db.thisNodeNetworks.lookup nn.1).isSome = true) →
      ∃ sends, gossipLoop db rng getBroadcasts nns i = some sends ∧
        (∀ j nn, nns[j]? = some nn →
          ∃ mNodes, mRandomNodes db.NodeID (rng (i + j)) 3 nn.2 = some mNodes ∧
            ((getBroadcasts nn.1).length ≠ 0 →
              ∀ s ∈ gossipSends db (getBroadcasts nn.1) mNodes, s ∈ sends)) ∧
        (∀ s ∈ sends, ∃ j nn mNodes, nns[j]? = some nn ∧
          mRandomNodes db.NodeID (rng (i + j)) 3 nn.2 = some mNodes ∧
          (getBroadcasts nn.1).length ≠ 0 ∧
          s ∈ gossipSends db (getBroadcasts nn.1) mNodes) := by
  intro nns
  induction nns with
  | nil =>
    intro i _
    exact ⟨[], rfl, by simp, by simp⟩
  | cons nn rest ih =>
    intro i hjoined
    obtain ⟨later, hl, hfwd, hbwd⟩ := ih (i + 1) (fun x hx => hjoined x (List.mem_cons_of_mem _ hx))
    obtain ⟨mNodes, hm, _⟩ := mRandomNodes_some db.NodeID (rng i) 3 nn.2 (hrng i _)
    have hj := hjoined nn (List.mem_cons_self _ _)
    obtain ⟨nw, hnw⟩ := Option.isSome_iff_exists.mp hj
    have hfwd' : ∀ sends : List GossipSend, (∀ s ∈ later, s ∈ sends) →
        ((getBroadcasts nn.1).length ≠ 0 →
          ∀ s ∈ gossipSends db (getBroadcasts nn.1) mNodes, s ∈ sends) →
        ∀ j x, (nn :: rest)[j]? = some x →
          ∃ mN, mRandomNodes db.NodeID (rng (i + j)) 3 x.2 = some mN ∧
            ((getBroadcasts x.1).length ≠ 0 →
              ∀ s ∈ gossipSends db (getBroadcasts x.1) mN, s ∈ sends) := by
      intro sends hlater hhead j x hx
      cases j with
      | zero =>
        simp only [List.getElem?_cons_zero, Option.some.injEq] at hx
        subst hx
        exact ⟨mNodes, hm, hhead⟩
      | succ j =>
        simp only [List.getElem?_cons_succ] at hx
        obtain ⟨mN, hmN, hs⟩ := hfwd j x hx
        refine ⟨mN, ?_, fun h0 s hs' => hlater s (hs h0 s hs')⟩
        rw [show i + (j + 1) = i + 1 + j by omega]
        exact hmN
    have hbwd' : ∀ s ∈ later, ∃ j x mN, (nn :: rest)[j]? = some x ∧
        mRandomNodes db.NodeID (rng (i + j)) 3 x.2 = some mN ∧
        (getBroadcasts x.1).length ≠ 0 ∧ s ∈ gossipSends db (getBroadcasts x.1) mN := by
      intro s hs
      obtain ⟨j, x, mN, hx, hmN, h0, hin⟩ := hbwd s hs
      refine ⟨j + 1, x, mN, by simpa using hx, ?_, h0, hin⟩
      rw [show i + (j + 1) = i + 1 + j by omega]
      exact hmN
    by_cases h0 : (getBroadcasts nn.1).length = 0
    · refine ⟨later, by simp [gossipLoop, hm, hl, hnw, h0], ?_, hbwd'⟩
      exact hfwd' later (fun s hs => hs) (fun h => absurd h0 h)
    · refine ⟨gossipSends db (getBroadcasts nn.1) mNodes ++ later,
        by simp [gossipLoop, hm, hl, hnw, h0], ?_, ?_⟩
      · exact hfwd' _ (fun s hs => List.mem_append_right _ hs)
          (fun _ s hs => List.mem_append_left _ hs)
      · intro s hs
        rcases List.mem_append.mp hs with hs | hs
        · exact ⟨0, nn, mNodes, by simp, by simpa using hm, h0, hs⟩
        · exact hbwd' s hs

/-- C17 (amended): in one gossip tick, for every joined network whose queues
yield at least one message, the compound message is sent to the peers
selected by `mRandomNodes(3, peers)`, in the order selected, up to the first
selected peer that is missing from the node table; no send is made to that
peer or to a peer selected after it, and `gossip` makes no other send. -/
theorem gossip_sends_until_missing (db : NetworkDB) (rng : Nat → Rng)
    (getBroadcasts : Str → List Msg) (hrng : ∀ i n, (rng i).Valid n) :
    (∀ compound peers,
      (gossipSends db compound peers).map (fun s => s.peer)
        = peers.takeWhile (fun p => (db.nodes.lookup p).isSome) ∧
      ∀ s ∈ gossipSends db compound peers,
        s.compound = compound ∧ db.nodes.lookup s.peer = some s.mnode) ∧
    ∃ sends, gossip db rng getBroadcasts = some sends ∧
      (∀ (j : Nat) (kv : Str × network), db.thisNodeNetworks[j]? = some kv →
        ∃ mNodes,
          mRandomNodes db.NodeID (rng j) 3 ((db.networkNodes.lookup kv.1).getD [])
            = some mNodes ∧
          ((getBroadcasts kv.1).length ≠ 0 →
            ∀ s ∈ gossipSends db (getBroadcasts kv.1) mNodes, s ∈ sends)) ∧
      (∀ s ∈ sends, ∃ (j : Nat) (kv : Str × network) (mNodes : List Str),
        db.thisNodeNetworks[j]? = some kv ∧
        mRandomNodes db.NodeID (rng j) 3 ((db.networkNodes.lookup kv.1).getD [])
          = some mNodes ∧
        (getBroadcasts kv.1).length ≠ 0 ∧
        s ∈ gossipSends db (getBroadcasts kv.1) mNodes) := by
  refine ⟨fun compound peers => gossipSends_eq db compound peers, ?_⟩
  have hjoined : ∀ nn ∈ db.thisNodeNetworks.map
      (fun kv => (kv.1, (db.networkNodes.lookup kv.1).getD [])),
      (db.thisNodeNetworks.lookup nn.1).isSome = true := by
    intro nn hnn
    obtain ⟨kv, hkv, rfl⟩ := List.mem_map.mp hnn
    exact lookup_isSome_of_mem _ kv hkv
  obtain ⟨sends, hs, hfwd, hbwd⟩ := gossipLoop_sends db rng getBroadcasts hrng _ 0 hjoined
  refine ⟨sends, hs, ?_, ?_⟩
  · intro j kv hkv
    have := hfwd j (kv.1, (db.networkNodes.lookup kv.1).getD []) (by simp [hkv])
    simpa using this
  · intro s hsm
    obtain ⟨j, nn, mN, hnn, hmN, h0, hin⟩ := hbwd s hsm
    simp only [List.getElem?_map, Option.map_eq_some'] at hnn
    obtain ⟨kv, hkv, rfl⟩ := hnn
    exact ⟨j, kv, mN, hkv, by simpa using hmN, h0, hin⟩

theorem gossip_sends_until_missing_witness :
    (∀ compound peers,
      (gossipSends exampleDB compound peers).map (fun s => s.peer)
        = peers.takeWhile (fun p => (exampleDB.nodes.lookup p).isSome) ∧
      ∀ s ∈ gossipSends exampleDB compound peers,
        s.compound = compound ∧ exampleDB.nodes.lookup s.peer = some s.mnode) ∧
    ∃ sends, gossip exampleDB (fun _ => exampleRng) exampleBroadcasts = some sends ∧
      (∀ (j : Nat) (kv : Str × network), exampleDB.thisNodeNetworks[j]? = some kv →
        ∃ mNodes,
          mRandomNodes exampleDB.NodeID exampleRng 3
            ((exampleDB.networkNodes.lookup kv.1).getD []) = some mNodes ∧
          ((exampleBroadcasts kv.1).length ≠ 0 →
            ∀ s ∈ gossipSends exampleDB (exampleBroadcasts kv.1) mNodes, s ∈ sends)) ∧
      (∀ s ∈ sends, ∃ (j : Nat) (kv : Str × network) (mNodes : List Str),
        exampleDB.thisNodeNetworks[j]? = some kv ∧
        mRandomNodes exampleDB.NodeID exampleRng 3
          ((exampleDB.networkNodes.lookup kv.1).getD []) = some mNodes ∧
        (exampleBroadcasts kv.1).length ≠ 0 ∧
        s ∈ gossipSends exampleDB (exampleBroadcasts kv.1) mNodes) :=
  gossip_sends_until_missing exampleDB (fun _ => exampleRng) exampleBroadcasts
    (fun _ n => exampleRng_valid n)

/-- C17 (as stated, refuted): for network `net1` the peers selected are `n3`
and `n2`, in that order; `n3` is missing from the node table and `n2` is in
it, yet `gossip` sends nothing, not even to `n2`. -/
theorem gossip_stops_at_missing_peer :
    mRandomNodes gossipBreakDB.NodeID exampleRng 3
      ((gossipBreakDB.networkNodes.lookup net1).getD []) = some ["n3".toList, "n2".toList] ∧
    gossipBreakDB.nodes.lookup "n3".toList = none ∧
    (gossipBreakDB.nodes.lookup "n2".toList).isSome = true ∧
    (gossipBreakDB.thisNodeNetworks.lookup net1).isSome = true ∧
    (exampleBroadcasts net1).length ≠ 0 ∧
    gossip gossipBreakDB (fun _ => exampleRng) exampleBroadcasts = some [] := by
  decide

/-! ## Ticker stagger -/

/-- C21: for a positive ticker interval `d` and a value `r` of `rnd.Int63()`
(`0 <= r < 2^63`), the initial delay computed by `triggerFunc` exists and
satisfies `0 <= delay < d`. -/
theorem randStagger_within_period (r : Int) (d : Duration)
    (hd : 0 < d) (hmax : d ≤ maxDuration) (hr0 : 0 ≤ r) (hr : r < 2 ^ 63) :
    ∃ delay, randStagger r d = some delay ∧ 0 ≤ delay ∧ delay < d := by
  have hdu : toUint64 d = d.toNat := by
    unfold toUint64
    simp only [maxDuration, Duration] at *
    congr 1
    omega
  have hru : toUint64 r = r.toNat := by
    unfold toUint64
    congr 1
    omega
  have hdpos : 0 < d.toNat := by
    simp only [Duration] at *
    omega
  have hlt : r.toNat % d.toNat < d.toNat := Nat.mod_lt _ hdpos
  have hne : toUint64 d ≠ 0 := by
    rw [hdu]
    omega
  have hw : wrap64 ((r.toNat % d.toNat : Nat) : Int) = ((r.toNat % d.toNat : Nat) : Int) := by
    apply wrap64_of_range
    · omega
    · simp only [maxDuration, Duration] at *
      omega
  refine ⟨((r.toNat % d.toNat : Nat) : Int), ?_, ?_, ?_⟩
  · unfold randStagger
    rw [if_neg hne, hru, hdu, hw]
  · exact Int.ofNat_nonneg _
  · simp only [Duration] at *
    omega

theorem randStagger_within_period_witness :
    ∃ delay, randStagger 1234567890123 reapPeriod = some delay ∧ 0 ≤ delay ∧
      delay < reapPeriod :=
  randStagger_within_period 1234567890123 reapPeriod (by decide) (by decide) (by decide)
    (by decide)

/-! ## Error paths of a bulk sync call -/

theorem lookup_ackDelete_self (tbl : List (Str × Nat)) (peer : Str) :
    (ackDelete tbl peer).lookup peer = none := by
  unfold ackDelete
  induction tbl with
  | nil => rfl
  | cons kv rest ih =>
    obtain ⟨k, v⟩ := kv
    by_cases hk : k = peer
    · have hk' : (k == peer) = true := by simpa using hk
      simp only [List.filter_cons, hk', Bool.not_true]
      exact ih
    · have hk' : (k == peer) = false := by simpa using hk
      have hk2 : (peer == k) = false := by simpa using fun h : peer = k => hk h.symm
      simp only [List.filter_cons, hk', Bool.not_false, if_true, List.lookup_cons, hk2]
      exact ih

theorem append_singleton_ne_self {α : Type} (l : List α) (a : α) : l ≠ l ++ [a] := by
  intro h
  have := congrArg List.length h
  simp at this

/-- C25: a call of `bulkSyncNode` returns. If it made a reliable send that
failed, it returns the send error and the ack table has no entry for the peer
afterwards, with nothing else in the database changed; a known peer whose
message encodes and whose send fails is such a call. If the peer is not in the
node table, the call returns `nil`, sends nothing and leaves the database,
ack table included, as it was. -/
theorem bulkSyncNodeCall_failure_paths (env : Env) (st : SyncState) (networks : List Str)
    (peer : Str) (unsolicited : Bool) (hwf : LeavesAreEntries st.db) :
    ∃ st' err, bulkSyncNodeCall env st networks peer unsolicited = some (st', err) ∧
      (∀ s, st'.sends = st.sends ++ [s] → s.ok = false →
        err = some SyncErr.send ∧ st'.db.bulkSyncAckTbl.lookup peer = none ∧
          SameButAck st.db st'.db) ∧
      (∀ mnode, st.db.nodes.lookup peer = some mnode →
        (∀ bsm, (env.encodeBulkSync bsm).isSome = true) →
        (∀ buf, env.SendReliable st.sends.length mnode buf = false) →
        ∃ s, st'.sends = st.sends ++ [s] ∧ s.ok = false ∧ s.peer = peer) ∧
      (st.db.nodes.lookup peer = none →
        err = none ∧ st'.sends = st.sends ∧ st'.db = st.db) := by
  unfold bulkSyncNodeCall
  cases hl : st.db.nodes.lookup peer with
  | none =>
    refine ⟨_, none, rfl, ?_, ?_, ?_⟩
    · intro s hs _
      exact absurd hs (append_singleton_ne_self _ _)
    · intro mnode hm
      cases hm
    · intro _
      exact ⟨rfl, rfl, rfl⟩
  | some mnode =>
    obtain ⟨out, hout, _, _⟩ := bulkSyncLoop_some st.db env.encodeMessage hwf networks []
    have hb : bulkSyncNode st.db env.encodeMessage networks peer unsolicited
        = some (some
            { LTime := st.db.tableClock, Unsolicited := unsolicited, NodeName := st.db.NodeID
              Networks := networks, Payload := out }) := by
      simp [bulkSyncNode, hl, hout]
    simp only [hb]
    cases henc : env.encodeBulkSync
        { LTime := st.db.tableClock, Unsolicited := unsolicited, NodeName := st.db.NodeID
          Networks := networks, Payload := out } with
    | none =>
      refine ⟨_, some SyncErr.encode, rfl, ?_, ?_, ?_⟩
      · intro s hs _
        exact absurd hs (append_singleton_ne_self _ _)
      · intro m _ hall _
        have := hall
          { LTime := st.db.tableClock, Unsolicited := unsolicited, NodeName := st.db.NodeID
            Networks := networks, Payload := out }
        rw [henc] at this
        cases this
      · intro h
        cases h
    | some buf =>
      simp only
      by_cases hsend : env.SendReliable st.sends.length mnode buf = true
      · rw [if_pos hsend]
        refine ⟨_, none, rfl, ?_, ?_, ?_⟩
        · intro s hs hok
          have h1 := List.append_cancel_left hs
          simp only [List.cons.injEq, and_true] at h1
          rw [← h1] at hok
          cases hok
        · intro m hm _ hfail
          cases hm
          rw [hfail buf] at hsend
          cases hsend
        · intro h
          cases h
      · rw [if_neg hsend]
        refine ⟨_, some SyncErr.send, rfl, ?_, ?_, ?_⟩
        · intro s _ _
          exact ⟨rfl, lookup_ackDelete_self _ _, rfl⟩
        · intro m _ _ _
          exact ⟨_, rfl, rfl, rfl⟩
        · intro h
          cases h

theorem bulkSyncNodeCall_failure_paths_witness :
    ∃ st' err, bulkSyncNodeCall failingEnv exampleState [net1] "n2".toList true
        = some (st', err) ∧
      (∀ s, st'.sends = exampleState.sends ++ [s] → s.ok = false →
        err = some SyncErr.send ∧ st'.db.bulkSyncAckTbl.lookup "n2".toList = none ∧
          SameButAck exampleState.db st'.db) ∧
      (∀ mnode, exampleState.db.nodes.lookup "n2".toList = some mnode →
        (∀ bsm, (failingEnv.encodeBulkSync bsm).isSome = true) →
        (∀ buf, failingEnv.SendReliable exampleState.sends.length mnode buf = false) →
        ∃ s, st'.sends = exampleState.sends ++ [s] ∧ s.ok = false ∧ s.peer = "n2".toList) ∧
      (exampleState.db.nodes.lookup "n2".toList = none →
        err = none ∧ st'.sends = exampleState.sends ∧ st'.db = exampleState.db) :=
  bulkSyncNodeCall_failure_paths failingEnv exampleState [net1] "n2".toList true
    (by
      intro leaf h
      simp only [exampleState, exampleDB, List.mem_cons, List.mem_singleton, List.not_mem_nil,
        or_false] at h
      rcases h with rfl | rfl
      · exact ⟨net1, tbl, key0, rfl⟩
      · exact ⟨net1, tbl, "k1".toList, rfl⟩)

/-! ## The list returned by a bulk sync over all peers -/

/-- The variables of the loop of `bulkSync` after the loop, against the calls
of `bulkSyncNode` it made: `networks` is the list of the last peer called,
`err` is set when that call failed, `success` is set only if some call
succeeded, and in the periodic mode a set `success` means that the last call
succeeded. -/
theorem bulkSyncNodes_last (env : Env) (all : Bool) :
    ∀ (nodes : List Str) (st : SyncState) (vars : SyncVars), LeavesAreEntries st.db →
      ∃ st' vars' newCalls, bulkSyncNodes env all nodes st vars = some (st', vars') ∧
        st'.calls = st.calls ++ newCalls ∧
        (newCalls = [] → vars' = vars) ∧
        (∀ init last, newCalls = init ++ [last] →
          vars'.networks = env.findCommonNetworks last.node ∧
          (last.err = none → vars'.success = true) ∧
          (last.err ≠ none → vars'.err ≠ none)) ∧
        (vars'.success = true → vars.success = true ∨ ∃ c ∈ newCalls, c.err = none) ∧
        (all = false → vars.success = false → vars'.success = true →
          ∀ init last, newCalls = init ++ [last] → last.err = none) := by
  intro nodes
  induction nodes with
  | nil =>
    intro st vars _
    refine ⟨st, vars, [], rfl, by simp, fun _ => rfl, ?_, fun h => Or.inl h, ?_⟩
    · intro init last h
      simp at h
    · intro _ _ _ init last h
      simp at h
  | cons peer rest ih =>
    intro st vars hwf
    by_cases hself : peer = st.db.NodeID
    · obtain ⟨st', vars', nc, h, rest'⟩ := ih st vars hwf
      exact ⟨st', vars', nc, by simp [bulkSyncNodes, hself, h], rest'⟩
    · obtain ⟨st1, err, ns1, h1, hc1, _, hsame1, _⟩ :=
        bulkSyncNodeCall_spec env st (env.findCommonNetworks peer) peer true hwf
      have hwf1 := hsame1.leaves hwf
      have hne : (peer == st.db.NodeID) = false := by simpa using hself
      cases err with
      | some e =>
        obtain ⟨st', vars', nc, h, hc, p1, p2, p3, p4⟩ := ih st1
          { err := some (SyncErr.peer peer e), networks := env.findCommonNetworks peer
            success := vars.success } hwf1
        refine ⟨st', vars', ⟨env.findCommonNetworks peer, peer, true, some e⟩ :: nc,
          ?_, ?_, ?_, ?_, ?_, ?_⟩
        · rw [bulkSyncNodes]
          simp only [hne, Bool.false_eq_true, if_false, h1]
          exact h
        · rw [hc, hc1]
          simp
        · intro hnil
          cases hnil
        · intro init last hl
          cases init with
          | nil =>
            simp only [List.nil_append, List.cons.injEq] at hl
            obtain ⟨rfl, hnc⟩ := hl
            rw [p1 hnc]
            exact ⟨rfl, fun h => Option.noConfusion h, fun _ h => Option.noConfusion h⟩
          | cons i init' =>
            simp only [List.cons_append, List.cons.injEq] at hl
            exact p2 init' last hl.2
        · intro hs
          rcases p3 hs with h' | ⟨c, hc', he⟩
          · exact Or.inl h'
          · exact Or.inr ⟨c, List.mem_cons_of_mem _ hc', he⟩
        · intro ha hv hs init last hl
          cases init with
          | nil =>
            simp only [List.nil_append, List.cons.injEq] at hl
            rw [p1 hl.2] at hs
            simp only at hs
            rw [hv] at hs
            cases hs
          | cons i init' =>
            simp only [List.cons_append, List.cons.injEq] at hl
            exact p4 ha hv hs init' last hl.2
      | none =>
        cases all with
        | false =>
          refine ⟨st1, { err := none, networks := env.findCommonNetworks peer, success := true },
            [⟨env.findCommonNetworks peer, peer, true, none⟩], ?_, hc1, ?_, ?_, ?_, ?_⟩
          · rw [bulkSyncNodes]
            simp only [hne, Bool.false_eq_true, if_false, h1, Bool.not_false, if_true]
          · intro hnil
            cases hnil
          · intro init last hl
            cases init with
            | nil =>
              simp only [List.nil_append, List.cons.injEq, and_true] at hl
              subst hl
              exact ⟨rfl, fun _ => rfl, fun h => absurd rfl h⟩
            | cons i init' =>
              simp at hl
          · intro _
            exact Or.inr ⟨_, List.mem_singleton.mpr rfl, rfl⟩
          · intro _ _ _ init last hl
            cases init with
            | nil =>
              simp only [List.nil_append, List.cons.injEq, and_true] at hl
              subst hl
              rfl
            | cons i init' =>
              simp at hl
        | true =>
          obtain ⟨st', vars', nc, h, hc, p1, p2, p3, _⟩ := ih st1
            { err := none, networks := env.findCommonNetworks peer, success := true } hwf1
          refine ⟨st', vars', ⟨env.findCommonNetworks peer, peer, true, none⟩ :: nc,
            ?_, ?_, ?_, ?_, ?_, ?_⟩
          · rw [bulkSyncNodes]
            simp only [hne, Bool.false_eq_true, if_false, h1, Bool.not_true]
            exact h
          · rw [hc, hc1]
            simp
          · intro hnil
            cases hnil
          · intro init last hl
            cases init with
            | nil =>
              simp only [List.nil_append, List.cons.injEq] at hl
              obtain ⟨rfl, hnc⟩ := hl
              rw [p1 hnc]
              exact ⟨rfl, fun _ => rfl, fun h => absurd rfl h⟩
            | cons i init' =>
              simp only [List.cons_append, List.cons.injEq] at hl
              exact p2 init' last hl.2
          · intro _
            exact Or.inr ⟨_, List.mem_cons_self _ _, rfl⟩
          · intro ha
            cases ha

/-- C24 (amended): `bulkSync` returns; whenever it returns a nil error after
at least one call of `bulkSyncNode`, the returned list is the common-network
list (`findCommonNetworks`) of the last peer for which `bulkSyncNode` was
called, and some call of this `bulkSync` succeeded. With `all = false` that
last call is the one that succeeded; with `all = true` it may have failed
after an earlier success. -/
theorem bulkSync_returned_networks (env : Env) (rng : Rng) (st : SyncState) (nodes : List Str)
    (all : Bool) (hwf : LeavesAreEntries st.db)
    (hrng : rng.Valid (nodes.filter (fun node => !(node == st.db.NodeID))).length) :
    ∃ st' nets err newCalls, bulkSync env rng st nodes all = some (st', nets, err) ∧
      st'.calls = st.calls ++ newCalls ∧
      (err = none → ∀ init last, newCalls = init ++ [last] →
        nets = env.findCommonNetworks last.node ∧ (∃ c ∈ newCalls, c.err = none) ∧
        (all = false → last.err = none)) := by
  have key : ∀ picked : List Str,
      (if !all then mRandomNodes st.db.NodeID rng 2 nodes else some nodes) = some picked →
      ∃ st' nets err newCalls, bulkSync env rng st nodes all = some (st', nets, err) ∧
        st'.calls = st.calls ++ newCalls ∧
        (err = none → ∀ init last, newCalls = init ++ [last] →
          nets = env.findCommonNetworks last.node ∧ (∃ c ∈ newCalls, c.err = none) ∧
          (all = false → last.err = none)) := by
    intro picked hp
    unfold bulkSync
    rw [hp]
    by_cases h0 : picked.length = 0
    · refine ⟨st, [], none, [], by simp [h0], by simp, ?_⟩
      intro _ init last hl
      simp at hl
    · obtain ⟨st', vars', nc, h, hc, _, p2, p3, p4⟩ :=
        bulkSyncNodes_last env all picked st
          { err := none, networks := [], success := false } hwf
      simp only [h0, if_false, h]
      by_cases hsucc : vars'.success = true
      · refine ⟨st', vars'.networks, none, nc, by simp [hsucc], hc, ?_⟩
        intro _ init last hl
        refine ⟨(p2 init last hl).1, ?_, fun ha => p4 ha rfl hsucc init last hl⟩
        rcases p3 hsucc with h' | h'
        · cases h'
        · exact h'
      · refine ⟨st', [], vars'.err, nc, by simp [hsucc], hc, ?_⟩
        intro herr init last hl
        obtain ⟨_, q1, q2⟩ := p2 init last hl
        by_cases hlast : last.err = none
        · exact absurd (q1 hlast) hsucc
        · exact absurd herr (q2 hlast)
  cases all with
  | true => exact key nodes rfl
  | false =>
    obtain ⟨r, hr, _⟩ := mRandomNodes_some st.db.NodeID rng 2 nodes hrng
    exact key r (by simpa using hr)

theorem bulkSync_returned_networks_witness :
    ∃ st' nets err newCalls,
      bulkSync flakyEnv exampleRng exampleState ["n2".toList, "n3".toList] true
        = some (st', nets, err) ∧
      st'.calls = exampleState.calls ++ newCalls ∧
      (err = none → ∀ init last, newCalls = init ++ [last] →
        nets = flakyEnv.findCommonNetworks last.node ∧ (∃ c ∈ newCalls, c.err = none) ∧
        (true = false → last.err = none)) :=
  bulkSync_returned_networks flakyEnv exampleRng exampleState ["n2".toList, "n3".toList] true
    (by
      intro leaf h
      simp only [exampleState, exampleDB, List.mem_cons, List.mem_singleton, List.not_mem_nil,
        or_false] at h
      rcases h with rfl | rfl
      · exact ⟨net1, tbl, key0, rfl⟩
      · exact ⟨net1, tbl, "k1".toList, rfl⟩)
    (exampleRng_valid _)

/-- C24 (as stated, refuted): `bulkSync` over the peers `n2` and `n3` with
`all = true`, where the send to `n2` succeeds and the send to `n3` fails,
returns a nil error together with the common networks of `n3`, the peer whose
call failed; the list of `n2`, whose call succeeded, is lost. -/
theorem bulkSync_all_returns_failed_peer_networks :
    (bulkSync flakyEnv exampleRng exampleState ["n2".toList, "n3".toList] true).map
      (fun r => (r.2.1, r.2.2)) = some (["net3".toList], none) ∧
    (bulkSync flakyEnv exampleRng exampleState ["n2".toList, "n3".toList] true).map
      (fun r => r.1.calls)
      = some [⟨[net1], "n2".toList, true, none⟩,
          ⟨["net3".toList], "n3".toList, true, some SyncErr.send⟩] ∧
    flakyEnv.findCommonNetworks "n2".toList = [net1] ∧
    flakyEnv.findCommonNetworks "n3".toList = ["net3".toList] := by
  decide

/-! ## The sample is a rearranged sub-list -/

theorem sampleAt_eq_map (mNodes : List Str) (idxs : List Nat)
    (h : ∀ i ∈ idxs, i < mNodes.length) :
    sampleAt mNodes idxs = some (idxs.map (fun i => mNodes.getD i [])) := by
  induction idxs with
  | nil => rfl
  | cons i rest ih =>
    have hi := h i (List.mem_cons_self _ _)
    have hrest := ih (fun j hj => h j (List.mem_cons_of_mem _ hj))
    simp [sampleAt, List.getElem?_eq_getElem hi, hrest, List.getD_eq_getElem?_getD]

theorem map_getD_range (l : List Str) :
    (List.range l.length).map (fun i => l.getD i []) = l := by
  apply List.ext_getElem
  · simp
  · intro i h1 h2
    simp [List.getD_eq_getElem?_getD, List.getElem?_eq_getElem h2]

/-- Reading a list at distinct valid positions gives a rearrangement of a
sub-list of it. -/
theorem map_getD_subperm (l : List Str) (idxs : List Nat) (hnd : idxs.Nodup)
    (h : ∀ i ∈ idxs, i < l.length) :
    ∃ sub, sub.Sublist l ∧ (idxs.map (fun i => l.getD i [])).Perm sub := by
  refine ⟨((List.range l.length).filter (fun i => decide (i ∈ idxs))).map
    (fun i => l.getD i []), ?_, ?_⟩
  · have hs : (((List.range l.length).filter (fun i => decide (i ∈ idxs))).map
        (fun i => l.getD i [])).Sublist ((List.range l.length).map (fun i => l.getD i [])) :=
      (List.filter_sublist _).map _
    rw [map_getD_range] at hs
    exact hs
  · apply List.Perm.map
    rw [List.perm_ext_iff_of_nodup hnd ((List.nodup_range _).filter _)]
    intro a
    simp only [List.mem_filter, List.mem_range, decide_eq_true_eq]
    exact ⟨fun ha => ⟨h a ha, ha⟩, fun ha => ha.2⟩

/-- C26: under the contract of the random generator, `mRandomNodes(m, nodes)`
returns a list whose every id occurs in `nodes` and which is a rearrangement
of a sub-list of the entries of `nodes` other than the local node id (no
input position is taken twice); when `nodes` has no duplicate ids, the result
has none. -/
theorem mRandomNodes_rearranged_sublist (self : Str) (rng : Rng) (m : Nat) (nodes : List Str)
    (hrng : rng.Valid (nodes.filter (fun node => !(node == self))).length) :
    ∃ r, mRandomNodes self rng m nodes = some r ∧
      (∀ x ∈ r, x ∈ nodes) ∧
      (∃ sub, sub.Sublist (nodes.filter (fun node => !(node == self))) ∧ r.Perm sub) ∧
      (nodes.Nodup → r.Nodup) := by
  have key : ∃ r, mRandomNodes self rng m nodes = some r ∧
      ∃ sub, sub.Sublist (nodes.filter (fun node => !(node == self))) ∧ r.Perm sub := by
    obtain ⟨hperm, hsw⟩ := hrng
    unfold mRandomNodes
    by_cases hlt : (nodes.filter (fun node => !(node == self))).length < m
    · obtain ⟨l', h1, h2⟩ := applySwaps_perm _ (nodes.filter (fun node => !(node == self))) hsw
      exact ⟨l', by simp [hlt, h1], _, List.Sublist.refl _, h2⟩
    · have hlen : (rng.Perm (nodes.filter (fun node => !(node == self))).length).length
          = (nodes.filter (fun node => !(node == self))).length := by
        rw [hperm.length_eq, List.length_range]
      have hm : m ≤ (rng.Perm (nodes.filter (fun node => !(node == self))).length).length := by
        omega
      have hidx : ∀ i ∈ (rng.Perm (nodes.filter (fun node => !(node == self))).length).take m,
          i < (nodes.filter (fun node => !(node == self))).length := by
        intro i hi
        have := hperm.subset (List.mem_of_mem_take hi)
        simpa using this
      have hnd : ((rng.Perm (nodes.filter (fun node => !(node == self))).length).take m).Nodup :=
        (List.take_sublist _ _).nodup (hperm.nodup_iff.mpr (List.nodup_range _))
      obtain ⟨sub, hsub, hp⟩ :=
        map_getD_subperm (nodes.filter (fun node => !(node == self))) _ hnd hidx
      exact ⟨_, by simp [hlt, hm, sampleAt_eq_map _ _ hidx], sub, hsub, hp⟩
  obtain ⟨r, hr, sub, hsub, hp⟩ := key
  refine ⟨r, hr, ?_, ⟨sub, hsub, hp⟩, ?_⟩
  · intro x hx
    exact List.mem_of_mem_filter (hsub.subset (hp.subset hx))
  · intro hnd
    exact hp.nodup_iff.mpr (hsub.nodup (hnd.filter _))

theorem mRandomNodes_rearranged_sublist_witness :
    ∃ r, mRandomNodes "n1".toList exampleRng 2
        ["n1".toList, "n2".toList, "n3".toList, "n4".toList] = some r ∧
      (∀ x ∈ r, x ∈ ["n1".toList, "n2".toList, "n3".toList, "n4".toList]) ∧
      (∃ sub, sub.Sublist
          (["n1".toList, "n2".toList, "n3".toList, "n4".toList].filter
            (fun node => !(node == "n1".toList))) ∧ r.Perm sub) ∧
      (["n1".toList, "n2".toList, "n3".toList, "n4".toList].Nodup → r.Nodup) :=
  mRandomNodes_rearranged_sublist "n1".toList exampleRng 2
    ["n1".toList, "n2".toList, "n3".toList, "n4".toList] (exampleRng_valid _)

/-! ## Termination of the periodic bulk sync -/

/-- The loop of `bulkSyncTables` needs no more iterations than the length of
its work list: with any two bounds that are at least that length it gives the
same result, whatever `bulkSync` returns. -/
theorem bulkSyncTablesLoop_fuel (env : Env) (rng : Nat → Rng) :
    ∀ (fuel1 fuel2 i : Nat) (networks : List Str) (st : SyncState),
      networks.length ≤ fuel1 → networks.length ≤ fuel2 →
      bulkSyncTablesLoop env rng fuel1 i networks st
        = bulkSyncTablesLoop env rng fuel2 i networks st := by
  intro fuel1
  induction fuel1 with
  | zero =>
    intro fuel2 i networks st h1 _
    have : networks = [] := List.length_eq_zero.mp (Nat.le_zero.mp h1)
    subst this
    simp [bulkSyncTablesLoop]
  | succ f1 ih =>
    intro fuel2 i networks st h1 h2
    cases networks with
    | nil => simp [bulkSyncTablesLoop]
    | cons nid rest =>
      cases fuel2 with
      | zero => simp at h2
      | succ f2 =>
        have hr1 : rest.length ≤ f1 := by
          simp only [List.length_cons] at h1
          omega
        have hr2 : rest.length ≤ f2 := by
          simp only [List.length_cons] at h2
          omega
        rw [bulkSyncTablesLoop, bulkSyncTablesLoop]
        by_cases hnodes : ((st.db.networkNodes.lookup nid).getD []).length = 0
        · simp only [hnodes, if_true]
          rw [ih f2 (i + 1) rest st hr1 hr2]
        · simp only [hnodes, if_false]
          cases hb : bulkSync env (rng i) st ((st.db.networkNodes.lookup nid).getD []) false with
          | none => rfl
          | some r =>
            obtain ⟨st1, completed, err⟩ := r
            cases err with
            | some e =>
              simp only
              rw [ih f2 (i + 1) rest st1 hr1 hr2]
            | none =>
              simp only
              rw [ih f2 (i + 1) (rest.filter (fun n => !(completed.contains n))) st1
                (le_trans (List.length_filter_le _ _) hr1)
                (le_trans (List.length_filter_le _ _) hr2)]

/-- C27: `bulkSyncTables` terminates: its loop returns within as many
iterations as the work list (the joined networks not marked leaving) has
networks, every larger bound gives the same result, and the number of
iterations run is at most the number of those networks. This is so for every
outcome of the encoders, the sends and `findCommonNetworks`; every next work
list is the tail of the current one or a filtered tail, hence strictly
shorter. -/
theorem bulkSyncTables_terminates (env : Env) (rng : Nat → Rng) (st : SyncState)
    (hwf : LeavesAreEntries st.db) (hrng : ∀ i n, (rng i).Valid n) :
    ∃ st' tr, bulkSyncTables env rng st = some (st', tr) ∧
      tr.length ≤ (st.db.thisNodeNetworks.filter (fun kv => !kv.2.leaving)).length ∧
      (∀ fuel,
        ((st.db.thisNodeNetworks.filter (fun kv => !kv.2.leaving)).map Prod.fst).length ≤ fuel →
        bulkSyncTablesLoop env rng fuel 0
          ((st.db.thisNodeNetworks.filter (fun kv => !kv.2.leaving)).map Prod.fst) st
          = some (st', tr)) ∧
      ∀ (nid : Str) (rest completed : List Str),
        (rest.filter (fun n => !(completed.contains n))).length < (nid :: rest).length := by
  obtain ⟨st', tr, h, _, hsub, _, _⟩ := bulkSyncTablesLoop_spec env rng hrng
    ((st.db.thisNodeNetworks.filter (fun kv => !kv.2.leaving)).map Prod.fst).length 0
    ((st.db.thisNodeNetworks.filter (fun kv => !kv.2.leaving)).map Prod.fst) st (le_refl _) hwf
  refine ⟨st', tr, h, ?_, ?_, ?_⟩
  · have := hsub.length_le
    simpa using this
  · intro fuel hfuel
    rw [bulkSyncTablesLoop_fuel env rng fuel _ 0 _ st hfuel (le_refl _)]
    exact h
  · intro nid rest completed
    have := List.length_filter_le (fun n => !(completed.contains n)) rest
    simp only [List.length_cons]
    omega

theorem bulkSyncTables_terminates_witness :
    ∃ st' tr, bulkSyncTables flakyEnv (fun _ => exampleRng) exampleState = some (st', tr) ∧
      tr.length ≤ (exampleState.db.thisNodeNetworks.filter (fun kv => !kv.2.leaving)).length ∧
      (∀ fuel,
        ((exampleState.db.thisNodeNetworks.filter
          (fun kv => !kv.2.leaving)).map Prod.fst).length ≤ fuel →
        bulkSyncTablesLoop flakyEnv (fun _ => exampleRng) fuel 0
          ((exampleState.db.thisNodeNetworks.filter (fun kv => !kv.2.leaving)).map Prod.fst)
          exampleState = some (st', tr)) ∧
      ∀ (nid : Str) (rest completed : List Str),
        (rest.filter (fun n => !(completed.contains n))).length < (nid :: rest).length :=
  bulkSyncTables_terminates flakyEnv (fun _ => exampleRng) exampleState
    (by
      intro leaf h
      simp only [exampleState, exampleDB, List.mem_cons, List.mem_singleton, List.not_mem_nil,
        or_false] at h
      rcases h with rfl | rfl
      · exact ⟨net1, tbl, key0, rfl⟩
      · exact ⟨net1, tbl, "k1".toList, rfl⟩)
    (fun _ n => exampleRng_valid n)

/-! ## Entry reaper: live entries -/

/-- The three outcomes of a visit of the entry reaper at an entry path: a
live entry changes nothing, a tombstone with time left has its reap counter
reduced, and a tombstone that is due is deleted under the three pieces of its
path. -/
theorem reapVisit_cases (c : Duration) (db : NetworkDB) (q : Str) (w : Nat)
    (hq : isEntryPath q = true) :
    ∃ db', reapVisit c db q w = some db' ∧
      (((db.heap w).deleting = false ∧ db' = db) ∨
       ((db.heap w).deleting = true ∧
         db' = { db with
           heap := Function.update db.heap w
             { db.heap w with
               reapTime := Duration.sub (db.heap w).reapTime (Duration.add reapPeriod c) } }) ∨
       ((db.heap w).deleting = true ∧ ∃ a b k, q = mkPath a b k ∧ '/' ∉ a ∧ '/' ∉ b ∧ '/' ∉ k ∧
         db' = (deleteEntry db a b k).1)) := by
  obtain ⟨a, b, k, rest, hp, hsplit, hmk, ha, hb, hk⟩ := isEntryPath_elim hq
  by_cases hdel : (db.heap w).deleting = true
  · by_cases hgt : (db.heap w).reapTime > Duration.add (Duration.add reapPeriod c) Second
    · refine ⟨_, ?_, Or.inr (Or.inl ⟨hdel, rfl⟩)⟩
      unfold reapVisit
      simp only [hdel, Bool.not_true, Bool.false_eq_true, if_false]
      rw [if_pos hgt]
    · refine ⟨(deleteEntry db a b k).1, ?_,
        Or.inr (Or.inr ⟨hdel, a, b, k, hmk, ha, hb, hk, rfl⟩)⟩
      subst hp
      unfold reapVisit
      simp only [hdel, Bool.not_true, Bool.false_eq_true, if_false]
      rw [if_neg hgt]
      simp [hsplit]
  · simp only [Bool.not_eq_true] at hdel
    exact ⟨db, by simp [reapVisit, hdel], Or.inl ⟨hdel, rfl⟩⟩

/-- A visit of the entry reaper at an entry path leaves a live entry in both
indexes with its record `e`, as long as the visited leaf is the entry itself
or sits at another path. -/
theorem reapVisit_live_kept {nid tname key : Str} {v : Nat} {e : entry} {db : NetworkDB}
    (hlive : e.deleting = false)
    (hns : '/' ∉ nid ∧ '/' ∉ tname ∧ '/' ∉ key)
    (hN : (mkPath nid tname key, v) ∈ db.byNetwork)
    (hT : (mkPath tname nid key, v) ∈ db.byTable)
    (hval : db.heap v = e)
    (c : Duration) (q : Str) (w : Nat) (hq : isEntryPath q = true)
    (hown : q = mkPath nid tname key → w = v) :
    ∃ db', reapVisit c db q w = some db' ∧
      (mkPath nid tname key, v) ∈ db'.byNetwork ∧
      (mkPath tname nid key, v) ∈ db'.byTable ∧
      db'.heap v = e ∧ db'.byNetwork.Sublist db.byNetwork := by
  obtain ⟨db', hv, hcase⟩ := reapVisit_cases c db q w hq
  refine ⟨db', hv, ?_⟩
  rcases hcase with ⟨_, rfl⟩ | ⟨hdel, rfl⟩ | ⟨hdel, a, b, k, hqk, ha, hb, hk, rfl⟩
  · exact ⟨hN, hT, hval, List.Sublist.refl _⟩
  · have hwv : w ≠ v := by
      intro h
      rw [h, hval, hlive] at hdel
      cases hdel
    refine ⟨hN, hT, ?_, List.Sublist.refl _⟩
    show Function.update db.heap w _ v = e
    rw [Function.update_noteq hwv.symm]
    exact hval
  · have hwv : w ≠ v := by
      intro h
      rw [h, hval, hlive] at hdel
      cases hdel
    have hne : mkPath a b k ≠ mkPath nid tname key := by
      intro h
      exact hwv (hown (hqk.trans h))
    have hneT : mkPath b a k ≠ mkPath tname nid key := by
      intro h
      obtain ⟨h1, h2, h3⟩ := mkPath_inj hb ha hk hns.2.1 hns.1 hns.2.2 h
      exact hne (by rw [h1, h2, h3])
    refine ⟨?_, ?_, hval, ?_⟩
    · rw [deleteEntry_byNetwork]
      exact List.mem_filter.mpr ⟨hN, by simpa using fun h => hne h.symm⟩
    · rw [deleteEntry_byTable]
      exact List.mem_filter.mpr ⟨hT, by simpa using fun h => hneT h.symm⟩
    · rw [deleteEntry_byNetwork]
      exact List.filter_sublist _

theorem reapWalk_live_kept {nid tname key : Str} {v : Nat} {e : entry}
    (clock : Nat → Duration) (hlive : e.deleting = false)
    (hns : '/' ∉ nid ∧ '/' ∉ tname ∧ '/' ∉ key) :
    ∀ (L : Index) (s : Nat × NetworkDB),
      (mkPath nid tname key, v) ∈ s.2.byNetwork →
      (mkPath tname nid key, v) ∈ s.2.byTable →
      s.2.heap v = e →
      (∀ leaf ∈ L, isEntryPath leaf.1 = true ∧ (leaf.1 = mkPath nid tname key → leaf.2 = v)) →
      ∃ s', reapWalk clock L s = some s' ∧
        (mkPath nid tname key, v) ∈ s'.2.byNetwork ∧
        (mkPath tname nid key, v) ∈ s'.2.byTable ∧
        s'.2.heap v = e ∧ s'.2.byNetwork.Sublist s.2.byNetwork := by
  intro L
  induction L with
  | nil =>
    intro s hN hT hval _
    exact ⟨s, rfl, hN, hT, hval, List.Sublist.refl _⟩
  | cons leaf rest ih =>
    intro s hN hT hval hL
    obtain ⟨hq, hown⟩ := hL leaf (List.mem_cons_self _ _)
    obtain ⟨db1, hv, hN1, hT1, hval1, hsub1⟩ :=
      reapVisit_live_kept hlive hns hN hT hval (clock s.1) leaf.1 leaf.2 hq hown
    obtain ⟨s', hw, hN2, hT2, hval2, hsub2⟩ := ih (s.1 + 1, db1) hN1 hT1 hval1
      (fun l hl => hL l (List.mem_cons_of_mem _ hl))
    refine ⟨s', ?_, hN2, hT2, hval2, hsub2.trans hsub1⟩
    simp only [reapWalk, hv, Option.bind_some]
    exact hw

theorem reapLoop_live_kept {nid tname key : Str} {v : Nat} {e : entry}
    (clock : Nat → Duration) (hlive : e.deleting = false)
    (hns : '/' ∉ nid ∧ '/' ∉ tname ∧ '/' ∉ key) :
    ∀ (K : List Str) (s : Nat × NetworkDB),
      (mkPath nid tname key, v) ∈ s.2.byNetwork →
      (mkPath tname nid key, v) ∈ s.2.byTable →
      s.2.heap v = e →
      (∀ leaf ∈ s.2.byNetwork,
        isEntryPath leaf.1 = true ∧ (leaf.1 = mkPath nid tname key → leaf.2 = v)) →
      ∃ s', reapLoop clock K s = some s' ∧
        (mkPath nid tname key, v) ∈ s'.2.byNetwork ∧
        (mkPath tname nid key, v) ∈ s'.2.byTable ∧
        s'.2.heap v = e := by
  intro K
  induction K with
  | nil =>
    intro s hN hT hval _
    exact ⟨s, rfl, hN, hT, hval⟩
  | cons x rest ih =>
    intro s hN hT hval hJ
    obtain ⟨s1, hw, hN1, hT1, hval1, hsub1⟩ :=
      reapWalk_live_kept clock hlive hns (WalkPrefix s.2.byNetwork ('/' :: x)) s hN hT hval
        (fun l hl => hJ l (List.mem_of_mem_filter hl))
    obtain ⟨s', hl, hN2, hT2, hval2⟩ := ih s1 hN1 hT1 hval1
      (fun l hl => hJ l (hsub1.subset hl))
    refine ⟨s', ?_, hN2, hT2, hval2⟩
    simp only [reapLoop, hw, Option.bind_some]
    exact hl

theorem snd_eq_of_nodup_fst {l : Index} (hnd : (l.map Prod.fst).Nodup) {p : Str} {v : Nat}
    (hmem : (p, v) ∈ l) : ∀ leaf ∈ l, leaf.1 = p → leaf.2 = v := by
  intro leaf hleaf h
  have := List.inj_on_of_nodup_map hnd hleaf hmem h
  rw [this]

/-- C22 (amended): in a store whose leaf paths are entry paths (network ids,
table names and keys free of `"/"`, one leaf per path), a pass of
`reapTableEntries` returns and leaves every live entry in both indexes with
its record (value, ltime, author, reapTime, deleting flag) as before, for every
time compensation, every set of joined networks and every set of tombstones
around it. -/
theorem reapTableEntries_keeps_live (clock : Nat → Duration) (db : NetworkDB)
    (nid tname key : Str) (v : Nat)
    (hwf : ∀ leaf ∈ db.byNetwork, isEntryPath leaf.1 = true)
    (hndPath : (db.byNetwork.map Prod.fst).Nodup)
    (hN : (mkPath nid tname key, v) ∈ db.byNetwork)
    (hT : (mkPath tname nid key, v) ∈ db.byTable)
    (hlive : (db.heap v).deleting = false) :
    ∃ db', reapTableEntries clock db = some db' ∧
      (mkPath nid tname key, v) ∈ db'.byNetwork ∧
      (mkPath tname nid key, v) ∈ db'.byTable ∧
      db'.heap v = db.heap v := by
  have hns := noSlash_of_isEntryPath_mkPath (hwf _ hN)
  obtain ⟨s', hl, hN', hT', hval'⟩ :=
    reapLoop_live_kept clock hlive hns (db.thisNodeNetworks.map Prod.fst) (0, db) hN hT rfl
      (fun leaf hleaf => ⟨hwf leaf hleaf, snd_eq_of_nodup_fst hndPath hN leaf hleaf⟩)
  refine ⟨s'.2, ?_, hN', hT', hval'⟩
  unfold reapTableEntries
  rw [hl]
  rfl

theorem reapTableEntries_keeps_live_witness :
    ∃ db', reapTableEntries (fun _ => 11 * Second) exampleDB = some db' ∧
      (mkPath net1 tbl "k1".toList, 1) ∈ db'.byNetwork ∧
      (mkPath tbl net1 "k1".toList, 1) ∈ db'.byTable ∧
      db'.heap 1 = exampleDB.heap 1 :=
  reapTableEntries_keeps_live (fun _ => 11 * Second) exampleDB net1 tbl "k1".toList 1
    (by decide) (by decide) (by decide) (by decide) (by decide)

/-- C22 (as stated, refuted): the store holds a live entry under the key `a`
and a due tombstone under the key `a/b` of the same table and network; one
pass of `reapTableEntries` removes the live entry from both indexes and
leaves the tombstone. -/
theorem reapTableEntries_removes_live_entry :
    (slashLiveDB.heap 1).deleting = false ∧
    ("/net1/t/a".toList, 1) ∈ slashLiveDB.byNetwork ∧
    ("/t/net1/a".toList, 1) ∈ slashLiveDB.byTable ∧
    (reapTableEntries (fun _ => 0) slashLiveDB).map (fun db => (db.byNetwork, db.byTable))
      = some ([("/net1/t/a/b".toList, 0)], [("/t/net1/a/b".toList, 0)]) := by
  decide

/-! ## Entry reaper: visits of one cycle -/

theorem unmountMatches_calls (re : Regexp) (unmount : Nat → Str → Option Str) (mnt : Str) :
    ∀ (ps : List Str) (st : Cleanup),
      (unmountMatches re unmount mnt ps st).calls
        = st.calls ++ (ps.filter (fun p => re.MatchString p mnt)).map (fun _ => mnt) := by
  intro ps
  induction ps with
  | nil => intro st; simp [unmountMatches]
  | cons p ps ih =>
    intro st
    unfold unmountMatches
    by_cases hm : re.MatchString p mnt = true
    · rw [if_pos hm]
      cases unmount st.calls.length mnt with
      | none => simp [ih, hm]
      | some e => simp [ih, hm]
    · rw [if_neg hm]
      simp [ih, hm]

/-- The targets of the `unmount` calls made by the scan of the reader: for
every line with more than four fields whose fifth field starts with `root`,
one call per pattern that matches the fifth field. -/
theorem cleanupScan_calls (re : Regexp) (root : Str) (regexps : List Str)
    (unmount : Nat → Str → Option Str) :
    ∀ (lines : List Str) (st : Cleanup),
      (cleanupScan re root regexps unmount lines st).calls
        = st.calls ++ lines.flatMap (fun line =>
            if 4 < (Fields line).length ∧ root.isPrefixOf ((Fields line).getD 4 []) = true then
              (regexps.filter (fun p => re.MatchString p ((Fields line).getD 4 []))).map
                (fun _ => (Fields line).getD 4 [])
            else []) := by
  intro lines
  induction lines with
  | nil => intro st; simp [cleanupScan]
  | cons line rest ih =>
    intro st
    unfold cleanupScan
    by_cases h4 : 4 < (Fields line).length
    · by_cases hp : root.isPrefixOf ((Fields line).getD 4 []) = true
      · simp only [h4, hp, if_true, ih, unmountMatches_calls, List.flatMap_cons, and_self,
          List.append_assoc]
      · simp only [h4, hp, if_true, ih, List.flatMap_cons, and_false, if_false,
          List.nil_append, Bool.false_eq_true]
    · simp only [h4, if_false, ih, List.flatMap_cons, false_and, List.nil_append]

/-- C28 (amended): `cleanupMountsFromReaderByID` calls `unmount` only on
mount points (the fifth field of a line of the reader) whose text starts with
the daemon root string and that match one of the clean patterns for the given
id; when the daemon root is empty it calls `unmount` on nothing and returns
nil. -/
theorem cleanupMountsFromReaderByID_targets (re : Regexp) (root : Str) (lines : List Str)
    (scanErr : Option Str) (id : Str) (unmount : Nat → Str → Option Str) :
    (∀ target ∈ (cleanupMountsFromReaderByID re root lines scanErr id unmount).1,
      ∃ line ∈ lines, 4 < (Fields line).length ∧ (Fields line).getD 4 [] = target ∧
        root.isPrefixOf target = true ∧
        ∃ p ∈ getCleanPatterns re id, re.MatchString p target = true) ∧
    (root = [] → cleanupMountsFromReaderByID re root lines scanErr id unmount = ([], none)) := by
  constructor
  · intro target ht
    have hcalls : target ∈
        (cleanupScan re root (getCleanPatterns re id) unmount lines
          { calls := [], errs := [] }).calls := by
      unfold cleanupMountsFromReaderByID at ht
      by_cases hroot : root.isEmpty = true
      · simp [hroot] at ht
      · simp only [hroot, if_false, Bool.false_eq_true] at ht
        cases scanErr with
        | some e => exact ht
        | none =>
          simp only at ht
          split at ht
          · exact ht
          · exact ht
    rw [cleanupScan_calls] at hcalls
    simp only [List.nil_append, List.mem_flatMap] at hcalls
    obtain ⟨line, hline, hmem⟩ := hcalls
    by_cases hc : 4 < (Fields line).length ∧ root.isPrefixOf ((Fields line).getD 4 []) = true
    · rw [if_pos hc] at hmem
      simp only [List.mem_map, List.mem_filter] at hmem
      obtain ⟨p, ⟨hp, hmatch⟩, rfl⟩ := hmem
      exact ⟨line, hline, hc.1, rfl, hc.2, p, hp, hmatch⟩
    · rw [if_neg hc] at hmem
      cases hmem
  · intro hroot
    subst hroot
    rfl

/-- C28 (as stated, refuted): with the daemon root `/var/lib/docker` and the
id `abc`, the cleanup calls `unmount` on `/var/lib/docker2/overlay2/abc/merged`,
a mount point that is neither the root nor a path below it, and then on the
mount point below the root. -/
theorem cleanupMountsFromReaderByID_unmounts_sibling :
    cleanupMountsFromReaderByID literalRegexp "/var/lib/docker".toList
        [siblingMountLine, ownMountLine] none "abc".toList (fun _ _ => none)
      = (["/var/lib/docker2/overlay2/abc/merged".toList,
          "/var/lib/docker/overlay2/abc/merged".toList], none) ∧
    insideRoot "/var/lib/docker".toList "/var/lib/docker2/overlay2/abc/merged".toList = false ∧
    insideRoot "/var/lib/docker".toList "/var/lib/docker/overlay2/abc/merged".toList = true := by
  decide

/-! ## Child images -/

/-- C29: for a child configuration whose `ContainerConfig` is not nil, and
`RootFS` operations that keep their contract, `NewChildImage(parent, child,
os)` returns an image whose `History` is the history of the parent followed
by one new entry, with `EmptyLayer` set exactly when `child.DiffID` is the
empty layer; whose `RootFS` layer list is the list of the parent followed by
`child.DiffID` when that layer is not empty, and the list of the parent
otherwise; whose `Variant`, `OSVersion` and `OSFeatures` are those of the
parent; and whose `OS` is the `os` argument. -/
theorem NewChildImage_spec {R : Type} (env : ImageEnv R) (img : Image R) (child : ChildConfig)
    (os : Str) (cc : Config) (henv : env.RootFSContract)
    (hcc : child.ContainerConfig = some cc) :
    ∃ out h, NewChildImage env img child os = some out ∧
      out.History = img.History ++ [h] ∧
      h.EmptyLayer = env.IsEmpty child.DiffID ∧
      layersOf env out.RootFS
        = (if env.IsEmpty child.DiffID then layersOf env img.RootFS
           else layersOf env img.RootFS ++ [child.DiffID]) ∧
      out.Variant = img.Variant ∧ out.OSVersion = img.OSVersion ∧
      out.OSFeatures = img.OSFeatures ∧ out.OS = os := by
  obtain ⟨hclone, hnew, happend⟩ := henv
  have hbase : env.DiffIDs
      (match img.RootFS with
        | some r => env.Clone r
        | none => env.NewRootFS) = layersOf env img.RootFS := by
    cases img.RootFS with
    | none => exact hnew
    | some r => exact hclone r
  unfold NewChildImage
  simp only [hcc]
  refine ⟨_, NewHistory env child.Author child.Comment (stringsJoin " ".toList cc.Cmd)
    (env.IsEmpty child.DiffID), rfl, rfl, rfl, ?_, rfl, rfl, rfl, rfl⟩
  by_cases he : env.IsEmpty child.DiffID = true
  · simp only [he, layersOf, Bool.not_true, Bool.false_eq_true, if_false, if_true]
    exact hbase
  · simp only [Bool.not_eq_true] at he
    simp only [he, layersOf, Bool.not_false, if_true, Bool.false_eq_true, if_false]
    rw [happend, hbase]
    rfl

theorem NewChildImage_spec_witness :
    ∃ out h, NewChildImage exampleImageEnv parentImage exampleChild "linux".toList = some out ∧
      out.History = parentImage.History ++ [h] ∧
      h.EmptyLayer = exampleImageEnv.IsEmpty exampleChild.DiffID ∧
      layersOf exampleImageEnv out.RootFS
        = (if exampleImageEnv.IsEmpty exampleChild.DiffID then
             layersOf exampleImageEnv parentImage.RootFS
           else layersOf exampleImageEnv parentImage.RootFS ++ [exampleChild.DiffID]) ∧
      out.Variant = parentImage.Variant ∧ out.OSVersion = parentImage.OSVersion ∧
      out.OSFeatures = parentImage.OSFeatures ∧ out.OS = "linux".toList :=
  NewChildImage_spec exampleImageEnv parentImage exampleChild "linux".toList
    { Cmd := ["sh".toList, "-c".toList] } ⟨fun _ => rfl, rfl, fun _ _ => rfl⟩ rfl

end Networkdb
